import Mathlib

/-!
defGameEngine: pixel model, pixel buffer and software compositor

A shallow embedding of the parts of `defGameEngine.hpp` that the software
drawing path is built on (`def::Pixel`, `def::Sprite`, `def::GameEngine::Draw`),
followed by theorems about them.

Conventions of the embedding

* `uint8_t` channels are `Fin 256`; a conversion `uint8_t(e)` is `toU8 e`,
  which reduces modulo 256.
* `int` values are `Int`.  Signed overflow is undefined in C++, so the model
  describes the executions in which no `int` expression overflows.
* `std::vector<Pixel>` is `List Pixel`.  Indexing outside the vector is
  undefined in C++; the model reads `BLACK` and writes nothing there, and every
  theorem that depends on the element read or written assumes the buffer
  invariant `Sprite.Inv`, under which the index is proved to be in range.
* A `float` scalar operand of a `Pixel` operator ranges over the
  integer-valued floats and is an `Int`: for such an operand the float sum
  `(float)c + rhs` is exact while it is below `2^24` in magnitude and stays
  outside `[0,255]` beyond that, so `std::clamp(.., 0.0f, 255.0f)` followed by
  the truncating conversion is the integer clamp.
* The ALPHA case of `Draw` blends in binary floating point through
  `std::lerp`; the blend of three bytes is a parameter of `Draw`, constrained
  only where the floating-point result is exact.
* A drawing routine (`DrawLine`, `FillRectangle`, `DrawCircle`, `FillCircle`)
  never reads a result of `Draw` nor the target, so it is the run of `Draw`
  over the sequence of positions its loops produce; that sequence is the
  definition `plots` of the routine, "the positions it plots".  A `while` loop
  is a function with an iteration bound, set where the loop is entered to the
  number of iterations after which its test is false, and lemmas `_fuel` show
  that a larger bound changes nothing.
* The texture builder computes in `float`; it is written against the
  operations of `FloatArith`, of which nothing is assumed.
* `Assert(expr, ..)` prints and calls `exit(1)` when `expr` is false: a
  function that may abort returns `Option`, with `none` for the abort.
* The product and the quotient of a `Pixel` by a `float` scalar compute each
  channel in `float`; that computation is a parameter `chan` of the operator,
  `none` where the conversion to `uint8_t` is undefined.  A division of
  integers by zero is undefined and is `none` as well.
* The argument `const Sprite* sprite` of `DrawSprite` and `DrawPartialSprite`
  is a `SpriteArg`: a sprite object other than the sprite of the draw target,
  or the sprite of the draw target itself, which the `Draw` calls of the
  routine change while it is read.
* `PathFinder` is embedded up to the fields `SetNodes` reads and assigns; a
  pointer into the node array is the index of the element it addresses.
-/

namespace DGE

/-- The conversion `uint8_t(i)` of an `int`: reduction modulo 256. -/
def toU8 (i : Int) : Fin 256 :=
  ⟨(i % 256).toNat, by omega⟩

/-- The function `std::clamp(v, lo, hi)`. -/
def clamp (v lo hi : Int) : Int :=
  if v < lo then lo else if hi < v then hi else v

/-- The instance `vi2d` of `vec2d<T>`. -/
structure Vi2d where
  x : Int
  y : Int
deriving DecidableEq

/-- The struct `Pixel`; `Pixel(r, g, b, a = 0xFF)` is the structure
constructor with its default alpha. -/
structure Pixel where
  r : Fin 256
  g : Fin 256
  b : Fin 256
  a : Fin 256 := 255
deriving DecidableEq

/-- The enumeration `Pixel::Mode`. -/
inductive Pixel.Mode where
  | DEFAULT
  | ALPHA
  | MASK
  | CUSTOM
deriving DecidableEq

/-- The colour constant `BLACK(0, 0, 0)`, alpha `0xFF` by default. -/
def BLACK : Pixel := { r := 0, g := 0, b := 0 }

/-- The colour constant `RED(255, 0, 0)`. -/
def RED : Pixel := { r := 255, g := 0, b := 0 }

/-- The colour constant `WHITE(255, 255, 255)`. -/
def WHITE : Pixel := { r := 255, g := 255, b := 255 }

/-- The colour constant `NONE(0, 0, 0, 0)`. -/
def NONE : Pixel := { r := 0, g := 0, b := 0, a := 0 }

/-- The default construction `Pixel()`, `Pixel(uint32_t rgba = 0x000000FF)`,
with the union read on a little-endian machine. -/
def Pixel.value_init : Pixel := { r := 255, g := 0, b := 0, a := 0 }

/-- The function `Assert(expr, args...)`: returns when `expr` holds, otherwise
prints the arguments and exits the process (`none`). -/
def Assert (expr : Bool) : Option Unit :=
  if !expr then none else some ()

namespace Pixel

/-- One channel of `Pixel::operator+(float)` and `operator+=(float)`:
`uint8_t(std::clamp((float)c + rhs, 0.0f, 255.0f))`. -/
def plus_float_channel (c : Fin 256) (rhs : Int) : Fin 256 :=
  toU8 (clamp ((c.val : Int) + rhs) 0 255)

/-- One channel of `Pixel::operator-(float)` and `operator-=(float)`:
`uint8_t(std::clamp((float)c - rhs, 0.0f, 255.0f))`. -/
def minus_float_channel (c : Fin 256) (rhs : Int) : Fin 256 :=
  toU8 (clamp ((c.val : Int) - rhs) 0 255)

/-- The operator `Pixel::operator+=(const float rhs)`: r, g and b are
assigned, a is not touched. -/
def operator_plus_eq_float (p : Pixel) (rhs : Int) : Pixel :=
  { p with
    r := plus_float_channel p.r rhs
    g := plus_float_channel p.g rhs
    b := plus_float_channel p.b rhs }

/-- The operator `Pixel::operator-=(const float rhs)`. -/
def operator_minus_eq_float (p : Pixel) (rhs : Int) : Pixel :=
  { p with
    r := minus_float_channel p.r rhs
    g := minus_float_channel p.g rhs
    b := minus_float_channel p.b rhs }

/-- The operator `Pixel::operator+(const float rhs) const`: a new pixel built
with the three-argument constructor. -/
def operator_plus_float (p : Pixel) (rhs : Int) : Pixel :=
  { r := plus_float_channel p.r rhs
    g := plus_float_channel p.g rhs
    b := plus_float_channel p.b rhs }

/-- The operator `Pixel::operator-(const float rhs) const`. -/
def operator_minus_float (p : Pixel) (rhs : Int) : Pixel :=
  { r := minus_float_channel p.r rhs
    g := minus_float_channel p.g rhs
    b := minus_float_channel p.b rhs }

/-- The operator `Pixel::operator+=(const Pixel& rhs)`. -/
def operator_plus_eq (p rhs : Pixel) : Pixel :=
  { p with
    r := toU8 (clamp ((p.r.val : Int) + (rhs.r.val : Int)) 0 255)
    g := toU8 (clamp ((p.g.val : Int) + (rhs.g.val : Int)) 0 255)
    b := toU8 (clamp ((p.b.val : Int) + (rhs.b.val : Int)) 0 255) }

/-- The operator `Pixel::operator-=(const Pixel& rhs)`. -/
def operator_minus_eq (p rhs : Pixel) : Pixel :=
  { p with
    r := toU8 (clamp ((p.r.val : Int) - (rhs.r.val : Int)) 0 255)
    g := toU8 (clamp ((p.g.val : Int) - (rhs.g.val : Int)) 0 255)
    b := toU8 (clamp ((p.b.val : Int) - (rhs.b.val : Int)) 0 255) }

/-- The operator `Pixel::operator+(const Pixel& rhs) const`. -/
def operator_plus (p rhs : Pixel) : Pixel :=
  { r := toU8 (clamp ((p.r.val : Int) + (rhs.r.val : Int)) 0 255)
    g := toU8 (clamp ((p.g.val : Int) + (rhs.g.val : Int)) 0 255)
    b := toU8 (clamp ((p.b.val : Int) + (rhs.b.val : Int)) 0 255) }

/-- The operator `Pixel::operator-(const Pixel& rhs) const`. -/
def operator_minus (p rhs : Pixel) : Pixel :=
  { r := toU8 (clamp ((p.r.val : Int) - (rhs.r.val : Int)) 0 255)
    g := toU8 (clamp ((p.g.val : Int) - (rhs.g.val : Int)) 0 255)
    b := toU8 (clamp ((p.b.val : Int) - (rhs.b.val : Int)) 0 255) }

/-- The operator `Pixel::operator==(const Pixel& rhs) const`. -/
def operator_eq (p rhs : Pixel) : Bool :=
  p.r == rhs.r && p.g == rhs.g && p.b == rhs.b

/-- The operator `Pixel::operator!=(const Pixel& rhs) const`. -/
def operator_ne (p rhs : Pixel) : Bool :=
  p.r != rhs.r || p.g != rhs.g || p.b != rhs.b

end Pixel

/-- The class `Sprite`: its `size` and its `pixels` vector. -/
structure Sprite where
  size : Vi2d
  pixels : List Pixel
deriving DecidableEq

/-- The enumeration `Sprite::WrapMethod`. -/
inductive Sprite.WrapMethod where
  | NONE
  | REPEAT
  | MIRROR
  | CLAMP
deriving DecidableEq

namespace Sprite

/-- The read `pixels[i]` of the vector with an `int` index. -/
def pixelsAt (s : Sprite) (i : Int) : Pixel :=
  if 0 ≤ i then s.pixels.getD i.toNat BLACK else BLACK

/-- The write `pixels[i] = col` of the vector with an `int` index. -/
def pixelsSet (s : Sprite) (i : Int) (col : Pixel) : Sprite :=
  if 0 ≤ i then { s with pixels := s.pixels.set i.toNat col } else s

/-- The buffer invariant: the vector holds `size.x * size.y` pixels. -/
def Inv (s : Sprite) : Prop :=
  (s.pixels.length : Int) = s.size.x * s.size.y

instance (s : Sprite) : Decidable s.Inv :=
  inferInstanceAs (Decidable ((s.pixels.length : Int) = s.size.x * s.size.y))

/-- The bounds test `x >= 0 && y >= 0 && x < size.x && y < size.y` shared by
`SetPixel` and `GetPixel`. -/
def inBounds (s : Sprite) (x y : Int) : Bool :=
  decide (x ≥ 0) && decide (y ≥ 0) && decide (x < s.size.x) && decide (y < s.size.y)

/-- The call `pixels.resize(n)` of the vector: keeps the first `n` elements
and appends value-initialised pixels `Pixel()` up to length `n`. -/
def resize (pixels : List Pixel) (n : Nat) : List Pixel :=
  pixels.take n ++ List.replicate (n - pixels.length) Pixel.value_init

/-- The call `std::fill(pixels.begin(), pixels.end(), col)`. -/
def fill (pixels : List Pixel) (col : Pixel) : List Pixel :=
  pixels.map (fun _ => col)

/-- The method `Sprite::Create(const vi2d& size)`: after the assertion the
old contents are cleared, so the result depends on `size` only. -/
def Create (size : Vi2d) : Option Sprite := do
  Assert (decide (size.x > 0) && decide (size.y > 0))
  let pixels : List Pixel := []
  let pixels := resize pixels (size.x * size.y).toNat
  pure { size := size, pixels := fill pixels BLACK }

/-- The method `Sprite::SetPixel(int x, int y, const Pixel& col)`: the
returned flag and the sprite after the call. -/
def SetPixel (s : Sprite) (x y : Int) (col : Pixel) : Bool × Sprite :=
  if s.inBounds x y then
    (true, s.pixelsSet (y * s.size.x + x) col)
  else
    (false, s)

/-- The buffer index `GetPixel(x, y, wrap)` reads, `none` when it reads no
element: the local lambda reads `pixels[y * size.x + x]` at the coordinates
each wrap method computes. -/
def GetPixel.index (s : Sprite) (x y : Int) (wrap : WrapMethod) : Option Int :=
  let GetPixel := fun (x y : Int) => y * s.size.x + x
  match wrap with
  | .NONE =>
    if s.inBounds x y then some (GetPixel x y) else none
  | .REPEAT =>
    some (GetPixel (Int.tmod (x.natAbs : Int) s.size.x) (Int.tmod (y.natAbs : Int) s.size.y))
  | .MIRROR =>
    let mx := if x < 0 then s.size.x - 1 - Int.tmod (x.natAbs : Int) s.size.x
              else Int.tmod (x.natAbs : Int) s.size.x
    let my := if y < 0 then s.size.y - 1 - Int.tmod (y.natAbs : Int) s.size.y
              else Int.tmod (y.natAbs : Int) s.size.y
    some (GetPixel mx my)
  | .CLAMP =>
    let cx := clamp x 0 (s.size.x - 1)
    let cy := clamp y 0 (s.size.y - 1)
    some (GetPixel cx cy)

/-- The method `Sprite::GetPixel(int x, int y, const WrapMethod wrap)`: the
element at the index the wrap method addresses, and `BLACK` after the switch
when no element is read. -/
def GetPixel (s : Sprite) (x y : Int) (wrap : WrapMethod := WrapMethod.NONE) : Pixel :=
  match GetPixel.index s x y wrap with
  | some i => s.pixelsAt i
  | none => BLACK

/-- The method `Sprite::SetPixelData(const Pixel& col)`. -/
def SetPixelData (s : Sprite) (col : Pixel) : Sprite :=
  { s with pixels := fill s.pixels col }

end Sprite

/-- The struct `Graphic` as far as software drawing uses it: the sprite it
points to (the texture handle belongs to the renderer). -/
structure Graphic where
  sprite : Sprite

/-- The fields of `GameEngine` that `Draw` reads: the draw target
(`none` for `nullptr`), the pixel mode and the shader hook (`none` for
`nullptr`). -/
structure GameEngine where
  m_DrawTarget : Option Graphic
  m_PixelMode : Pixel.Mode
  m_Shader : Option (Vi2d → Pixel → Pixel → Pixel)

/-- The channel blend of the ALPHA case of `Draw`, evaluated in exact
arithmetic: the truncation of `d + (a/255) * (c - d)`, which is not negative
and so is the integer quotient of `255 * d + a * (c - d)` by 255.  It is one
instance of the `blend` parameter of `Draw`. -/
def lerp_channel (d c a : Fin 256) : Fin 256 :=
  toU8 ((255 * (d.val : Int) + (a.val : Int) * ((c.val : Int) - (d.val : Int))) / 255)

/-- The end-point behaviour of a channel blend
`uint8_t(std::lerp(d, c, (float)a / 255.0f))`: the factor is exactly `0.0f` at
`a = 0` and exactly `1.0f` at `a = 255`, and `std::lerp(d, c, 0) == d`,
`std::lerp(d, c, 1) == c` hold exactly for finite arguments. -/
def ExactEndpoints (blend : Fin 256 → Fin 256 → Fin 256 → Fin 256) : Prop :=
  (∀ d c : Fin 256, blend d c 0 = d) ∧ (∀ d c : Fin 256, blend d c 255 = c)

namespace GameEngine

/-- The engine with the sprite of its draw target replaced: the effect of a
write through `m_DrawTarget->sprite`. -/
def withTarget (e : GameEngine) (s : Sprite) : GameEngine :=
  { e with m_DrawTarget := some { sprite := s } }

/-- The method `GameEngine::Draw(int x, int y, const Pixel& col)`: the
returned flag and the engine after the call; `none` when the CUSTOM case calls
a null `m_Shader`.  The ALPHA case computes each channel as
`uint8_t(std::lerp(d, c, (float)col.a / 255.0f))` in binary floating point;
that function of the three bytes is the parameter `blend`. -/
def Draw (blend : Fin 256 → Fin 256 → Fin 256 → Fin 256) (e : GameEngine) (x y : Int)
    (col : Pixel) : Option (Bool × GameEngine) :=
  match e.m_DrawTarget with
  | none => some (false, e)
  | some drawTarget =>
    let target := drawTarget.sprite
    match e.m_PixelMode with
    | .CUSTOM =>
      match e.m_Shader with
      | none => none
      | some m_Shader =>
        let res := target.SetPixel x y (m_Shader { x := x, y := y } (target.GetPixel x y) col)
        some (res.1, e.withTarget res.2)
    | .DEFAULT =>
      let res := target.SetPixel x y col
      some (res.1, e.withTarget res.2)
    | .MASK =>
      if col.a = 255 then
        let res := target.SetPixel x y col
        some (res.1, e.withTarget res.2)
      else
        some (false, e)
    | .ALPHA =>
      let d := target.GetPixel x y
      let r := blend d.r col.r col.a
      let g := blend d.g col.g col.a
      let b := blend d.b col.b col.a
      let res := target.SetPixel x y { r := r, g := g, b := b }
      some (res.1, e.withTarget res.2)

/-- The method `GameEngine::Clear(const Pixel& col)`; `none` when there is no
draw target to dereference. -/
def Clear (e : GameEngine) (col : Pixel) : Option GameEngine :=
  match e.m_DrawTarget with
  | none => none
  | some g => some (e.withTarget (g.sprite.SetPixelData col))

end GameEngine

/-- The fields `Draw` reads as the constructor `GameEngine::GameEngine()`
leaves them: no draw target, mode DEFAULT, no shader. -/
def GameEngine.constructed : GameEngine :=
  { m_DrawTarget := none, m_PixelMode := Pixel.Mode.DEFAULT, m_Shader := none }

/-- The engine drawing into sprite `s` in the given pixel mode, no shader
installed. -/
def GameEngine.onSprite (s : Sprite) (mode : Pixel.Mode) : GameEngine :=
  { m_DrawTarget := some { sprite := s }, m_PixelMode := mode, m_Shader := none }

/-- A 2x2 sprite with four distinct pixels. -/
def sprite2x2 : Sprite :=
  { size := { x := 2, y := 2 }, pixels := [BLACK, RED, WHITE, NONE] }

/-- A 1x1 sprite whose only pixel is half transparent. -/
def sprite1x1 : Sprite :=
  { size := { x := 1, y := 1 }, pixels := [{ r := 10, g := 20, b := 30, a := 128 }] }

/-- The 2x3 sprite `Create` produces. -/
def sprite2x3 : Sprite :=
  { size := { x := 2, y := 3 }, pixels := List.replicate 6 BLACK }

/-! ## Rasterizers: the positions passed to `Draw` -/

/-- The colour constant `BLUE(0, 0, 255)`. -/
def BLUE : Pixel := { r := 0, g := 0, b := 255 }

namespace GameEngine

/-- A run of `Draw(x, y, col)` calls, one for each position of the list in
order, every return value discarded: `none` when one of the calls invokes a
null shader.  The drawing routines below never read a value back from `Draw`
or from the target, so each of them is the run of `Draw` over the sequence of
positions its loops produce. -/
def drawAll (blend : Fin 256 → Fin 256 → Fin 256 → Fin 256) (e : GameEngine) :
    List (Int × Int) → Pixel → Option GameEngine
  | [], _ => some e
  | p :: ps, col =>
    match e.Draw blend p.1 p.2 col with
    | none => none
    | some r => drawAll blend r.2 ps col

/-- The loop `while (x < xe)` of `DrawLine`, from the state `(x, y, px)`: the
positions of its `Draw` calls.  It runs at most `fuel` iterations. -/
def DrawLine.loopX (dx dy dx1 dy1 xe : Int) : Nat → Int → Int → Int → List (Int × Int)
  | 0, _, _, _ => []
  | fuel + 1, x, y, px =>
    if x < xe then
      let x := x + 1
      if px < 0 then
        (x, y) :: DrawLine.loopX dx dy dx1 dy1 xe fuel x y (px + 2 * dy1)
      else
        let y := y + (if (dx < 0 ∧ dy < 0) ∨ (dx > 0 ∧ dy > 0) then 1 else -1)
        (x, y) :: DrawLine.loopX dx dy dx1 dy1 xe fuel x y (px + 2 * (dy1 - dx1))
    else []

/-- The loop `while (y < ye)` of `DrawLine`, from the state `(x, y, py)`: the
positions of its `Draw` calls.  It runs at most `fuel` iterations. -/
def DrawLine.loopY (dx dy dx1 dy1 ye : Int) : Nat → Int → Int → Int → List (Int × Int)
  | 0, _, _, _ => []
  | fuel + 1, x, y, py =>
    if y < ye then
      let y := y + 1
      if py ≤ 0 then
        (x, y) :: DrawLine.loopY dx dy dx1 dy1 ye fuel x y (py + 2 * dx1)
      else
        let x := x + (if (dx < 0 ∧ dy < 0) ∨ (dx > 0 ∧ dy > 0) then 1 else -1)
        (x, y) :: DrawLine.loopY dx dy dx1 dy1 ye fuel x y (py + 2 * (dx1 - dy1))
    else []

/-- The positions `DrawLine(x1, y1, x2, y2, col)` passes to `Draw`, in call
order.  Each loop advances its driving coordinate by one per iteration up to
`xe` (`ye`), so `xe - x` (`ye - y`) iterations are all it can run. -/
def DrawLine.plots (x1 y1 x2 y2 : Int) : List (Int × Int) :=
  let dx := x2 - x1
  let dy := y2 - y1
  let dx1 : Int := dx.natAbs
  let dy1 : Int := dy.natAbs
  let px := 2 * dy1 - dx1
  let py := 2 * dx1 - dy1
  if dy1 ≤ dx1 then
    let x := if dx ≥ 0 then x1 else x2
    let y := if dx ≥ 0 then y1 else y2
    let xe := if dx ≥ 0 then x2 else x1
    (x, y) :: DrawLine.loopX dx dy dx1 dy1 xe (xe - x).toNat x y px
  else
    let x := if dy ≥ 0 then x1 else x2
    let y := if dy ≥ 0 then y1 else y2
    let ye := if dy ≥ 0 then y2 else y1
    (x, y) :: DrawLine.loopY dx dy dx1 dy1 ye (ye - y).toNat x y py

/-- The method `GameEngine::DrawLine(int x1, int y1, int x2, int y2, col)`. -/
def DrawLine (blend : Fin 256 → Fin 256 → Fin 256 → Fin 256) (e : GameEngine)
    (x1 y1 x2 y2 : Int) (col : Pixel) : Option GameEngine :=
  e.drawAll blend (DrawLine.plots x1 y1 x2 y2) col

/-- The positions `FillRectangle(x, y, sizeX, sizeY, col)` passes to `Draw`:
`for (i = 0; i < sizeX; i++) for (j = 0; j < sizeY; j++) Draw(x + i, y + j)`.
A loop `for (int i = 0; i < n; i++)` runs for `i = 0, .., n - 1`, not at all
when `n <= 0`. -/
def FillRectangle.plots (x y sizeX sizeY : Int) : List (Int × Int) :=
  (List.range sizeX.toNat).flatMap fun (i : Nat) =>
    (List.range sizeY.toNat).map fun (j : Nat) => (x + (i : Int), y + (j : Int))

/-- The method `GameEngine::FillRectangle(int x, int y, int sizeX, int sizeY,
col)`. -/
def FillRectangle (blend : Fin 256 → Fin 256 → Fin 256 → Fin 256) (e : GameEngine)
    (x y sizeX sizeY : Int) (col : Pixel) : Option GameEngine :=
  e.drawAll blend (FillRectangle.plots x y sizeX sizeY) col

/-- The eight `Draw` calls of one iteration of the loop of `DrawCircle`. -/
def DrawCircle.octants (x y x1 y1 : Int) : List (Int × Int) :=
  [(x - x1, y - y1), (x - y1, y - x1), (x + y1, y - x1), (x + x1, y - y1),
   (x - x1, y + y1), (x - y1, y + x1), (x + y1, y + x1), (x + x1, y + y1)]

/-- The loop `while (y1 >= x1)` of `DrawCircle`, from the state
`(x1, y1, p1)`: the positions of its `Draw` calls.  It runs at most `fuel`
iterations. -/
def DrawCircle.loop (x y : Int) : Nat → Int → Int → Int → List (Int × Int)
  | 0, _, _, _ => []
  | fuel + 1, x1, y1, p1 =>
    if y1 ≥ x1 then
      DrawCircle.octants x y x1 y1 ++
        (if p1 < 0 then
          DrawCircle.loop x y fuel (x1 + 1) y1 (p1 + (4 * x1 + 6))
        else
          DrawCircle.loop x y fuel (x1 + 1) (y1 - 1) (p1 + (4 * (x1 - y1) + 10)))
    else []

/-- The positions `DrawCircle(x, y, radius, col)` passes to `Draw`, in call
order.  Every iteration shrinks `y1 - x1` by one or two from `radius`, so
`radius + 1` iterations are all the loop can run. -/
def DrawCircle.plots (x y radius : Int) : List (Int × Int) :=
  DrawCircle.loop x y (radius + 1).toNat 0 radius (3 - 2 * radius)

/-- The method `GameEngine::DrawCircle(int x, int y, int radius, col)`. -/
def DrawCircle (blend : Fin 256 → Fin 256 → Fin 256 → Fin 256) (e : GameEngine)
    (x y radius : Int) (col : Pixel) : Option GameEngine :=
  e.drawAll blend (DrawCircle.plots x y radius) col

/-- The local lambda `draw_line(start, end, y)` of `FillCircle`:
`for (int i = start; i <= end; i++) Draw(i, y, col)`. -/
def FillCircle.draw_line (start stop y : Int) : List (Int × Int) :=
  (List.range (stop - start + 1).toNat).map fun (k : Nat) => (start + (k : Int), y)

/-- The four `draw_line` calls of one iteration of the loop of `FillCircle`. -/
def FillCircle.spans (x y x1 y1 : Int) : List (Int × Int) :=
  FillCircle.draw_line (x - x1) (x + x1) (y - y1) ++
  FillCircle.draw_line (x - y1) (x + y1) (y - x1) ++
  FillCircle.draw_line (x - x1) (x + x1) (y + y1) ++
  FillCircle.draw_line (x - y1) (x + y1) (y + x1)

/-- The loop `while (y1 >= x1)` of `FillCircle`, from the state
`(x1, y1, p1)`: the positions of its `Draw` calls.  It runs at most `fuel`
iterations. -/
def FillCircle.loop (x y : Int) : Nat → Int → Int → Int → List (Int × Int)
  | 0, _, _, _ => []
  | fuel + 1, x1, y1, p1 =>
    if y1 ≥ x1 then
      FillCircle.spans x y x1 y1 ++
        (if p1 < 0 then
          FillCircle.loop x y fuel (x1 + 1) y1 (p1 + (4 * x1 + 6))
        else
          FillCircle.loop x y fuel (x1 + 1) (y1 - 1) (p1 + (4 * (x1 - y1) + 10)))
    else []

/-- The positions `FillCircle(x, y, radius, col)` passes to `Draw`, in call
order. -/
def FillCircle.plots (x y radius : Int) : List (Int × Int) :=
  FillCircle.loop x y (radius + 1).toNat 0 radius (3 - 2 * radius)

/-- The method `GameEngine::FillCircle(int x, int y, int radius, col)`. -/
def FillCircle (blend : Fin 256 → Fin 256 → Fin 256 → Fin 256) (e : GameEngine)
    (x y radius : Int) (col : Pixel) : Option GameEngine :=
  e.drawAll blend (FillCircle.plots x y radius) col

/-- The successive values of `(x1, y1)` at which the loop `while (y1 >= x1)`
shared by `DrawCircle` and `FillCircle` runs its body, from the state
`(x1, y1, p1)`. -/
def FillCircle.states : Nat → Int → Int → Int → List (Int × Int)
  | 0, _, _, _ => []
  | fuel + 1, x1, y1, p1 =>
    if y1 ≥ x1 then
      (x1, y1) ::
        (if p1 < 0 then
          FillCircle.states fuel (x1 + 1) y1 (p1 + (4 * x1 + 6))
        else
          FillCircle.states fuel (x1 + 1) (y1 - 1) (p1 + (4 * (x1 - y1) + 10)))
    else []


end GameEngine

/-- Two positions that differ by at most 1 in x and by at most 1 in y
(neighbours in the 8-connected grid, or equal). -/
def Adjacent8 (p q : Int × Int) : Prop :=
  (q.1 - p.1).natAbs ≤ 1 ∧ (q.2 - p.2).natAbs ≤ 1

/-- The 3x3 sprite `Create` produces. -/
def sprite3x3 : Sprite :=
  { size := { x := 3, y := 3 }, pixels := List.replicate 9 BLACK }

/-- A 10x10 sprite whose pixel at buffer index `i` has red channel `i`. -/
def sprite10x10 : Sprite :=
  { size := { x := 10, y := 10 }
    pixels := (List.range 100).map fun (i : Nat) => { r := Fin.ofNat i, g := 0, b := 0 } }

/-! ## Texture builder -/

/-- The arithmetic of the C++ type `float` as far as the texture builder uses
it.  The builder is written against these operations and nothing else is
assumed of them, so what is proved of it holds for IEEE single precision as
for exact arithmetic.  `lit q` is the literal with decimal value `q`, `ofInt`
the conversion `(float)i`. -/
class FloatArith (F : Type) where
  add : F → F → F
  sub : F → F → F
  mul : F → F → F
  div : F → F → F
  neg : F → F
  lit : Rat → F
  ofInt : Int → F
  floor : F → F
  ceil : F → F

/-- Exact rational arithmetic as an instance of the `float` operations. -/
instance FloatArith.exact : FloatArith Rat where
  add := fun a b => a + b
  sub := fun a b => a - b
  mul := fun a b => a * b
  div := fun a b => a / b
  neg := fun a => -a
  lit := fun q => q
  ofInt := fun i => (i : Rat)
  floor := fun a => ((Int.floor a : Int) : Rat)
  ceil := fun a => ((Int.ceil a : Int) : Rat)

/-- The instance `vf2d` of `vec2d<T>`. -/
structure Vf2d (F : Type) where
  x : F
  y : F

namespace Vf2d

/-- The conversion `vec2d<int>` to `vec2d<float>`, also applied to an `int`
operand of a mixed `int`/`float` operator. -/
def ofVi2d {F : Type} [FloatArith F] (v : Vi2d) : Vf2d F :=
  { x := FloatArith.ofInt v.x, y := FloatArith.ofInt v.y }

/-- The operator `operator+(vec2d, vec2d)`. -/
def add {F : Type} [FloatArith F] (a b : Vf2d F) : Vf2d F :=
  { x := FloatArith.add a.x b.x, y := FloatArith.add a.y b.y }

/-- The operator `operator-(vec2d, vec2d)`. -/
def sub {F : Type} [FloatArith F] (a b : Vf2d F) : Vf2d F :=
  { x := FloatArith.sub a.x b.x, y := FloatArith.sub a.y b.y }

/-- The operator `operator*(vec2d, vec2d)`, component by component. -/
def mul {F : Type} [FloatArith F] (a b : Vf2d F) : Vf2d F :=
  { x := FloatArith.mul a.x b.x, y := FloatArith.mul a.y b.y }

/-- The operator `operator/(vec2d, vec2d)`, component by component. -/
def div {F : Type} [FloatArith F] (a b : Vf2d F) : Vf2d F :=
  { x := FloatArith.div a.x b.x, y := FloatArith.div a.y b.y }

/-- The operator `operator+(vec2d, scalar)`. -/
def addS {F : Type} [FloatArith F] (a : Vf2d F) (s : F) : Vf2d F :=
  { x := FloatArith.add a.x s, y := FloatArith.add a.y s }

/-- The operator `operator-(vec2d, scalar)`. -/
def subS {F : Type} [FloatArith F] (a : Vf2d F) (s : F) : Vf2d F :=
  { x := FloatArith.sub a.x s, y := FloatArith.sub a.y s }

/-- The operator `operator*(vec2d, scalar)`. -/
def mulS {F : Type} [FloatArith F] (a : Vf2d F) (s : F) : Vf2d F :=
  { x := FloatArith.mul a.x s, y := FloatArith.mul a.y s }

/-- The operator `operator*(scalar, vec2d)`. -/
def smul {F : Type} [FloatArith F] (s : F) (a : Vf2d F) : Vf2d F :=
  { x := FloatArith.mul s a.x, y := FloatArith.mul s a.y }

/-- The unary operator `operator-(vec2d)`. -/
def neg {F : Type} [FloatArith F] (a : Vf2d F) : Vf2d F :=
  { x := FloatArith.neg a.x, y := FloatArith.neg a.y }

/-- The method `vec2d::floor()`. -/
def floor {F : Type} [FloatArith F] (a : Vf2d F) : Vf2d F :=
  { x := FloatArith.floor a.x, y := FloatArith.floor a.y }

/-- The method `vec2d::ceil()`. -/
def ceil {F : Type} [FloatArith F] (a : Vf2d F) : Vf2d F :=
  { x := FloatArith.ceil a.x, y := FloatArith.ceil a.y }

end Vf2d

/-- The enumeration `Texture::Structure`. -/
inductive Texture.Structure where
  | DEFAULT
  | FAN
  | STRIP
  | WIREFRAME
deriving DecidableEq

/-- The struct `Texture`: the renderer handle `id`, `uvScale` and `size`. -/
structure Texture (F : Type) where
  id : Nat
  uvScale : Vf2d F
  size : Vi2d

/-- The struct `TextureInstance`; `texture` is `none` for `nullptr`, and the
field `structure` is spelled `structure_`. -/
structure TextureInstance (F : Type) where
  texture : Option (Texture F)
  structure_ : Texture.Structure
  points : Nat
  tint : List Pixel
  vertices : List (Vf2d F)
  uv : List (Vf2d F)
  drawBeforeTransforms : Bool

/-- The constructor `TextureInstance::TextureInstance()`. -/
def TextureInstance.ctor {F : Type} [FloatArith F] : TextureInstance F :=
  { texture := none
    structure_ := Texture.Structure.FAN
    points := 0
    tint := []
    vertices := []
    uv := [{ x := FloatArith.lit 0, y := FloatArith.lit 0 },
           { x := FloatArith.lit 0, y := FloatArith.lit 1 },
           { x := FloatArith.lit 1, y := FloatArith.lit 1 },
           { x := FloatArith.lit 1, y := FloatArith.lit 0 }]
    drawBeforeTransforms := false }

/-- The class `GameEngine` with, next to the fields `Draw` uses, the fields
the texture builder reads and writes: the instance queue `m_Textures`, the
default structure, the draw-before-transforms flag, the inverse screen size
and the window size. -/
structure TextureEngine (F : Type) extends GameEngine where
  m_Textures : List (TextureInstance F)
  m_TextureStructure : Texture.Structure
  m_DrawBeforeTransforms : Bool
  m_InvScreenSize : Vf2d F
  m_WindowSize : Vi2d

/-- The call `v.resize(n)` of a vector: keeps the first `n` elements and
appends value-initialised elements `zero` up to length `n`. -/
def vector_resize {α : Type} (v : List α) (n : Nat) (zero : α) : List α :=
  v.take n ++ List.replicate (n - v.length) zero

namespace TextureEngine

/-- The call `m_Textures.push_back(texInst)`. -/
def push_back {F : Type} (e : TextureEngine F) (texInst : TextureInstance F) :
    TextureEngine F :=
  { e with m_Textures := e.m_Textures ++ [texInst] }

/-- The screen-to-device map `(v * m_InvScreenSize * 2.0f - 1.0f)` of the quad
builders. -/
def toDevice {F : Type} [FloatArith F] (e : TextureEngine F) (v : Vf2d F) : Vf2d F :=
  ((v.mul e.m_InvScreenSize).mulS (FloatArith.lit 2)).subS (FloatArith.lit 1)

/-- The vector `vf2d(1.0f, -1.0f)`. -/
def flipY {F : Type} [FloatArith F] : Vf2d F :=
  { x := FloatArith.lit 1, y := FloatArith.neg (FloatArith.lit 1) }

/-- The method `GameEngine::DrawTexture(pos, tex, scale, tint)`. -/
def DrawTexture {F : Type} [FloatArith F] (e : TextureEngine F) (pos : Vf2d F)
    (tex : Texture F) (scale : Vf2d F) (tint : Pixel) : TextureEngine F :=
  let pos1 := (e.toDevice pos).mul flipY
  let pos2 := pos1.add
    ((((Vf2d.smul (FloatArith.lit 2) (Vf2d.ofVi2d tex.size)).mul e.m_InvScreenSize).mul
      scale).mul flipY)
  let texInst : TextureInstance F := TextureInstance.ctor
  let texInst := { texInst with texture := some tex }
  let texInst := { texInst with points := 4 }
  let texInst := { texInst with structure_ := e.m_TextureStructure }
  let texInst := { texInst with tint := [tint, tint, tint, tint] }
  let texInst := { texInst with
    vertices := [pos1, { x := pos1.x, y := pos2.y }, pos2, { x := pos2.x, y := pos1.y }] }
  let texInst := { texInst with drawBeforeTransforms := e.m_DrawBeforeTransforms }
  e.push_back texInst

/-- The method `GameEngine::DrawPartialTexture(pos, tex, filePos, fileSize,
scale, tint)`. -/
def DrawPartialTexture {F : Type} [FloatArith F] (e : TextureEngine F) (pos : Vf2d F)
    (tex : Texture F) (filePos fileSize scale : Vf2d F) (tint : Pixel) : TextureEngine F :=
  let screenPos1 := (e.toDevice pos).mul flipY
  let screenPos2 := (e.toDevice (pos.add (fileSize.mul scale))).mul flipY
  let quantPos1 := (((screenPos1.mul (Vf2d.ofVi2d e.m_WindowSize)).add
      { x := FloatArith.lit (1 / 2), y := FloatArith.lit (1 / 2) }).floor).div
      (Vf2d.ofVi2d e.m_WindowSize)
  let quantPos2 := (((screenPos2.mul (Vf2d.ofVi2d e.m_WindowSize)).add
      { x := FloatArith.lit (1 / 2), y := FloatArith.neg (FloatArith.lit (1 / 2)) }).ceil).div
      (Vf2d.ofVi2d e.m_WindowSize)
  let tl := (filePos.addS (FloatArith.lit (1 / 10000))).mul tex.uvScale
  let br := ((filePos.add fileSize).subS (FloatArith.lit (1 / 10000))).mul tex.uvScale
  let texInst : TextureInstance F := TextureInstance.ctor
  let texInst := { texInst with texture := some tex }
  let texInst := { texInst with points := 4 }
  let texInst := { texInst with structure_ := e.m_TextureStructure }
  let texInst := { texInst with tint := [tint, tint, tint, tint] }
  let texInst := { texInst with
    vertices := [quantPos1, { x := quantPos1.x, y := quantPos2.y }, quantPos2,
      { x := quantPos2.x, y := quantPos1.y }] }
  let texInst := { texInst with
    uv := [tl, { x := tl.x, y := br.y }, br, { x := br.x, y := tl.y }] }
  let texInst := { texInst with drawBeforeTransforms := e.m_DrawBeforeTransforms }
  e.push_back texInst

/-- The body of the loop `for (int i = 0; i < texInst.points; i++)` of the two
rotated builders, applied to `texInst.vertices[i]`: rotate by `(c, s)`, move to
`pos`, map to device coordinates, negate y. -/
def rotateVertex {F : Type} [FloatArith F] (e : TextureEngine F) (pos : Vf2d F) (c s : F)
    (v : Vf2d F) : Vf2d F :=
  let offset : Vf2d F :=
    { x := FloatArith.sub (FloatArith.mul v.x c) (FloatArith.mul v.y s)
      y := FloatArith.add (FloatArith.mul v.x s) (FloatArith.mul v.y c) }
  let v := pos.add offset
  let v := e.toDevice v
  { v with y := FloatArith.mul v.y (FloatArith.neg (FloatArith.lit 1)) }

/-- The method `GameEngine::DrawRotatedTexture(pos, tex, rotation, center,
scale, tint)`; the loop runs over the four vertices just assigned.  The library
functions `cos` and `sin` on `float` are the parameters of the same names. -/
def DrawRotatedTexture {F : Type} [FloatArith F] (cos sin : F → F) (e : TextureEngine F)
    (pos : Vf2d F) (tex : Texture F) (rotation : F) (center scale : Vf2d F) (tint : Pixel) :
    TextureEngine F :=
  let texInst : TextureInstance F := TextureInstance.ctor
  let texInst := { texInst with texture := some tex }
  let texInst := { texInst with points := 4 }
  let texInst := { texInst with structure_ := e.m_TextureStructure }
  let texInst := { texInst with tint := [tint, tint, tint, tint] }
  let texInst := { texInst with drawBeforeTransforms := e.m_DrawBeforeTransforms }
  let denormCenter := center.mul (Vf2d.ofVi2d tex.size)
  let texInst := { texInst with
    vertices := [
      denormCenter.neg.mul scale,
      (Vf2d.sub { x := FloatArith.lit 0, y := FloatArith.ofInt tex.size.y } denormCenter).mul
        scale,
      ((Vf2d.ofVi2d tex.size).sub denormCenter).mul scale,
      (Vf2d.sub { x := FloatArith.ofInt tex.size.x, y := FloatArith.lit 0 } denormCenter).mul
        scale] }
  let c := cos rotation
  let s := sin rotation
  let texInst := { texInst with vertices := texInst.vertices.map (e.rotateVertex pos c s) }
  e.push_back texInst

/-- The method `GameEngine::DrawPartialRotatedTexture(pos, tex, filePos,
fileSize, rotation, center, scale, tint)`. -/
def DrawPartialRotatedTexture {F : Type} [FloatArith F] (cos sin : F → F)
    (e : TextureEngine F) (pos : Vf2d F) (tex : Texture F) (filePos fileSize : Vf2d F)
    (rotation : F) (center scale : Vf2d F) (tint : Pixel) : TextureEngine F :=
  let texInst : TextureInstance F := TextureInstance.ctor
  let texInst := { texInst with texture := some tex }
  let texInst := { texInst with points := 4 }
  let texInst := { texInst with structure_ := e.m_TextureStructure }
  let texInst := { texInst with tint := [tint, tint, tint, tint] }
  let texInst := { texInst with drawBeforeTransforms := e.m_DrawBeforeTransforms }
  let denormCenter := center.mul fileSize
  let texInst := { texInst with
    vertices := [
      denormCenter.neg.mul scale,
      (Vf2d.sub { x := FloatArith.lit 0, y := fileSize.y } denormCenter).mul scale,
      (fileSize.sub denormCenter).mul scale,
      (Vf2d.sub { x := fileSize.x, y := FloatArith.lit 0 } denormCenter).mul scale] }
  let c := cos rotation
  let s := sin rotation
  let texInst := { texInst with vertices := texInst.vertices.map (e.rotateVertex pos c s) }
  let tl := filePos.mul tex.uvScale
  let br := tl.add (fileSize.mul tex.uvScale)
  let texInst := { texInst with
    uv := [tl, { x := tl.x, y := br.y }, br, { x := br.x, y := tl.y }] }
  e.push_back texInst

/-- The body of the vertex loop of `DrawTexturePolygon`:
`x = verts[i].x * m_InvScreenSize.x * 2.0f - 1.0f`,
`y = 1.0f - verts[i].y * m_InvScreenSize.y * 2.0f`. -/
def polygonVertex {F : Type} [FloatArith F] (e : TextureEngine F) (v : Vf2d F) : Vf2d F :=
  { x := FloatArith.sub
      (FloatArith.mul (FloatArith.mul v.x e.m_InvScreenSize.x) (FloatArith.lit 2))
      (FloatArith.lit 1)
    y := FloatArith.sub (FloatArith.lit 1)
      (FloatArith.mul (FloatArith.mul v.y e.m_InvScreenSize.y) (FloatArith.lit 2)) }

/-- The method `GameEngine::DrawTexturePolygon(verts, cols, structure)`.
`points` is a `uint32_t` assigned from `verts.size()`, a count taken to fit
it.  `std::copy` of `cols`
overwrites the front of the resized `tint`; the call is undefined (`none`)
when it would write past the end of `tint` (`cols.size() > verts.size()`) or
when `cols[0]` is read from an empty `cols`.  The vertex loop assigns every
element of the resized `vertices` from the element of `verts` at the same
index. -/
def DrawTexturePolygon {F : Type} [FloatArith F] (e : TextureEngine F) (verts : List (Vf2d F))
    (cols : List Pixel) (structure_ : Texture.Structure) : Option (TextureEngine F) :=
  let texInst : TextureInstance F := TextureInstance.ctor
  let texInst := { texInst with texture := none }
  let texInst := { texInst with points := verts.length }
  let texInst := { texInst with structure_ := structure_ }
  let texInst := { texInst with tint := vector_resize texInst.tint verts.length Pixel.value_init }
  let tint : Option (List Pixel) :=
    if cols.length > 1 then
      if cols.length ≤ texInst.tint.length then
        some (cols ++ texInst.tint.drop cols.length)
      else none
    else
      match cols with
      | [] => none
      | c :: _ => some (texInst.tint.map (fun _ => c))
  match tint with
  | none => none
  | some tint =>
    let texInst := { texInst with tint := tint }
    let zero : Vf2d F := { x := FloatArith.lit 0, y := FloatArith.lit 0 }
    let texInst := { texInst with uv := vector_resize texInst.uv verts.length zero }
    let texInst := { texInst with vertices := vector_resize texInst.vertices verts.length zero }
    let texInst := { texInst with vertices := verts.map e.polygonVertex }
    let texInst := { texInst with drawBeforeTransforms := e.m_DrawBeforeTransforms }
    some (e.push_back texInst)

end TextureEngine

/-- The effect the texture builders are specified to have: the queue of `e1` is
the queue of `e` followed by one instance, the fields `Draw` uses (with them
the draw target and its pixel buffer) are those of `e`, and the three vectors
of the new instance have `points` elements each. -/
def TextureEngine.AppendsOne {F : Type} (e e1 : TextureEngine F) : Prop :=
  ∃ inst : TextureInstance F,
    e1.m_Textures = e.m_Textures ++ [inst] ∧
    e1.toGameEngine = e.toGameEngine ∧
    inst.vertices.length = inst.points ∧
    inst.uv.length = inst.points ∧
    inst.tint.length = inst.points

/-- A texture engine over exact arithmetic: a 2x2 screen in a 4x4 window with
an empty queue, drawing into `sprite2x2`. -/
def texEngine2x2 : TextureEngine Rat :=
  { toGameEngine := GameEngine.onSprite sprite2x2 Pixel.Mode.DEFAULT
    m_Textures := []
    m_TextureStructure := Texture.Structure.FAN
    m_DrawBeforeTransforms := false
    m_InvScreenSize := { x := 1 / 2, y := 1 / 2 }
    m_WindowSize := { x := 4, y := 4 } }

/-- The comparisons and the square root of the C++ type `float` that
`DrawWarpedTexture` and `FillWireFrameModel` use: `lt a b` is `a < b` (and
`b > a`), `eq a b` is `a == b`, `sqrt` is `std::sqrt`.  Nothing is assumed of
them. -/
structure FloatCmp (F : Type) where
  lt : F → F → Bool
  eq : F → F → Bool
  sqrt : F → F

/-- The comparisons of exact rational arithmetic; `sqrt` is the integer square
root of the integer part, a stand-in for a root that is not rational. -/
def FloatCmp.exact : FloatCmp Rat :=
  { lt := fun a b => decide (a < b)
    eq := fun a b => decide (a = b)
    sqrt := fun a => ((Nat.sqrt (Int.floor a).toNat : Nat) : Rat) }

/-- The method `vec2d<float>::mag()`: `std::sqrt(x * x + y * y)`. -/
def Vf2d.mag {F : Type} [FloatArith F] (cmp : FloatCmp F) (a : Vf2d F) : F :=
  cmp.sqrt (FloatArith.add (FloatArith.mul a.x a.x) (FloatArith.mul a.y a.y))

/-- The operator `operator+(vec2d<int>, vec2d<int>)`. -/
def Vi2d.add (a b : Vi2d) : Vi2d :=
  { x := a.x + b.x, y := a.y + b.y }

namespace TextureEngine

/-- The method `GameEngine::SetTextureStructure(textureStructure)`. -/
def SetTextureStructure {F : Type} (e : TextureEngine F) (textureStructure : Texture.Structure) :
    TextureEngine F :=
  { e with m_TextureStructure := textureStructure }

/-- The vertex assignment in the loop of `DrawWarpedTexture`:
`{ (p.x * m_InvScreenSize.x) * 2.0f - 1.0f,
   ((p.y * m_InvScreenSize.y) * 2.0f - 1.0f) * -1.0f }`. -/
def warpVertex {F : Type} [FloatArith F] (e : TextureEngine F) (p : Vf2d F) : Vf2d F :=
  { x := FloatArith.sub
      (FloatArith.mul (FloatArith.mul p.x e.m_InvScreenSize.x) (FloatArith.lit 2))
      (FloatArith.lit 1)
    y := FloatArith.mul
      (FloatArith.sub
        (FloatArith.mul (FloatArith.mul p.y e.m_InvScreenSize.y) (FloatArith.lit 2))
        (FloatArith.lit 1))
      (FloatArith.neg (FloatArith.lit 1)) }

/-- The factor `q` of the loop of `DrawWarpedTexture`:
`d[i] == 0.0f ? 1.0f : (d[i] + d[(i + 2) & 3]) / d[(i + 2) & 3]`. -/
def warpFactor {F : Type} [FloatArith F] (cmp : FloatCmp F) (di dj : F) : F :=
  if cmp.eq di (FloatArith.lit 0) then FloatArith.lit 1
  else FloatArith.div (FloatArith.add di dj) dj

/-- The method `GameEngine::DrawWarpedTexture(points, tex, tint)`; `tex` is
`none` for `nullptr`.  The elements `points[0]` to `points[3]` are read, so
the call is undefined (`none`) on fewer than four points.  When `rd == 0.0f`
nothing is queued. -/
def DrawWarpedTexture {F : Type} [FloatArith F] (cmp : FloatCmp F) (e : TextureEngine F)
    (points : List (Vf2d F)) (tex : Option (Texture F)) (tint : Pixel) :
    Option (TextureEngine F) :=
  match points with
  | p0 :: p1 :: p2 :: p3 :: _ =>
    let zero : Vf2d F := { x := FloatArith.lit 0, y := FloatArith.lit 0 }
    let texInst : TextureInstance F := TextureInstance.ctor
    let texInst := { texInst with texture := tex }
    let texInst := { texInst with structure_ := e.m_TextureStructure }
    let texInst := { texInst with points := 4 }
    let texInst := { texInst with tint := [tint, tint, tint, tint] }
    let texInst := { texInst with vertices := vector_resize texInst.vertices 4 zero }
    let texInst := { texInst with
      uv := [{ x := FloatArith.lit 0, y := FloatArith.lit 0 },
             { x := FloatArith.lit 0, y := FloatArith.lit 1 },
             { x := FloatArith.lit 1, y := FloatArith.lit 1 },
             { x := FloatArith.lit 1, y := FloatArith.lit 0 }] }
    let texInst := { texInst with drawBeforeTransforms := e.m_DrawBeforeTransforms }
    let rd := FloatArith.sub
      (FloatArith.mul (FloatArith.sub p2.x p0.x) (FloatArith.sub p3.y p1.y))
      (FloatArith.mul (FloatArith.sub p3.x p1.x) (FloatArith.sub p2.y p0.y))
    if !(cmp.eq rd (FloatArith.lit 0)) then
      let rd := FloatArith.div (FloatArith.lit 1) rd
      let rn := FloatArith.mul
        (FloatArith.sub
          (FloatArith.mul (FloatArith.sub p3.x p1.x) (FloatArith.sub p0.y p1.y))
          (FloatArith.mul (FloatArith.sub p3.y p1.y) (FloatArith.sub p0.x p1.x))) rd
      let sn := FloatArith.mul
        (FloatArith.sub
          (FloatArith.mul (FloatArith.sub p2.x p0.x) (FloatArith.sub p0.y p1.y))
          (FloatArith.mul (FloatArith.sub p2.y p0.y) (FloatArith.sub p0.x p1.x))) rd
      let center : Vf2d F :=
        if !(cmp.lt rn (FloatArith.lit 0) || cmp.lt (FloatArith.lit 1) rn ||
            cmp.lt sn (FloatArith.lit 0) || cmp.lt (FloatArith.lit 1) sn) then
          p0.add (Vf2d.smul rn (p2.sub p0))
        else zero
      let d0 := (p0.sub center).mag cmp
      let d1 := (p1.sub center).mag cmp
      let d2 := (p2.sub center).mag cmp
      let d3 := (p3.sub center).mag cmp
      let q := [warpFactor cmp d0 d2, warpFactor cmp d1 d3, warpFactor cmp d2 d0,
        warpFactor cmp d3 d1]
      let texInst := { texInst with
        uv := List.zipWith (fun (t : Vf2d F) (q : F) => t.mulS q) texInst.uv q }
      let texInst := { texInst with vertices := [p0, p1, p2, p3].map e.warpVertex }
      some (e.push_back texInst)
    else some e
  | _ => none

/-- The method `GameEngine::DrawTextureLine(pos1, pos2, col)`. -/
def DrawTextureLine {F : Type} [FloatArith F] (e : TextureEngine F) (pos1 pos2 : Vi2d)
    (col : Pixel) : Option (TextureEngine F) :=
  e.DrawTexturePolygon [Vf2d.ofVi2d pos1, Vf2d.ofVi2d pos2] [col, col]
    Texture.Structure.WIREFRAME

/-- The method `GameEngine::DrawTextureTriangle(pos1, pos2, pos3, col)`. -/
def DrawTextureTriangle {F : Type} [FloatArith F] (e : TextureEngine F) (pos1 pos2 pos3 : Vi2d)
    (col : Pixel) : Option (TextureEngine F) :=
  e.DrawTexturePolygon [Vf2d.ofVi2d pos1, Vf2d.ofVi2d pos2, Vf2d.ofVi2d pos3] [col, col, col]
    Texture.Structure.WIREFRAME

/-- The method `GameEngine::FillTextureTriangle(pos1, pos2, pos3, col)`. -/
def FillTextureTriangle {F : Type} [FloatArith F] (e : TextureEngine F) (pos1 pos2 pos3 : Vi2d)
    (col : Pixel) : Option (TextureEngine F) :=
  e.DrawTexturePolygon [Vf2d.ofVi2d pos1, Vf2d.ofVi2d pos2, Vf2d.ofVi2d pos3] [col, col, col]
    Texture.Structure.FAN

/-- The vertex list of the four rectangle wrappers:
`{ pos, { float(pos.x + size.x), (float)pos.y }, pos + size,
   { (float)pos.x, float(pos.y + size.y) } }`. -/
def rectangleVerts {F : Type} [FloatArith F] (pos size : Vi2d) : List (Vf2d F) :=
  [Vf2d.ofVi2d pos,
   { x := FloatArith.ofInt (pos.x + size.x), y := FloatArith.ofInt pos.y },
   Vf2d.ofVi2d (pos.add size),
   { x := FloatArith.ofInt pos.x, y := FloatArith.ofInt (pos.y + size.y) }]

/-- The method `GameEngine::DrawTextureRectangle(pos, size, col)`. -/
def DrawTextureRectangle {F : Type} [FloatArith F] (e : TextureEngine F) (pos size : Vi2d)
    (col : Pixel) : Option (TextureEngine F) :=
  e.DrawTexturePolygon (rectangleVerts pos size) [col, col, col, col]
    Texture.Structure.WIREFRAME

/-- The method `GameEngine::FillTextureRectangle(pos, size, col)`. -/
def FillTextureRectangle {F : Type} [FloatArith F] (e : TextureEngine F) (pos size : Vi2d)
    (col : Pixel) : Option (TextureEngine F) :=
  e.DrawTexturePolygon (rectangleVerts pos size) [col, col, col, col] Texture.Structure.FAN

/-- The vertex loop of the two circle wrappers:
`verts[i] = s_UnitCircle[i] * (float)radius + pos`. -/
def circleVerts {F : Type} [FloatArith F] (s_UnitCircle : List (Vf2d F)) (pos : Vi2d)
    (radius : Int) : List (Vf2d F) :=
  s_UnitCircle.map fun (u : Vf2d F) => (u.mulS (FloatArith.ofInt radius)).add (Vf2d.ofVi2d pos)

/-- The method `GameEngine::DrawTextureCircle(pos, radius, col)`; the static
vertex list `s_UnitCircle` is a parameter. -/
def DrawTextureCircle {F : Type} [FloatArith F] (s_UnitCircle : List (Vf2d F))
    (e : TextureEngine F) (pos : Vi2d) (radius : Int) (col : Pixel) : Option (TextureEngine F) :=
  e.DrawTexturePolygon (circleVerts s_UnitCircle pos radius) [col] Texture.Structure.WIREFRAME

/-- The method `GameEngine::FillTextureCircle(pos, radius, col)`. -/
def FillTextureCircle {F : Type} [FloatArith F] (s_UnitCircle : List (Vf2d F))
    (e : TextureEngine F) (pos : Vi2d) (radius : Int) (col : Pixel) : Option (TextureEngine F) :=
  e.DrawTexturePolygon (circleVerts s_UnitCircle pos radius) [col] Texture.Structure.FAN

/-- The method `GameEngine::GradientTextureTriangle(pos1, pos2, pos3, col1,
col2, col3)`. -/
def GradientTextureTriangle {F : Type} [FloatArith F] (e : TextureEngine F)
    (pos1 pos2 pos3 : Vi2d) (col1 col2 col3 : Pixel) : Option (TextureEngine F) :=
  e.DrawTexturePolygon [Vf2d.ofVi2d pos1, Vf2d.ofVi2d pos2, Vf2d.ofVi2d pos3]
    [col1, col2, col3] Texture.Structure.FAN

/-- The method `GameEngine::GradientTextureRectangle(pos, size, colTL, colTR,
colBR, colBL)`. -/
def GradientTextureRectangle {F : Type} [FloatArith F] (e : TextureEngine F) (pos size : Vi2d)
    (colTL colTR colBR colBL : Pixel) : Option (TextureEngine F) :=
  e.DrawTexturePolygon (rectangleVerts pos size) [colTL, colTR, colBR, colBL]
    Texture.Structure.FAN

end TextureEngine

/-- What the last queued instance of an engine records: its `structure` and
its `drawBeforeTransforms`, `none` on an empty queue. -/
def TextureEngine.lastRecorded {F : Type} (e : TextureEngine F) :
    Option (Texture.Structure × Bool) :=
  e.m_Textures.getLast?.map fun (t : TextureInstance F) => (t.structure_, t.drawBeforeTransforms)

/-- The effect a builder call has on the queue when it records the structure
`st` and the flag `flag`: the queue of `e1` is the queue of `e` followed by one
instance whose `structure` is `st` and whose `drawBeforeTransforms` is `flag`. -/
def TextureEngine.Queues {F : Type} (e e1 : TextureEngine F) (st : Texture.Structure)
    (flag : Bool) : Prop :=
  ∃ inst : TextureInstance F,
    e1.m_Textures = e.m_Textures ++ [inst] ∧ inst.structure_ = st ∧
    inst.drawBeforeTransforms = flag

namespace FrameEngine

end FrameEngine

/-- The struct `KeyState`. -/
structure KeyState where
  held : Bool
  released : Bool
  pressed : Bool
deriving DecidableEq

/-- The three arrays `ScanHardware` works on, as maps from the index: `data`
(`m_Keys` or `m_Mouse`), `newState` and `oldState`. -/
structure HardwareState where
  data : Nat → KeyState
  newState : Nat → Bool
  oldState : Nat → Bool

namespace GameEngine

/-- The body of the loop of `ScanHardware` for the index `i`; `Get i` is the
value `Get(m_Platform, i)` returns in this poll. -/
def ScanHardware.step (Get : Nat → Bool) (s : HardwareState) (i : Nat) : HardwareState :=
  let newState := Function.update s.newState i (Get i)
  let d := s.data i
  let d := { d with pressed := false }
  let d := { d with released := false }
  let d :=
    if newState i ≠ s.oldState i then
      if newState i then
        let d := { d with pressed := !d.held }
        { d with held := true }
      else
        let d := { d with released := true }
        { d with held := false }
    else d
  { data := Function.update s.data i d
    newState := newState
    oldState := Function.update s.oldState i (newState i) }

/-- The method `GameEngine::ScanHardware(data, newState, oldState, count,
Get)`: the loop body for `i = 0, .., count - 1`. -/
def ScanHardware (s : HardwareState) (count : Nat) (Get : Nat → Bool) : HardwareState :=
  (List.range count).foldl (ScanHardware.step Get) s

/-- The state the initialisation loops of `MainLoop` leave in the arrays:
`{ false, false, false }` and `false` at every index. -/
def MainLoop.init : HardwareState :=
  { data := fun _ => { held := false, released := false, pressed := false }
    newState := fun _ => false
    oldState := fun _ => false }

/-- The arrays after the polls `polls` (one `Get` for each call of
`ScanHardware`, oldest first) from the initial state. -/
def MainLoop.scans (count : Nat) (polls : List (Nat → Bool)) : HardwareState :=
  polls.foldl (fun (s : HardwareState) (Get : Nat → Bool) => ScanHardware s count Get)
    MainLoop.init

end GameEngine

/-- The state of key `i` in the last poll of `polls`, up (`false`) when there
is none. -/
def lastPoll (polls : List (Nat → Bool)) (i : Nat) : Bool :=
  match polls.getLast? with
  | none => false
  | some Get => Get i

/-! ## Wire-frame models and strings -/

/-- The conversion of an integer value to `uint32_t`: reduction modulo 2^32. -/
def toU32 (v : Int) : Int :=
  v % 4294967296

/-- The conversion of an integer value to `int` (32 bits, two's complement):
the value congruent to it modulo 2^32 in `[-2^31, 2^31)`. -/
def toI32 (v : Int) : Int :=
  (v + 2147483648) % 4294967296 - 2147483648

namespace GameEngine

/-- The first loop of `DrawWireFrameModel` and of `FillWireFrameModel`: the
vector `coordinates`, the model rotated by `rotation`, scaled and moved to
`(x, y)`.  `cs` and `sn` are `cosf(rotation)` and `sinf(rotation)`. -/
def wireFrameCoordinates {F : Type} [FloatArith F] (cosf sinf : F → F)
    (modelCoordinates : List (Vf2d F)) (x y rotation scale : F) : List (Vf2d F) :=
  let cs := cosf rotation
  let sn := sinf rotation
  modelCoordinates.map fun (m : Vf2d F) =>
    { x := FloatArith.add
        (FloatArith.mul (FloatArith.sub (FloatArith.mul m.x cs) (FloatArith.mul m.y sn)) scale) x
      y := FloatArith.add
        (FloatArith.mul (FloatArith.add (FloatArith.mul m.x sn) (FloatArith.mul m.y cs)) scale)
        y }

/-- The positions `DrawWireFrameModel(modelCoordinates, x, y, rotation, scale,
col)` passes to `Draw`: the loop `for (size_t i = 0; i <= verts; i++)` draws the
line from `coordinates[i % verts]` to `coordinates[(i + 1) % verts]`, each
`vf2d` converted to `vi2d` by `toInt` on its components.  The result is `none`
when an iteration is undefined: the remainder `i % verts` with `verts == 0`. -/
def DrawWireFrameModel.plots {F : Type} [FloatArith F] (cosf sinf : F → F) (toInt : F → Int)
    (modelCoordinates : List (Vf2d F)) (x y rotation scale : F) : Option (List (Int × Int)) :=
  let verts := modelCoordinates.length
  let coordinates := wireFrameCoordinates cosf sinf modelCoordinates x y rotation scale
  (List.range (verts + 1)).foldl
    (fun (acc : Option (List (Int × Int))) (i : Nat) =>
      match acc with
      | none => none
      | some ps =>
        if verts = 0 then none
        else
          match coordinates[i % verts]?, coordinates[(i + 1) % verts]? with
          | some a, some b =>
            some (ps ++ DrawLine.plots (toInt a.x) (toInt a.y) (toInt b.x) (toInt b.y))
          | _, _ => none)
    (some [])

/-- The part of `FillWireFrameModel` up to its scan loops: the corners `min`
and `max` of the bounding box of `coordinates`, both started at
`coordinates.front()`, which is undefined (`none`) on an empty vector. -/
def FillWireFrameModel.bounds {F : Type} [FloatArith F] (cmp : FloatCmp F) (cosf sinf : F → F)
    (modelCoordinates : List (Vf2d F)) (x y rotation scale : F) : Option (Vf2d F × Vf2d F) :=
  match wireFrameCoordinates cosf sinf modelCoordinates x y rotation scale with
  | [] => none
  | front :: rest =>
    some (rest.foldl
      (fun (mm : Vf2d F × Vf2d F) (c : Vf2d F) =>
        let min := mm.1
        let max := mm.2
        let min := if cmp.lt c.x min.x then { min with x := c.x } else min
        let min := if cmp.lt c.y min.y then { min with y := c.y } else min
        let max := if cmp.lt max.x c.x then { max with x := c.x } else max
        let max := if cmp.lt max.y c.y then { max with y := c.y } else max
        (min, max))
      (front, front))

/-- The general path of `DrawString` for one character, taken when
`scaleX > 1 || scaleY > 1`: the loops over `i`, `j`, `is`, `js`, all four
`uint32_t`, so the sums are formed in `uint32_t` and converted to the `int`
parameters of `GetPixel` and `Draw`, and the bounds `scaleX`, `scaleY` are
compared as `uint32_t`. -/
def DrawString.glyphScaled (font : Sprite) (x y sx sy ox oy scaleX scaleY : Int) :
    List (Int × Int) :=
  (List.range 8).flatMap fun (i : Nat) =>
    (List.range 8).flatMap fun (j : Nat) =>
      if (font.GetPixel (toI32 (toU32 ((i : Int) + ox * 8)))
          (toI32 (toU32 ((j : Int) + oy * 8)))).r > 0 then
        (List.range (toU32 scaleX).toNat).flatMap fun (is : Nat) =>
          (List.range (toU32 scaleY).toNat).map fun (js : Nat) =>
            (toI32 (toU32 (x + sx + (i : Int) * scaleX + (is : Int))),
             toI32 (toU32 (y + sy + (j : Int) * scaleY + (js : Int))))
      else []

/-- The fast path of `DrawString` for one character, taken otherwise. -/
def DrawString.glyphPlain (font : Sprite) (x y sx sy ox oy : Int) : List (Int × Int) :=
  (List.range 8).flatMap fun (i : Nat) =>
    (List.range 8).flatMap fun (j : Nat) =>
      if (font.GetPixel (toI32 (toU32 ((i : Int) + ox * 8)))
          (toI32 (toU32 ((j : Int) + oy * 8)))).r > 0 then
        [(toI32 (toU32 (x + sx + (i : Int))), toI32 (toU32 (y + sy + (j : Int))))]
      else []

/-- The loop `for (auto c : s)` of `DrawString` from the state `(sx, sy)`: the
positions passed to `Draw`.  Characters are their codes (`'\n'` is 10, `'\t'`
is 9); `%` and `/` of C++ truncate. -/
def DrawString.loop (font : Sprite) (m_TabSize x y scaleX scaleY : Int) :
    List Int → Int → Int → List (Int × Int)
  | [], _, _ => []
  | c :: s, sx, sy =>
    if c = 10 then
      DrawString.loop font m_TabSize x y scaleX scaleY s 0 (sy + 8 * scaleY)
    else if c = 9 then
      DrawString.loop font m_TabSize x y scaleX scaleY s (sx + 8 * m_TabSize * scaleX) sy
    else
      let ox := Int.tmod (c - 32) 16
      let oy := Int.tdiv (c - 32) 16
      (if scaleX > 1 ∨ scaleY > 1 then DrawString.glyphScaled font x y sx sy ox oy scaleX scaleY
        else DrawString.glyphPlain font x y sx sy ox oy) ++
      DrawString.loop font m_TabSize x y scaleX scaleY s (sx + 8 * scaleX) sy

/-- The positions `DrawString(x, y, s, col, scaleX, scaleY)` passes to `Draw`,
in call order; `font` is the sprite of `m_Font`. -/
def DrawString.plots (font : Sprite) (m_TabSize x y : Int) (s : List Int)
    (scaleX scaleY : Int) : List (Int × Int) :=
  DrawString.loop font m_TabSize x y scaleX scaleY s 0 0

end GameEngine

/-- A 128x48 sprite, the size of the font atlas, whose pixel at `(px, py)` is
white when `px + py` is even and black otherwise. -/
def fontChecker : Sprite :=
  { size := { x := 128, y := 48 }
    pixels := (List.range (128 * 48)).map fun (i : Nat) =>
      if (i % 128 + i / 128) % 2 = 0 then WHITE else BLACK }

/-! ## Ellipses -/

namespace GameEngine

/-- The loop `do { .. } while (x <= x1)` of `DrawEllipse` from the state
`(x, x1, y, y1, dx, dy, err)`; `a` and `b1` hold `8 * a * a` and `8 * b * b`.
The result is the positions passed to `Draw` and the `(x, x1, y, y1)` the loop
leaves, `none` when `fuel` iterations do not reach the exit.  The statement
`err += dy += a` adds `a` to `dy` and then the new `dy` to `err`. -/
def DrawEllipse.loop (a b1 : Int) :
    Nat → Int → Int → Int → Int → Int → Int → Int →
      Option (List (Int × Int) × Int × Int × Int × Int)
  | 0, _, _, _, _, _, _, _ => none
  | fuel + 1, x, x1, y, y1, dx, dy, err =>
    let ps := [(x1, y), (x, y), (x, y1), (x1, y1)]
    let e2 := 2 * err
    let y' := if e2 ≤ dy then y + 1 else y
    let y1' := if e2 ≤ dy then y1 - 1 else y1
    let dy' := if e2 ≤ dy then dy + a else dy
    let err' := if e2 ≤ dy then err + (dy + a) else err
    let stepX := decide (e2 ≥ dx ∨ 2 * err' > dy')
    let x' := if stepX then x + 1 else x
    let x1' := if stepX then x1 - 1 else x1
    let dx' := if stepX then dx + b1 else dx
    let err'' := if stepX then err' + (dx + b1) else err'
    if x' ≤ x1' then
      match DrawEllipse.loop a b1 fuel x' x1' y' y1' dx' dy' err'' with
      | none => none
      | some r => some (ps ++ r.1, r.2)
    else some (ps, x', x1', y', y1')

/-- The loop `while (y - y1 < b)` of `DrawEllipse` from the state `(y, y1)`:
the positions passed to `Draw`, `none` when `fuel` iterations do not reach the
exit. -/
def DrawEllipse.tail (b x x1 : Int) : Nat → Int → Int → Option (List (Int × Int))
  | 0, y, y1 => if y - y1 < b then none else some []
  | fuel + 1, y, y1 =>
    if y - y1 < b then
      match DrawEllipse.tail b x x1 fuel (y + 1) (y1 - 1) with
      | none => none
      | some r => some ([(x - 1, y), (x1 + 1, y), (x - 1, y1), (x1 + 1, y1)] ++ r)
    else some []

/-- The positions `DrawEllipse(x, y, sizeX, sizeY, col)` passes to `Draw`, in
call order, each of the two loops bounded by `fuel` iterations: `none` when a
loop has not reached its exit within the bound.  `b & 1` of the non-negative
`b` is `b % 2`. -/
def DrawEllipse.plots (fuel : Nat) (x y sizeX sizeY : Int) : Option (List (Int × Int)) :=
  let x1 := x + sizeX
  let y1 := y + sizeY
  let a : Int := (x1 - x).natAbs
  let b : Int := (y1 - y).natAbs
  let b1 := b % 2
  let dx := 4 * (1 - a) * b * b
  let dy := 4 * (b1 + 1) * a * a
  let err := dx + dy + b1 * a * a
  let x' := if x > x1 then x1 else x
  let x1 := if x > x1 then x1 + a else x1
  let x := x'
  let y := if y > y1 then y1 else y
  let y := y + (b + 1) / 2
  let y1 := y - b1
  let a := a * (8 * a)
  let b1 := 8 * b * b
  match DrawEllipse.loop a b1 fuel x x1 y y1 dx dy err with
  | none => none
  | some (ps, x, x1, y, y1) =>
    match DrawEllipse.tail b x x1 fuel y y1 with
    | none => none
    | some r => some (ps ++ r)

/-- The method `GameEngine::DrawEllipse(int x, int y, int sizeX, int sizeY,
col)`, its loops bounded by `fuel`. -/
def DrawEllipse (blend : Fin 256 → Fin 256 → Fin 256 → Fin 256) (e : GameEngine) (fuel : Nat)
    (x y sizeX sizeY : Int) (col : Pixel) : Option GameEngine :=
  match DrawEllipse.plots fuel x y sizeX sizeY with
  | none => none
  | some ps => e.drawAll blend ps col

/-- A number of iterations that suffices for both loops of
`DrawEllipse(x, y, sizeX, sizeY)`. -/
def DrawEllipse.fuel (sizeX sizeY : Int) : Nat :=
  let a := sizeX.natAbs
  let b := sizeY.natAbs
  let D := 4 * a * b * b
  2 * D + (a + 2) * (2 * D + 1) + b + 1

end GameEngine

/-! ## Triangles -/

namespace GameEngine

/-- The local lambda `draw_line(start, end, y)` of `FillTriangle`:
`for (int i = start; i <= end; i++) Draw(i, y, col)`. -/
def FillTriangle.draw_line (start stop y : Int) : List (Int × Int) :=
  (List.range (stop - start + 1).toNat).map fun (k : Nat) => (start + (k : Int), y)

/-- The loop `while (e >= dx) { e -= dx; txp = sign; }`, the form the inner
error loops of `FillTriangle` take when the edge is steep (`changed`): the
final `(e, txp)`, `none` when `fuel` iterations do not reach the exit. -/
def FillTriangle.reduce (dx sign : Int) : Nat → Int → Int → Option (Int × Int)
  | 0, e, txp => if e ≥ dx then none else some (e, txp)
  | fuel + 1, e, txp =>
    if e ≥ dx then FillTriangle.reduce dx sign fuel (e - dx) sign else some (e, txp)

/-- The loop `while (i++ < dx1)` of the first half, up to the label `next1`:
from `(i, e1, t1x, t1xp)` to their values at `next1`. -/
def FillTriangle.walk1 (changed1 : Bool) (signx1 dx1 dy1 : Int) (fuel0 : Nat) :
    Nat → Int → Int → Int → Int → Option (Int × Int × Int × Int)
  | 0, _, _, _, _ => none
  | fuel + 1, i, e1, t1x, t1xp =>
    if i < dx1 then
      let i := i + 1
      let e1 := e1 + dy1
      if changed1 then
        match FillTriangle.reduce dx1 signx1 fuel0 e1 t1xp with
        | none => none
        | some r => some (i, r.1, t1x, r.2)
      else if e1 ≥ dx1 then
        some (i, e1 - dx1, t1x, t1xp)
      else
        FillTriangle.walk1 changed1 signx1 dx1 dy1 fuel0 fuel i e1 (t1x + signx1) t1xp
    else
      some (i + 1, e1, t1x, t1xp)

/-- The loop `while (1)` of the first half, from the label `next1` up to the
label `next2`: from `(e2, t2x, t2xp)` to their values at `next2`. -/
def FillTriangle.walk2 (changed2 : Bool) (signx2 dx2 dy2 : Int) (fuel0 : Nat) :
    Nat → Int → Int → Int → Option (Int × Int × Int)
  | 0, _, _, _ => none
  | fuel + 1, e2, t2x, t2xp =>
    let e2 := e2 + dy2
    if changed2 then
      match FillTriangle.reduce dx2 signx2 fuel0 e2 t2xp with
      | none => none
      | some r => some (r.1, t2x, r.2)
    else if e2 ≥ dx2 then
      some (e2 - dx2, t2x, t2xp)
    else
      FillTriangle.walk2 changed2 signx2 dx2 dy2 fuel0 fuel e2 (t2x + signx2) t2xp

/-- The loop `while (i < dx1)` of the second half, up to the label `next3`:
its inner error loop leaves after one subtraction. -/
def FillTriangle.walk3 (changed1 : Bool) (signx1 dx1 dy1 : Int) :
    Nat → Int → Int → Int → Int → Option (Int × Int × Int × Int)
  | 0, _, _, _, _ => none
  | fuel + 1, i, e1, t1x, t1xp =>
    if i < dx1 then
      let e1 := e1 + dy1
      if e1 ≥ dx1 then
        if changed1 then some (i, e1 - dx1, t1x, signx1)
        else some (i, e1 - dx1, t1x, t1xp)
      else if changed1 then
        some (i, e1, t1x, t1xp)
      else
        FillTriangle.walk3 changed1 signx1 dx1 dy1 fuel (if i < dx1 then i + 1 else i) e1
          (t1x + signx1) t1xp
    else
      some (i, e1, t1x, t1xp)

/-- The loop `while (t2x != x3)` of the second half, from the label `next3` up
to the label `next4`. -/
def FillTriangle.walk4 (changed2 : Bool) (signx2 dx2 dy2 x3 : Int) (fuel0 : Nat) :
    Nat → Int → Int → Int → Option (Int × Int × Int)
  | 0, _, _, _ => none
  | fuel + 1, e2, t2x, t2xp =>
    if t2x ≠ x3 then
      let e2 := e2 + dy2
      if changed2 then
        match FillTriangle.reduce dx2 signx2 fuel0 e2 t2xp with
        | none => none
        | some r => some (r.1, t2x, r.2)
      else if e2 ≥ dx2 then
        some (e2 - dx2, t2x, t2xp)
      else
        FillTriangle.walk4 changed2 signx2 dx2 dy2 x3 fuel0 fuel e2 (t2x + signx2) t2xp
    else
      some (e2, t2x, t2xp)

/-- The span drawn at the labels `next2` and `next4`: `minx` and `maxx` start
as the ordered pair of the edge positions before the walk and are widened by
the positions after it. -/
def FillTriangle.span (t1x0 t2x0 t1x t2x y : Int) : List (Int × Int) :=
  let minx := if t1x0 < t2x0 then t1x0 else t2x0
  let maxx := if t1x0 < t2x0 then t2x0 else t1x0
  let minx := if minx > t1x then t1x else minx
  let minx := if minx > t2x then t2x else minx
  let maxx := if maxx < t1x then t1x else maxx
  let maxx := if maxx < t2x then t2x else maxx
  FillTriangle.draw_line minx maxx y

/-- The loop `for (int i = 0; i < dx1;)` of the first half, from the state
`(i, e1, e2, t1x, t2x, y)`: the positions plotted and the `(e2, t2x, y)` the
second half starts from. -/
def FillTriangle.upper (changed1 changed2 : Bool) (signx1 signx2 dx1 dy1 dx2 dy2 y2 : Int)
    (fuel0 : Nat) :
    Nat → Int → Int → Int → Int → Int → Int → Option (List (Int × Int) × Int × Int × Int)
  | 0, _, _, _, _, _, _ => none
  | fuel + 1, i, e1, e2, t1x, t2x, y =>
    if i < dx1 then
      match FillTriangle.walk1 changed1 signx1 dx1 dy1 fuel0 fuel0 i e1 t1x 0 with
      | none => none
      | some (i, e1, t1xa, t1xp) =>
        match FillTriangle.walk2 changed2 signx2 dx2 dy2 fuel0 fuel0 e2 t2x 0 with
        | none => none
        | some (e2, t2xa, t2xp) =>
          let line := FillTriangle.span t1x t2x t1xa t2xa y
          let t1x := (if !changed1 then t1xa + signx1 else t1xa) + t1xp
          let t2x := (if !changed2 then t2xa + signx2 else t2xa) + t2xp
          let y := y + 1
          if y = y2 then some (line, e2, t2x, y)
          else
            match FillTriangle.upper changed1 changed2 signx1 signx2 dx1 dy1 dx2 dy2 y2 fuel0
                fuel i e1 e2 t1x t2x y with
            | none => none
            | some r => some (line ++ r.1, r.2)
    else some ([], e2, t2x, y)

/-- The loop `for (int i = 0; i <= dx1; i++)` of the second half, from the
state `(i, e1, e2, t1x, t2x, y)`: the positions plotted. -/
def FillTriangle.lower (changed1 changed2 : Bool) (signx1 signx2 dx1 dy1 dx2 dy2 x3 y3 : Int)
    (fuel0 : Nat) :
    Nat → Int → Int → Int → Int → Int → Int → Option (List (Int × Int))
  | 0, _, _, _, _, _, _ => none
  | fuel + 1, i, e1, e2, t1x, t2x, y =>
    if i ≤ dx1 then
      match FillTriangle.walk3 changed1 signx1 dx1 dy1 fuel0 i e1 t1x 0 with
      | none => none
      | some (i, e1, t1xa, t1xp) =>
        match FillTriangle.walk4 changed2 signx2 dx2 dy2 x3 fuel0 fuel0 e2 t2x 0 with
        | none => none
        | some (e2, t2xa, t2xp) =>
          let line := FillTriangle.span t1x t2x t1xa t2xa y
          let t1x := (if !changed1 then t1xa + signx1 else t1xa) + t1xp
          let t2x := (if !changed2 then t2xa + signx2 else t2xa) + t2xp
          let y := y + 1
          if y > y3 then some line
          else
            match FillTriangle.lower changed1 changed2 signx1 signx2 dx1 dy1 dx2 dy2 x3 y3 fuel0
                fuel (i + 1) e1 e2 t1x t2x y with
            | none => none
            | some r => some (line ++ r)
    else some []

/-- The three conditional swaps at the head of `FillTriangle`, which order the
vertices by `y`: the vertices `((x1, y1), (x2, y2), (x3, y3))` after them. -/
def FillTriangle.sort (x1 y1 x2 y2 x3 y3 : Int) :
    (Int × Int) × (Int × Int) × (Int × Int) :=
  let p1 := if y1 > y2 then (x2, y2) else (x1, y1)
  let p2 := if y1 > y2 then (x1, y1) else (x2, y2)
  let p3 := (x3, y3)
  let q1 := if p1.2 > p3.2 then p3 else p1
  let q3 := if p1.2 > p3.2 then p1 else p3
  let r2 := if p2.2 > q3.2 then q3 else p2
  let r3 := if p2.2 > q3.2 then p2 else q3
  (q1, r2, r3)

/-- The positions `FillTriangle(x1, y1, x2, y2, x3, y3, col)` passes to `Draw`,
in call order, every loop bounded by `fuel` iterations: `none` when a loop has
not reached its exit within the bound.  `dx >> 1` of a non-negative `int` is
`dx / 2`. -/
def FillTriangle.plots (fuel : Nat) (x1 y1 x2 y2 x3 y3 : Int) : Option (List (Int × Int)) :=
  let s := FillTriangle.sort x1 y1 x2 y2 x3 y3
  let x1 := s.1.1
  let y1 := s.1.2
  let x2 := s.2.1.1
  let y2 := s.2.1.2
  let x3 := s.2.2.1
  let y3 := s.2.2.2
  let t1x := x1
  let t2x := x1
  let y := y1
  let dx1 := x2 - x1
  let signx1 : Int := if dx1 < 0 then -1 else 1
  let dx1 := if dx1 < 0 then -dx1 else dx1
  let dy1 := y2 - y1
  let dx2 := x3 - x1
  let signx2 : Int := if dx2 < 0 then -1 else 1
  let dx2 := if dx2 < 0 then -dx2 else dx2
  let dy2 := y3 - y1
  let changed1 := decide (dy1 > dx1)
  let dx1s := if dy1 > dx1 then dy1 else dx1
  let dy1s := if dy1 > dx1 then dx1 else dy1
  let changed2 := decide (dy2 > dx2)
  let dx2s := if dy2 > dx2 then dy2 else dx2
  let dy2s := if dy2 > dx2 then dx2 else dy2
  let e2 := dx2s / 2
  let first : Option (List (Int × Int) × Int × Int × Int) :=
    if y1 = y2 then some ([], e2, t2x, y)
    else
      FillTriangle.upper changed1 changed2 signx1 signx2 dx1s dy1s dx2s dy2s y2 fuel fuel 0
        (dx1s / 2) e2 t1x t2x y
  match first with
  | none => none
  | some (lines, e2, t2x, y) =>
    let dx1 := x3 - x2
    let signx1 : Int := if dx1 < 0 then -1 else 1
    let dx1 := if dx1 < 0 then -dx1 else dx1
    let dy1 := y3 - y2
    let t1x := x2
    let changed1 := decide (dy1 > dx1)
    let dx1s := if dy1 > dx1 then dy1 else dx1
    let dy1s := if dy1 > dx1 then dx1 else dy1
    let e1 := dx1s / 2
    match FillTriangle.lower changed1 changed2 signx1 signx2 dx1s dy1s dx2s dy2s x3 y3 fuel fuel 0
        e1 e2 t1x t2x y with
    | none => none
    | some r => some (lines ++ r)

/-- The method `GameEngine::FillTriangle(int x1, int y1, int x2, int y2, int x3,
int y3, col)`, its loops bounded by `fuel`. -/
def FillTriangle (blend : Fin 256 → Fin 256 → Fin 256 → Fin 256) (e : GameEngine) (fuel : Nat)
    (x1 y1 x2 y2 x3 y3 : Int) (col : Pixel) : Option GameEngine :=
  match FillTriangle.plots fuel x1 y1 x2 y2 x3 y3 with
  | none => none
  | some ps => e.drawAll blend ps col

/-- A number of iterations that suffices for every loop of
`FillTriangle(x1, y1, x2, y2, x3, y3)`. -/
def FillTriangle.fuel (x1 y1 x2 y2 x3 y3 : Int) : Nat :=
  (x1 - x2).natAbs + (x1 - x3).natAbs + (x2 - x3).natAbs +
  (y1 - y2).natAbs + (y1 - y3).natAbs + (y2 - y3).natAbs + 2

/-- The parameters with which `FillTriangle` walks an edge that spans `dx >= 0`
columns and `dy >= 0` rows: the direction `sign`, the flag `changed` of a steep
edge (`dy > dx`), and the pair `(M, m)` the code keeps in `(dx, dy)` after the
swap, the larger and the smaller of the two spans. -/
def FillTriangle.EdgeOK (changed : Bool) (sign M m dx dy : Int) : Prop :=
  (sign = 1 ∨ sign = -1) ∧ 0 ≤ dx ∧ 0 ≤ dy ∧
  (if changed then M = dy ∧ m = dx ∧ dx < dy else M = dx ∧ m = dy ∧ dy ≤ dx)

/-- The state of an edge walker at the start of scanline `k` of its edge: the
error term `e` and the number `n` of columns stepped so far.  On a steep edge
`e` is the remainder of `M / 2 + k * m` after `n` subtractions of `M`; on a
shallow edge it is the remainder of `M / 2 + n * m` after `k` subtractions of
`M`, below `m` from the first subtraction on. -/
def FillTriangle.Track (changed : Bool) (M m k e n : Int) : Prop :=
  0 ≤ n ∧ 0 ≤ e ∧
  (if changed then e < M ∧ e + n * M = M / 2 + k * m
   else e + k * M = M / 2 + n * m ∧ (e < m ∨ (k = 0 ∧ n = 0)))

/-- The state of the walker of the long edge in the second half, where the
walk is guarded by `t2x != x3`: as `Track`, but on a steep edge the error term
is no longer updated once the last column is reached. -/
def FillTriangle.TrackG (changed : Bool) (M m k e n : Int) : Prop :=
  0 ≤ n ∧ 0 ≤ e ∧
  (if changed then e < M ∧ (n = m ∨ e + n * M = M / 2 + k * m)
   else e + k * M = M / 2 + n * m ∧ (e < m ∨ (k = 0 ∧ n = 0)))

end GameEngine

/-! ## Pixel products and quotients -/

namespace Pixel

/-- The operator `Pixel::operator*=(const Pixel& rhs)`: each colour channel
becomes `uint8_t(std::clamp((int)c * (int)rhs.c, 0, 255))`, the clamped
integer product; a is not touched. -/
def operator_times_eq (p rhs : Pixel) : Pixel :=
  { p with
    r := toU8 (clamp ((p.r.val : Int) * (rhs.r.val : Int)) 0 255)
    g := toU8 (clamp ((p.g.val : Int) * (rhs.g.val : Int)) 0 255)
    b := toU8 (clamp ((p.b.val : Int) * (rhs.b.val : Int)) 0 255) }

/-- One channel of `Pixel::operator*(const Pixel& rhs) const`:
`uint8_t(std::clamp((float)c * (float)d / 255.0f, 0.0f, 255.0f))`.  The product
of two bytes is below `2^24` and exact in `float`; the correctly rounded
quotient by 255 lies in `[0, 255]`, and it does not reach the next integer
above the exact quotient, which is at least `1/255` away while floats below
256 are at most `2^-16` apart.  So the truncating conversion yields the
integer quotient. -/
def times_channel (c d : Fin 256) : Fin 256 :=
  toU8 (clamp ((c.val : Int) * (d.val : Int) / 255) 0 255)

/-- The operator `Pixel::operator*(const Pixel& rhs) const`: a new pixel built
with the three-argument constructor from the products normalised by 255. -/
def operator_times (p rhs : Pixel) : Pixel :=
  { r := times_channel p.r rhs.r
    g := times_channel p.g rhs.g
    b := times_channel p.b rhs.b }

/-- One channel of `Pixel::operator/=(const Pixel& rhs)`:
`uint8_t(std::clamp((int)c / (int)d, 0, 255))`, an integer division, which is
undefined for `d == 0` (`none`). -/
def div_eq_channel (c d : Fin 256) : Option (Fin 256) :=
  if d.val = 0 then none
  else some (toU8 (clamp (Int.tdiv (c.val : Int) (d.val : Int)) 0 255))

/-- The operator `Pixel::operator/=(const Pixel& rhs)`: r, g and b are
assigned in this order, a is not touched; `none` when one of the divisions is
by zero. -/
def operator_div_eq (p rhs : Pixel) : Option Pixel := do
  let r ← div_eq_channel p.r rhs.r
  let g ← div_eq_channel p.g rhs.g
  let b ← div_eq_channel p.b rhs.b
  pure { p with r := r, g := g, b := b }

/-- One channel of `Pixel::operator/(const Pixel& rhs) const`:
`uint8_t(std::clamp((float)c / (float)d, 0.0f, 255.0f))`, a float division.
For `d == 0` the quotient is `+inf` when `c > 0`, clamped to 255, and NaN when
`c == 0`, which `std::clamp` returns and whose conversion to `uint8_t` is
undefined (`none`).  For `d > 0` the rounded quotient truncates to the integer
quotient, as for `times_channel`. -/
def div_channel (c d : Fin 256) : Option (Fin 256) :=
  if d.val = 0 then
    if c.val = 0 then none else some 255
  else some (toU8 (clamp ((c.val : Int) / (d.val : Int)) 0 255))

/-- The operator `Pixel::operator/(const Pixel& rhs) const`: a new pixel built
with the three-argument constructor; `none` when a conversion is undefined. -/
def operator_div (p rhs : Pixel) : Option Pixel := do
  let r ← div_channel p.r rhs.r
  let g ← div_channel p.g rhs.g
  let b ← div_channel p.b rhs.b
  pure { r := r, g := g, b := b }

/-- The operator `Pixel::operator*=(const float rhs)`: each colour channel
becomes `uint8_t(std::clamp((float)c * rhs, 0.0f, 255.0f))`, a is not touched.
The channel computation in `float` is the parameter `chan`, for every type `F`
of scalars; it is `none` where the conversion to `uint8_t` is undefined (a NaN
product, which `std::clamp` returns). -/
def operator_times_eq_float {F : Type} (chan : Fin 256 → F → Option (Fin 256))
    (p : Pixel) (rhs : F) : Option Pixel := do
  let r ← chan p.r rhs
  let g ← chan p.g rhs
  let b ← chan p.b rhs
  pure { p with r := r, g := g, b := b }

/-- The operator `Pixel::operator/=(const float rhs)`: each colour channel
becomes `uint8_t(std::clamp((float)c / rhs, 0.0f, 255.0f))`, a is not touched.
The channel computation is the parameter `chan`, `none` where the conversion is
undefined (a NaN quotient such as `0 / 0.0f`). -/
def operator_div_eq_float {F : Type} (chan : Fin 256 → F → Option (Fin 256))
    (p : Pixel) (rhs : F) : Option Pixel := do
  let r ← chan p.r rhs
  let g ← chan p.g rhs
  let b ← chan p.b rhs
  pure { p with r := r, g := g, b := b }

/-- The operator `Pixel::operator*(const float rhs) const`: a new pixel built
with the three-argument constructor from the channels
`uint8_t(std::clamp((float)c * rhs, 0.0f, 255.0f))`, the parameter `chan`. -/
def operator_times_float {F : Type} (chan : Fin 256 → F → Option (Fin 256))
    (p : Pixel) (rhs : F) : Option Pixel := do
  let r ← chan p.r rhs
  let g ← chan p.g rhs
  let b ← chan p.b rhs
  pure { r := r, g := g, b := b }

/-- The operator `Pixel::operator/(const float rhs) const`: a new pixel built
with the three-argument constructor from the channels
`uint8_t(std::clamp((float)c / rhs, 0.0f, 255.0f))`, the parameter `chan`. -/
def operator_div_float {F : Type} (chan : Fin 256 → F → Option (Fin 256))
    (p : Pixel) (rhs : F) : Option Pixel := do
  let r ← chan p.r rhs
  let g ← chan p.g rhs
  let b ← chan p.b rhs
  pure { r := r, g := g, b := b }

/-- The channel computation `uint8_t(std::clamp((float)c * rhs, 0.0f, 255.0f))`
for an integer-valued scalar: the product is exact in `float` while it is below
`2^24` in magnitude and stays outside `[0, 255]` beyond that, so the result is
the integer clamp.  It is one instance of the parameter `chan`. -/
def times_float_channel (c : Fin 256) (rhs : Int) : Option (Fin 256) :=
  some (toU8 (clamp ((c.val : Int) * rhs) 0 255))

/-- The channel computation `uint8_t(std::clamp((float)c / rhs, 0.0f, 255.0f))`
for an integer-valued scalar: `0 / 0.0f` is NaN and has no conversion, `c / 0.0f`
with `c > 0` is `+inf` and is clamped to 255, and otherwise the rounded quotient
truncates to the integer quotient.  It is one instance of the parameter
`chan`. -/
def div_float_channel (c : Fin 256) (rhs : Int) : Option (Fin 256) :=
  if rhs = 0 then
    if c.val = 0 then none else some 255
  else some (toU8 (clamp (Int.tdiv (c.val : Int) rhs) 0 255))

end Pixel

/-! ## Shader and pixel mode setters -/

namespace GameEngine

/-- The method `GameEngine::SetPixelMode(Pixel::Mode pixelMode)`. -/
def SetPixelMode (e : GameEngine) (pixelMode : Pixel.Mode) : GameEngine :=
  { e with m_PixelMode := pixelMode }

/-- The method `GameEngine::SetShader(Pixel (*func)(const vi2d&, const Pixel&,
const Pixel&))`: `none` is the argument `nullptr`. -/
def SetShader (e : GameEngine) (func : Option (Vi2d → Pixel → Pixel → Pixel)) : GameEngine :=
  let m_Shader := func
  { e with
    m_Shader := m_Shader
    m_PixelMode := if m_Shader.isSome then Pixel.Mode.CUSTOM else Pixel.Mode.DEFAULT }

/-- The engine states reached from the constructed engine by calls of
`SetShader` and `SetPixelMode`. -/
inductive SetterReachable : GameEngine → Prop
  | constructed : SetterReachable GameEngine.constructed
  | setShader (e : GameEngine) (func : Option (Vi2d → Pixel → Pixel → Pixel)) :
      SetterReachable e → SetterReachable (e.SetShader func)
  | setPixelMode (e : GameEngine) (pixelMode : Pixel.Mode) :
      SetterReachable e → SetterReachable (e.SetPixelMode pixelMode)

/-! ## Rectangle outline -/

/-- The positions `DrawRectangle(x, y, sizeX, sizeY, col)` passes to `Draw`, in
call order: the loop over `i < sizeX - 1`, the loop over `i < sizeY`, and the
final call. -/
def DrawRectangle.plots (x y sizeX sizeY : Int) : List (Int × Int) :=
  ((List.range (sizeX - 1).toNat).flatMap fun (i : Nat) =>
    [(x + (i : Int), y), (x + (i : Int), y + sizeY)]) ++
  ((List.range sizeY.toNat).flatMap fun (i : Nat) =>
    [(x, y + (i : Int)), (x + sizeX - 1, y + (i : Int))]) ++
  [(x + sizeX - 1, y + sizeY)]

/-- The method `GameEngine::DrawRectangle(int x, int y, int sizeX, int sizeY,
col)`. -/
def DrawRectangle (blend : Fin 256 → Fin 256 → Fin 256 → Fin 256) (e : GameEngine)
    (x y sizeX sizeY : Int) (col : Pixel) : Option GameEngine :=
  e.drawAll blend (DrawRectangle.plots x y sizeX sizeY) col

/-! ## Filled ellipse -/

/-- The local lambda `draw_line(start, end, y)` of `FillEllipse`:
`for (int i = start; i <= end; i++) Draw(i, y, col)`. -/
def FillEllipse.draw_line (start stop y : Int) : List (Int × Int) :=
  (List.range (stop - start + 1).toNat).map fun (k : Nat) => (start + (k : Int), y)

/-- The loop `do { .. } while (x <= x1)` of `FillEllipse` from the state
`(x, x1, y, y1, dx, dy, err)`; `a` and `b1` hold `8 * a * a` and `8 * b * b`.
The state is updated as in `DrawEllipse`; each iteration draws the rows `y` and
`y1` from `x` to `x1`.  The result is the positions passed to `Draw` and the
`(x, x1, y, y1)` the loop leaves, `none` when `fuel` iterations do not reach
the exit. -/
def FillEllipse.loop (a b1 : Int) :
    Nat → Int → Int → Int → Int → Int → Int → Int →
      Option (List (Int × Int) × Int × Int × Int × Int)
  | 0, _, _, _, _, _, _, _ => none
  | fuel + 1, x, x1, y, y1, dx, dy, err =>
    let ps := FillEllipse.draw_line x x1 y ++ FillEllipse.draw_line x x1 y1
    let e2 := 2 * err
    let y' := if e2 ≤ dy then y + 1 else y
    let y1' := if e2 ≤ dy then y1 - 1 else y1
    let dy' := if e2 ≤ dy then dy + a else dy
    let err' := if e2 ≤ dy then err + (dy + a) else err
    let stepX := decide (e2 ≥ dx ∨ 2 * err' > dy')
    let x' := if stepX then x + 1 else x
    let x1' := if stepX then x1 - 1 else x1
    let dx' := if stepX then dx + b1 else dx
    let err'' := if stepX then err' + (dx + b1) else err'
    if x' ≤ x1' then
      match FillEllipse.loop a b1 fuel x' x1' y' y1' dx' dy' err'' with
      | none => none
      | some r => some (ps ++ r.1, r.2)
    else some (ps, x', x1', y', y1')

/-- The loop `while (y - y1 < b)` of `FillEllipse` from the state `(y, y1)`:
each iteration draws the rows `y` and `y1` from `x - 1` to `x1 + 1`; `none`
when `fuel` iterations do not reach the exit. -/
def FillEllipse.tail (b x x1 : Int) : Nat → Int → Int → Option (List (Int × Int))
  | 0, y, y1 => if y - y1 < b then none else some []
  | fuel + 1, y, y1 =>
    if y - y1 < b then
      match FillEllipse.tail b x x1 fuel (y + 1) (y1 - 1) with
      | none => none
      | some r =>
        some (FillEllipse.draw_line (x - 1) (x1 + 1) y ++
          FillEllipse.draw_line (x - 1) (x1 + 1) y1 ++ r)
    else some []

/-- The positions `FillEllipse(x, y, sizeX, sizeY, col)` passes to `Draw`, in
call order, each of the two loops bounded by `fuel` iterations: `none` when a
loop has not reached its exit within the bound. -/
def FillEllipse.plots (fuel : Nat) (x y sizeX sizeY : Int) : Option (List (Int × Int)) :=
  let x1 := x + sizeX
  let y1 := y + sizeY
  let a : Int := (x1 - x).natAbs
  let b : Int := (y1 - y).natAbs
  let b1 := b % 2
  let dx := 4 * (1 - a) * b * b
  let dy := 4 * (b1 + 1) * a * a
  let err := dx + dy + b1 * a * a
  let x' := if x > x1 then x1 else x
  let x1 := if x > x1 then x1 + a else x1
  let x := x'
  let y := if y > y1 then y1 else y
  let y := y + (b + 1) / 2
  let y1 := y - b1
  let a := a * (8 * a)
  let b1 := 8 * b * b
  match FillEllipse.loop a b1 fuel x x1 y y1 dx dy err with
  | none => none
  | some (ps, x, x1, y, y1) =>
    match FillEllipse.tail b x x1 fuel y y1 with
    | none => none
    | some r => some (ps ++ r)

/-- The method `GameEngine::FillEllipse(int x, int y, int sizeX, int sizeY,
col)`, its loops bounded by `fuel`. -/
def FillEllipse (blend : Fin 256 → Fin 256 → Fin 256 → Fin 256) (e : GameEngine) (fuel : Nat)
    (x y sizeX sizeY : Int) (col : Pixel) : Option GameEngine :=
  match FillEllipse.plots fuel x y sizeX sizeY with
  | none => none
  | some ps => e.drawAll blend ps col

end GameEngine

/-! ## Sprite blits -/

/-- The pointer argument `const Sprite* sprite` of `DrawSprite` and
`DrawPartialSprite`: it addresses a sprite object other than the sprite of the
draw target, whose contents no `Draw` call changes (`other s`), or the sprite of
the draw target itself (`target`). -/
inductive SpriteArg where
  | other (s : Sprite)
  | target

namespace GameEngine

/-- The object `*sprite` in the engine state `e`; `none` for the sprite of a
null draw target. -/
def deref (e : GameEngine) : SpriteArg → Option Sprite
  | .other s => some s
  | .target => e.m_DrawTarget.map fun g => g.sprite

/-- One call `Draw(px, py, sprite->GetPixel(fx, fy))`: the pixel is read from
the sprite as it is before the call. -/
def drawFrom (blend : Fin 256 → Fin 256 → Fin 256 → Fin 256) (sprite : SpriteArg)
    (e : GameEngine) (px py fx fy : Int) : Option GameEngine :=
  match e.deref sprite with
  | none => none
  | some s =>
    match e.Draw blend px py (s.GetPixel fx fy) with
    | none => none
    | some r => some r.2

/-- A run of calls `Draw(px, py, sprite->GetPixel(fx, fy))`, one for each
element `((px, py), (fx, fy))` of the list in order. -/
def drawFromAll (blend : Fin 256 → Fin 256 → Fin 256 → Fin 256) (sprite : SpriteArg) :
    GameEngine → List ((Int × Int) × (Int × Int)) → Option GameEngine
  | e, [] => some e
  | e, st :: rest =>
    match e.drawFrom blend sprite st.1.1 st.1.2 st.2.1 st.2.2 with
    | none => none
    | some e1 => drawFromAll blend sprite e1 rest

/-- The loops of `DrawSprite(x, y, sprite)` for a sprite of the given size:
the target position and the source position of each `Draw` call, rows outside
and columns inside. -/
def DrawSprite.steps (x y : Int) (size : Vi2d) : List ((Int × Int) × (Int × Int)) :=
  (List.range size.y.toNat).flatMap fun (j : Nat) =>
    (List.range size.x.toNat).map fun (i : Nat) =>
      ((x + (i : Int), y + (j : Int)), ((i : Int), (j : Int)))

/-- The method `GameEngine::DrawSprite(int x, int y, const Sprite* sprite)`.
The loop bounds `sprite->size` are read from the object; no `Draw` call changes
the size of a sprite, so they are the size at the call. -/
def DrawSprite (blend : Fin 256 → Fin 256 → Fin 256 → Fin 256) (e : GameEngine)
    (x y : Int) (sprite : SpriteArg) : Option GameEngine :=
  match e.deref sprite with
  | none => none
  | some s => drawFromAll blend sprite e (DrawSprite.steps x y s.size)

/-- The loops of `DrawPartialSprite(x, y, fileX, fileY, fileSizeX, fileSizeY,
sprite)`: the target position and the source position of each `Draw` call,
columns outside and rows inside; the counters `x1` and `y1` equal `i` and
`j`. -/
def DrawPartialSprite.steps (x y fileX fileY fileSizeX fileSizeY : Int) :
    List ((Int × Int) × (Int × Int)) :=
  (List.range fileSizeX.toNat).flatMap fun (i : Nat) =>
    (List.range fileSizeY.toNat).map fun (j : Nat) =>
      ((x + (i : Int), y + (j : Int)), (fileX + (i : Int), fileY + (j : Int)))

/-- The method `GameEngine::DrawPartialSprite(int x, int y, int fileX,
int fileY, int fileSizeX, int fileSizeY, const Sprite* sprite)`. -/
def DrawPartialSprite (blend : Fin 256 → Fin 256 → Fin 256 → Fin 256) (e : GameEngine)
    (x y fileX fileY fileSizeX fileSizeY : Int) (sprite : SpriteArg) : Option GameEngine :=
  drawFromAll blend sprite e (DrawPartialSprite.steps x y fileX fileY fileSizeX fileSizeY)

/-- The colour a `Draw` call stores for the destination pixel `d` and the
source pixel `col` in the modes DEFAULT, MASK and ALPHA, `none` when the call
stores nothing. -/
def Draw.stored (blend : Fin 256 → Fin 256 → Fin 256 → Fin 256) (mode : Pixel.Mode)
    (d col : Pixel) : Option Pixel :=
  match mode with
  | .DEFAULT => some col
  | .MASK => if col.a = 255 then some col else none
  | .ALPHA => some { r := blend d.r col.r col.a, g := blend d.g col.g col.a,
                     b := blend d.b col.b col.a }
  | .CUSTOM => none

/-- The sprite of the draw target after a call `Draw(x, y, col)` in one of
the modes DEFAULT, MASK and ALPHA, from the sprite `t` before the call. -/
def Draw.target (blend : Fin 256 → Fin 256 → Fin 256 → Fin 256) (mode : Pixel.Mode)
    (t : Sprite) (x y : Int) (col : Pixel) : Sprite :=
  match Draw.stored blend mode (t.GetPixel x y) col with
  | some c => (t.SetPixel x y c).2
  | none => t

/-- The sprite of the draw target after the calls
`Draw(px, py, s.GetPixel(fx, fy))` of a list of steps, for a source `s` that
the calls do not change. -/
def Draw.targetAll (blend : Fin 256 → Fin 256 → Fin 256 → Fin 256) (mode : Pixel.Mode)
    (s : Sprite) (t : Sprite) (steps : List ((Int × Int) × (Int × Int))) : Sprite :=
  steps.foldl (fun t st => Draw.target blend mode t st.1.1 st.1.2 (s.GetPixel st.2.1 st.2.2)) t

/-- The sprite of the draw target of an engine state. -/
def targetSprite (e : Option GameEngine) : Option Sprite :=
  match e with
  | none => none
  | some e => e.m_DrawTarget.map fun g => g.sprite

end GameEngine

/-- A 3x3 sprite whose pixel at buffer index `i` has red channel `i`. -/
def sprite3x3ramp : Sprite :=
  { size := { x := 3, y := 3 }
    pixels := (List.range 9).map fun (i : Nat) => { r := Fin.ofNat i, g := 0, b := 0 } }

/-! ## Path finder -/

/-- The operator `operator<(const vec2d&, const vec2d&)`. -/
def Vi2d.operator_lt (v1 v2 : Vi2d) : Bool :=
  decide (v1.x < v2.x) && decide (v1.y < v2.y)

/-- The operator `operator>=(const vec2d&, const vec2d&)`. -/
def Vi2d.operator_ge (v1 v2 : Vi2d) : Bool :=
  decide (v1.x ≥ v2.x) && decide (v1.y ≥ v2.y)

/-- The fields of `PathFinder` that `ConstructMap` and `SetNodes` assign:
`m_Nodes` is the number of elements of the array the pointer addresses, and a
node pointer `&m_Nodes[i]` is the index `i` (`none` for `nullptr`). -/
structure PathFinder where
  m_MapSize : Vi2d
  m_Nodes : Int
  m_Start : Option Int
  m_Goal : Option Int
deriving DecidableEq

namespace PathFinder

/-- The method `PathFinder::ConstructMap(const vi2d& size)`: the returned flag
and the object after the call.  The neighbour lists it fills are not read by
`SetNodes`. -/
def ConstructMap (pf : PathFinder) (size : Vi2d) : Bool × PathFinder :=
  if size.x ≤ 0 ∨ size.y ≤ 0 then (false, pf)
  else (true, { pf with m_MapSize := size, m_Nodes := size.x * size.y })

/-- The method `PathFinder::SetNodes(const vi2d& start, const vi2d& goal)`:
the returned flag and the object after the call. -/
def SetNodes (pf : PathFinder) (start goal : Vi2d) : Bool × PathFinder :=
  if start.operator_lt { x := 0, y := 0 } || goal.operator_lt { x := 0, y := 0 } ||
      start.operator_ge pf.m_MapSize || goal.operator_ge pf.m_MapSize then
    (false, pf)
  else
    (true, { pf with
      m_Start := some (start.y * pf.m_MapSize.x + start.x)
      m_Goal := some (goal.y * pf.m_MapSize.x + goal.x) })

/-- The object the constructor `PathFinder::PathFinder()` leaves: no start and
no goal node, no map. -/
def constructed : PathFinder :=
  { m_MapSize := { x := 0, y := 0 }, m_Nodes := 0, m_Start := none, m_Goal := none }

end PathFinder

/-! ## Arithmetic and buffer lemmas -/

theorem toU8_val_of_range (i : Int) (h0 : 0 ≤ i) (h1 : i ≤ 255) : ((toU8 i).val : Int) = i := by
  unfold toU8
  simp only
  omega

theorem clamp_byte (v : Int) : clamp v 0 255 = min 255 (max 0 v) := by
  unfold clamp
  split_ifs <;> omega

theorem clamp_byte_range (v : Int) : 0 ≤ clamp v 0 255 ∧ clamp v 0 255 ≤ 255 := by
  unfold clamp
  split_ifs <;> omega

theorem toU8_clamp_val (v : Int) : ((toU8 (clamp v 0 255)).val : Int) = min 255 (max 0 v) := by
  rw [toU8_val_of_range _ (clamp_byte_range v).1 (clamp_byte_range v).2, clamp_byte]

theorem Sprite.inBounds_iff (s : Sprite) (x y : Int) :
    s.inBounds x y = true ↔ (0 ≤ x ∧ 0 ≤ y ∧ x < s.size.x ∧ y < s.size.y) := by
  unfold Sprite.inBounds
  simp only [Bool.and_eq_true, decide_eq_true_eq, ge_iff_le]
  tauto

theorem index_range (w h x y : Int) (hx0 : 0 ≤ x) (hy0 : 0 ≤ y) (hx : x < w) (hy : y < h) :
    0 ≤ y * w + x ∧ y * w + x < w * h := by
  constructor
  · have : 0 ≤ y * w := mul_nonneg hy0 (by omega)
    omega
  · have h1 : (y + 1) * w ≤ h * w := mul_le_mul_of_nonneg_right (by omega) (by omega)
    nlinarith

theorem index_inj (w x y x' y' : Int) (hx0 : 0 ≤ x) (hx : x < w) (hx0' : 0 ≤ x') (hx' : x' < w)
    (h : y * w + x = y' * w + x') : x = x' ∧ y = y' := by
  have e1 : (y * w + x) % w = x := by
    rw [Int.add_comm, Int.add_mul_emod_self]
    exact Int.emod_eq_of_lt hx0 hx
  have e2 : (y' * w + x') % w = x' := by
    rw [Int.add_comm, Int.add_mul_emod_self]
    exact Int.emod_eq_of_lt hx0' hx'
  have hxx : x = x' := by rw [← e1, ← e2, h]
  refine ⟨hxx, ?_⟩
  subst hxx
  have : y * w = y' * w := by omega
  exact Int.eq_of_mul_eq_mul_right (by omega) this

/-- Under the buffer invariant an in-bounds position addresses an element of
the vector. -/
theorem Sprite.index_lt_length (s : Sprite) (x y : Int) (hInv : s.Inv)
    (hin : s.inBounds x y = true) :
    0 ≤ y * s.size.x + x ∧ (y * s.size.x + x).toNat < s.pixels.length := by
  obtain ⟨hx0, hy0, hx, hy⟩ := (s.inBounds_iff x y).1 hin
  obtain ⟨h0, h1⟩ := index_range s.size.x s.size.y x y hx0 hy0 hx hy
  unfold Sprite.Inv at hInv
  refine ⟨h0, ?_⟩
  omega

theorem Sprite.SetPixel_out (s : Sprite) (x y : Int) (col : Pixel)
    (h : s.inBounds x y = false) : s.SetPixel x y col = (false, s) := by
  unfold Sprite.SetPixel
  simp [h]

theorem Sprite.SetPixel_in (s : Sprite) (x y : Int) (col : Pixel)
    (h : s.inBounds x y = true) :
    s.SetPixel x y col =
      (true, { s with pixels := s.pixels.set (y * s.size.x + x).toNat col }) := by
  obtain ⟨hx0, hy0, hx, _⟩ := (s.inBounds_iff x y).1 h
  have h0 : 0 ≤ y * s.size.x + x := by
    have : 0 ≤ y * s.size.x := mul_nonneg hy0 (by omega)
    omega
  unfold Sprite.SetPixel Sprite.pixelsSet
  simp [h, h0]

theorem Sprite.SetPixel_size (s : Sprite) (x y : Int) (col : Pixel) :
    (s.SetPixel x y col).2.size = s.size ∧
    (s.SetPixel x y col).2.pixels.length = s.pixels.length := by
  cases h : s.inBounds x y
  · rw [Sprite.SetPixel_out s x y col h]
    exact ⟨rfl, rfl⟩
  · rw [Sprite.SetPixel_in s x y col h]
    exact ⟨rfl, List.length_set _ _ _⟩

theorem Sprite.inBounds_SetPixel (s : Sprite) (x y x' y' : Int) (col : Pixel) :
    (s.SetPixel x y col).2.inBounds x' y' = s.inBounds x' y' := by
  unfold Sprite.inBounds
  rw [(Sprite.SetPixel_size s x y col).1]

theorem Sprite.GetPixel_none_in (s : Sprite) (x y : Int) (h : s.inBounds x y = true) :
    s.GetPixel x y = s.pixels.getD (y * s.size.x + x).toNat BLACK := by
  obtain ⟨hx0, hy0, hx, _⟩ := (s.inBounds_iff x y).1 h
  have h0 : 0 ≤ y * s.size.x + x := by
    have : 0 ≤ y * s.size.x := mul_nonneg hy0 (by omega)
    omega
  unfold Sprite.GetPixel Sprite.GetPixel.index Sprite.pixelsAt
  simp [h, h0]

theorem Sprite.GetPixel_none_out (s : Sprite) (x y : Int) (h : s.inBounds x y = false) :
    s.GetPixel x y = BLACK := by
  unfold Sprite.GetPixel Sprite.GetPixel.index
  simp [h]

/-- Reading back the position just written gives the written colour. -/
theorem Sprite.GetPixel_SetPixel_same (s : Sprite) (x y : Int) (col : Pixel) (hInv : s.Inv)
    (h : s.inBounds x y = true) : (s.SetPixel x y col).2.GetPixel x y = col := by
  have h' : (s.SetPixel x y col).2.inBounds x y = true := by
    rw [Sprite.inBounds_SetPixel]; exact h
  rw [Sprite.GetPixel_none_in _ x y h', (Sprite.SetPixel_size s x y col).1]
  rw [Sprite.SetPixel_in s x y col h]
  obtain ⟨_, hlt⟩ := s.index_lt_length x y hInv h
  simp [List.getD_eq_getElem?_getD, List.getElem?_set, hlt]

/-- A write leaves every other position as it was. -/
theorem Sprite.GetPixel_SetPixel_other (s : Sprite) (x y x' y' : Int) (col : Pixel)
    (hne : ¬ (x' = x ∧ y' = y)) :
    (s.SetPixel x y col).2.GetPixel x' y' = s.GetPixel x' y' := by
  cases h : s.inBounds x y
  · rw [Sprite.SetPixel_out s x y col h]
  · cases h2 : s.inBounds x' y'
    · rw [Sprite.GetPixel_none_out s x' y' h2, Sprite.GetPixel_none_out]
      rw [Sprite.inBounds_SetPixel]; exact h2
    · have h2' : (s.SetPixel x y col).2.inBounds x' y' = true := by
        rw [Sprite.inBounds_SetPixel]; exact h2
      rw [Sprite.GetPixel_none_in _ x' y' h2', Sprite.GetPixel_none_in s x' y' h2,
        (Sprite.SetPixel_size s x y col).1, Sprite.SetPixel_in s x y col h]
      obtain ⟨hx0, hy0, hx, _⟩ := (s.inBounds_iff x y).1 h
      obtain ⟨hx0', hy0', hx', _⟩ := (s.inBounds_iff x' y').1 h2
      have hidx : (y * s.size.x + x).toNat ≠ (y' * s.size.x + x').toNat := by
        intro he
        have a1 : 0 ≤ y * s.size.x := mul_nonneg hy0 (by omega)
        have a2 : 0 ≤ y' * s.size.x := mul_nonneg hy0' (by omega)
        have : y * s.size.x + x = y' * s.size.x + x' := by omega
        obtain ⟨e1, e2⟩ := index_inj s.size.x x y x' y' hx0 hx hx0' hx' this
        exact hne ⟨e1.symm, e2.symm⟩
      simp [List.getD_eq_getElem?_getD, List.getElem?_set, hidx]

theorem GameEngine.withTarget_self (e : GameEngine) (g : Graphic)
    (h : e.m_DrawTarget = some g) : e.withTarget g.sprite = e := by
  cases e
  cases g
  simp_all [GameEngine.withTarget]

theorem GameEngine.Draw_eq_of_DEFAULT (blend : Fin 256 → Fin 256 → Fin 256 → Fin 256)
    (e : GameEngine) (g : Graphic) (x y : Int) (col : Pixel)
    (hm : e.m_PixelMode = Pixel.Mode.DEFAULT) (ht : e.m_DrawTarget = some g) :
    e.Draw blend x y col =
      some ((g.sprite.SetPixel x y col).1, e.withTarget (g.sprite.SetPixel x y col).2) := by
  unfold GameEngine.Draw
  simp [hm, ht]

theorem GameEngine.Draw_eq_of_MASK (blend : Fin 256 → Fin 256 → Fin 256 → Fin 256)
    (e : GameEngine) (g : Graphic) (x y : Int) (col : Pixel)
    (hm : e.m_PixelMode = Pixel.Mode.MASK) (ht : e.m_DrawTarget = some g) :
    e.Draw blend x y col =
      if col.a = 255 then
        some ((g.sprite.SetPixel x y col).1, e.withTarget (g.sprite.SetPixel x y col).2)
      else some (false, e) := by
  unfold GameEngine.Draw
  simp [hm, ht]

theorem GameEngine.Draw_eq_of_ALPHA (blend : Fin 256 → Fin 256 → Fin 256 → Fin 256)
    (e : GameEngine) (g : Graphic) (x y : Int) (col : Pixel)
    (hm : e.m_PixelMode = Pixel.Mode.ALPHA) (ht : e.m_DrawTarget = some g) :
    e.Draw blend x y col =
      some ((g.sprite.SetPixel x y
              { r := blend (g.sprite.GetPixel x y).r col.r col.a
                g := blend (g.sprite.GetPixel x y).g col.g col.a
                b := blend (g.sprite.GetPixel x y).b col.b col.a }).1,
            e.withTarget (g.sprite.SetPixel x y
              { r := blend (g.sprite.GetPixel x y).r col.r col.a
                g := blend (g.sprite.GetPixel x y).g col.g col.a
                b := blend (g.sprite.GetPixel x y).b col.b col.a }).2) := by
  unfold GameEngine.Draw
  simp [hm, ht]

theorem Sprite.SetPixel_fst (s : Sprite) (x y : Int) (col : Pixel) :
    (s.SetPixel x y col).1 = s.inBounds x y := by
  cases h : s.inBounds x y
  · rw [Sprite.SetPixel_out s x y col h]
  · rw [Sprite.SetPixel_in s x y col h]

theorem lerp_channel_zero (d c : Fin 256) : lerp_channel d c 0 = d := by
  apply Fin.ext
  unfold lerp_channel toU8
  simp only [Fin.val_zero, Nat.cast_zero, zero_mul, add_zero]
  omega

theorem lerp_channel_full (d c : Fin 256) : lerp_channel d c 255 = c := by
  apply Fin.ext
  unfold lerp_channel toU8
  have : ((255 : Fin 256).val : Int) = 255 := rfl
  simp only [this]
  omega

/-- The exact-arithmetic blend returns its end points at `a = 0` and
`a = 255`. -/
theorem lerp_channel_exactEndpoints : ExactEndpoints lerp_channel :=
  ⟨lerp_channel_zero, lerp_channel_full⟩
/-! ## The pixel buffer and the software compositor -/

/-- C1: in pixel mode DEFAULT, for a draw target holding `size.x * size.y`
pixels and an in-bounds `(x, y)` (so both dimensions are positive),
`Draw(x, y, col)` returns true, makes `GetPixel(x, y)` equal to `col`, leaves
`GetPixel` at every other position and every other buffer element unchanged,
and keeps the size and the buffer length.  On a 4x4 buffer cleared to BLACK,
`Draw(1, 1, RED)` yields RED at (1,1) and BLACK at the other 15 positions. -/
theorem GameEngine.Draw_default_frame :
    (∀ (blend : Fin 256 → Fin 256 → Fin 256 → Fin 256) (e : GameEngine) (g : Graphic) (x y : Int)
        (col : Pixel),
      e.m_PixelMode = Pixel.Mode.DEFAULT → e.m_DrawTarget = some g → g.sprite.Inv →
      g.sprite.inBounds x y = true →
      ∃ s : Sprite, e.Draw blend x y col = some (true, e.withTarget s) ∧
        s.size = g.sprite.size ∧ s.pixels.length = g.sprite.pixels.length ∧
        s.GetPixel x y = col ∧
        (∀ x1 y1 : Int, ¬ (x1 = x ∧ y1 = y) → s.GetPixel x1 y1 = g.sprite.GetPixel x1 y1) ∧
        (∀ j : Nat, (j : Int) ≠ y * g.sprite.size.x + x →
          s.pixels[j]? = g.sprite.pixels[j]?)) ∧
    (∃ (s : Sprite) (e1 e2 : GameEngine) (t : Graphic),
      Sprite.Create { x := 4, y := 4 } = some s ∧
      (GameEngine.onSprite s Pixel.Mode.DEFAULT).Clear BLACK = some e1 ∧
      e1.Draw lerp_channel 1 1 RED = some (true, e2) ∧
      e2.m_DrawTarget = some t ∧
      t.sprite.size = { x := 4, y := 4 } ∧
      t.sprite.pixels.length = 16 ∧
      ∀ i j : Fin 4, t.sprite.GetPixel (i.val : Int) (j.val : Int) =
        if i = 1 ∧ j = 1 then RED else BLACK) := by
  constructor
  · intro blend e g x y col hm ht hInv hin
    refine ⟨(g.sprite.SetPixel x y col).2, ?_, (Sprite.SetPixel_size _ x y col).1,
      (Sprite.SetPixel_size _ x y col).2, Sprite.GetPixel_SetPixel_same _ x y col hInv hin,
      fun x1 y1 hne => Sprite.GetPixel_SetPixel_other _ x y x1 y1 col hne, ?_⟩
    · rw [GameEngine.Draw_eq_of_DEFAULT blend e g x y col hm ht, Sprite.SetPixel_fst, hin]
    · intro j hj
      obtain ⟨_, hy0, hx, _⟩ := (g.sprite.inBounds_iff x y).1 hin
      have h0 : 0 ≤ y * g.sprite.size.x := mul_nonneg hy0 (by omega)
      have : (y * g.sprite.size.x + x).toNat ≠ j := by omega
      rw [Sprite.SetPixel_in _ x y col hin]
      simp [List.getElem?_set, this]
  · refine ⟨_, _, _, _, rfl, rfl, rfl, rfl, rfl, rfl, ?_⟩
    decide

theorem GameEngine.Draw_default_frame_witness :
    ∃ s : Sprite, (GameEngine.onSprite sprite2x2 Pixel.Mode.DEFAULT).Draw lerp_channel 1 0 WHITE
        = some (true, (GameEngine.onSprite sprite2x2 Pixel.Mode.DEFAULT).withTarget s) ∧
      s.size = sprite2x2.size ∧ s.pixels.length = sprite2x2.pixels.length ∧
      s.GetPixel 1 0 = WHITE ∧
      (∀ x1 y1 : Int, ¬ (x1 = 1 ∧ y1 = 0) → s.GetPixel x1 y1 = sprite2x2.GetPixel x1 y1) ∧
      (∀ j : Nat, (j : Int) ≠ 0 * sprite2x2.size.x + 1 →
        s.pixels[j]? = sprite2x2.pixels[j]?) :=
  GameEngine.Draw_default_frame.1 lerp_channel (GameEngine.onSprite sprite2x2 Pixel.Mode.DEFAULT)
    { sprite := sprite2x2 } 1 0 WHITE rfl rfl (by decide) (by decide)

/-- C2: for every sprite, `SetPixel(x, y, col)` at a position with `x < 0`,
`y < 0`, `x >= size.x` or `y >= size.y` returns false and leaves the sprite
as it was; at an in-bounds position it returns true, keeps the size and the
buffer length, leaves every element other than index `y * size.x + x`
unchanged and, the buffer holding `size.x * size.y` pixels, stores `col` at
that index. -/
theorem Sprite.SetPixel_bounds_checked (s : Sprite) (x y : Int) (col : Pixel) :
    ((x < 0 ∨ y < 0 ∨ x ≥ s.size.x ∨ y ≥ s.size.y) → s.SetPixel x y col = (false, s)) ∧
    ((0 ≤ x ∧ 0 ≤ y ∧ x < s.size.x ∧ y < s.size.y) →
      (s.SetPixel x y col).1 = true ∧
      (s.SetPixel x y col).2.size = s.size ∧
      (s.SetPixel x y col).2.pixels.length = s.pixels.length ∧
      (∀ j : Nat, (j : Int) ≠ y * s.size.x + x →
        (s.SetPixel x y col).2.pixels[j]? = s.pixels[j]?) ∧
      (s.Inv → (s.SetPixel x y col).2.pixels[(y * s.size.x + x).toNat]? = some col)) := by
  constructor
  · intro h
    apply Sprite.SetPixel_out
    cases hb : s.inBounds x y
    · rfl
    · have := (s.inBounds_iff x y).1 hb
      omega
  · intro h
    have hb : s.inBounds x y = true := (s.inBounds_iff x y).2 h
    refine ⟨?_, (Sprite.SetPixel_size s x y col).1, (Sprite.SetPixel_size s x y col).2, ?_, ?_⟩
    · rw [Sprite.SetPixel_in s x y col hb]
    · intro j hj
      rw [Sprite.SetPixel_in s x y col hb]
      have h0 : 0 ≤ y * s.size.x := mul_nonneg h.2.1 (by omega)
      have : (y * s.size.x + x).toNat ≠ j := by omega
      simp [List.getElem?_set, this]
    · intro hInv
      obtain ⟨_, hlt⟩ := s.index_lt_length x y hInv hb
      rw [Sprite.SetPixel_in s x y col hb]
      simp [List.getElem?_set, hlt]

theorem Sprite.SetPixel_bounds_checked_witness :
    sprite2x2.SetPixel 2 0 RED = (false, sprite2x2) ∧
    (sprite2x2.SetPixel 1 1 RED).1 = true ∧
    (sprite2x2.SetPixel 1 1 RED).2.pixels[3]? = some RED :=
  ⟨(Sprite.SetPixel_bounds_checked sprite2x2 2 0 RED).1 (by decide),
   ((Sprite.SetPixel_bounds_checked sprite2x2 1 1 RED).2 (by decide)).1,
   ((Sprite.SetPixel_bounds_checked sprite2x2 1 1 RED).2 (by decide)).2.2.2.2 (by unfold Sprite.Inv; decide)⟩

/-- C3: `Draw(x, y, col)` returns true exactly when a pixel of the draw target
was written.  With no draw target it returns false and changes nothing.  With
a draw target it returns a flag `b` and a new state where: in DEFAULT and
ALPHA mode `b` is true iff `(x, y)` is in bounds; in MASK mode `b` is true iff
`(x, y)` is in bounds and `col.a == 255`; when `b` is false the engine state is
unchanged; when `b` is true the new target is the old one with the element at
index `y * size.x + x` assigned the colour `c` of the mode, which is `col` in
DEFAULT and MASK mode and the blend of the old pixel with `col`, alpha 255, in
ALPHA mode, and for a target holding `size.x * size.y` pixels that element of
the vector is then `c`. -/
theorem GameEngine.Draw_returns_written (blend : Fin 256 → Fin 256 → Fin 256 → Fin 256)
    (e : GameEngine) (x y : Int) (col : Pixel) :
    (e.m_DrawTarget = none → e.Draw blend x y col = some (false, e)) ∧
    (∀ g : Graphic, e.m_DrawTarget = some g →
      (e.m_PixelMode = Pixel.Mode.DEFAULT ∨ e.m_PixelMode = Pixel.Mode.ALPHA ∨
        e.m_PixelMode = Pixel.Mode.MASK) →
      ∃ (b : Bool) (e1 : GameEngine), e.Draw blend x y col = some (b, e1) ∧
        (e.m_PixelMode = Pixel.Mode.DEFAULT → (b = true ↔ g.sprite.inBounds x y = true)) ∧
        (e.m_PixelMode = Pixel.Mode.ALPHA → (b = true ↔ g.sprite.inBounds x y = true)) ∧
        (e.m_PixelMode = Pixel.Mode.MASK →
          (b = true ↔ (g.sprite.inBounds x y = true ∧ col.a = 255))) ∧
        (b = false → e1 = e) ∧
        (b = true → ∃ c : Pixel,
          (e.m_PixelMode = Pixel.Mode.DEFAULT → c = col) ∧
          (e.m_PixelMode = Pixel.Mode.MASK → c = col) ∧
          (e.m_PixelMode = Pixel.Mode.ALPHA →
            c = { r := blend (g.sprite.GetPixel x y).r col.r col.a
                  g := blend (g.sprite.GetPixel x y).g col.g col.a
                  b := blend (g.sprite.GetPixel x y).b col.b col.a
                  a := 255 }) ∧
          e1 = e.withTarget (g.sprite.pixelsSet (y * g.sprite.size.x + x) c) ∧
          (g.sprite.Inv →
            (g.sprite.pixelsSet (y * g.sprite.size.x + x) c).pixels[
              (y * g.sprite.size.x + x).toNat]? = some c))) := by
  have written : ∀ (g : Graphic) (c : Pixel), e.m_DrawTarget = some g →
      ((g.sprite.SetPixel x y c).1 = false → e.withTarget (g.sprite.SetPixel x y c).2 = e) ∧
      ((g.sprite.SetPixel x y c).1 = true →
        e.withTarget (g.sprite.SetPixel x y c).2
          = e.withTarget (g.sprite.pixelsSet (y * g.sprite.size.x + x) c)) := by
    intro g c ht
    cases hb : g.sprite.inBounds x y
    · rw [Sprite.SetPixel_out _ x y c hb]
      exact ⟨fun _ => GameEngine.withTarget_self e g ht, fun h => by simp at h⟩
    · refine ⟨fun h => ?_, fun _ => ?_⟩
      · rw [Sprite.SetPixel_fst, hb] at h
        simp at h
      · unfold Sprite.SetPixel
        simp [hb]
  have stored : ∀ (g : Graphic) (c : Pixel), (g.sprite.SetPixel x y c).1 = true →
      g.sprite.Inv →
      (g.sprite.pixelsSet (y * g.sprite.size.x + x) c).pixels[
        (y * g.sprite.size.x + x).toNat]? = some c := by
    intro g c h hInv
    rw [Sprite.SetPixel_fst] at h
    obtain ⟨h0, hlt⟩ := g.sprite.index_lt_length x y hInv h
    unfold Sprite.pixelsSet
    simp [h0, List.getElem?_set, hlt]
  constructor
  · intro h
    unfold GameEngine.Draw
    simp [h]
  · intro g ht hmode
    rcases hmode with hm | hm | hm
    · refine ⟨_, _, GameEngine.Draw_eq_of_DEFAULT blend e g x y col hm ht, ?_, ?_, ?_,
        (written g col ht).1, fun h => ⟨col, fun _ => rfl, fun _ => rfl, ?_,
          (written g col ht).2 h, stored g col h⟩⟩
      · intro _
        rw [Sprite.SetPixel_fst]
      · intro h
        rw [hm] at h
        exact Pixel.Mode.noConfusion h
      · intro h
        rw [hm] at h
        exact Pixel.Mode.noConfusion h
      · intro h
        rw [hm] at h
        exact Pixel.Mode.noConfusion h
    · refine ⟨_, _, GameEngine.Draw_eq_of_ALPHA blend e g x y col hm ht, ?_, ?_, ?_,
        (written g _ ht).1, fun h => ⟨_, ?_, ?_, fun _ => rfl,
          (written g _ ht).2 h, stored g _ h⟩⟩
      · intro h
        rw [hm] at h
        exact Pixel.Mode.noConfusion h
      · intro _
        rw [Sprite.SetPixel_fst]
      · intro h
        rw [hm] at h
        exact Pixel.Mode.noConfusion h
      · intro h
        rw [hm] at h
        exact Pixel.Mode.noConfusion h
      · intro h
        rw [hm] at h
        exact Pixel.Mode.noConfusion h
    · by_cases ha : col.a = 255
      · refine ⟨(g.sprite.SetPixel x y col).1, e.withTarget (g.sprite.SetPixel x y col).2,
          ?_, ?_, ?_, ?_, (written g col ht).1, fun h => ⟨col, fun _ => rfl, fun _ => rfl, ?_,
            (written g col ht).2 h, stored g col h⟩⟩
        · rw [GameEngine.Draw_eq_of_MASK blend e g x y col hm ht, if_pos ha]
        · intro h
          rw [hm] at h
          exact Pixel.Mode.noConfusion h
        · intro h
          rw [hm] at h
          exact Pixel.Mode.noConfusion h
        · intro _
          rw [Sprite.SetPixel_fst]
          simp [ha]
        · intro h
          rw [hm] at h
          exact Pixel.Mode.noConfusion h
      · refine ⟨false, e, ?_, ?_, ?_, ?_, fun _ => rfl, fun h => by simp at h⟩
        · rw [GameEngine.Draw_eq_of_MASK blend e g x y col hm ht, if_neg ha]
        · intro h
          rw [hm] at h
          exact Pixel.Mode.noConfusion h
        · intro h
          rw [hm] at h
          exact Pixel.Mode.noConfusion h
        · intro _
          simp [ha]

theorem GameEngine.Draw_returns_written_witness :
    GameEngine.constructed.Draw lerp_channel 1 1 RED = some (false, GameEngine.constructed) ∧
    ∃ (b : Bool) (e1 : GameEngine),
      (GameEngine.onSprite sprite2x2 Pixel.Mode.MASK).Draw lerp_channel 1 1 RED
        = some (b, e1) ∧
      ((GameEngine.onSprite sprite2x2 Pixel.Mode.MASK).m_PixelMode = Pixel.Mode.DEFAULT →
        (b = true ↔ sprite2x2.inBounds 1 1 = true)) ∧
      ((GameEngine.onSprite sprite2x2 Pixel.Mode.MASK).m_PixelMode = Pixel.Mode.ALPHA →
        (b = true ↔ sprite2x2.inBounds 1 1 = true)) ∧
      ((GameEngine.onSprite sprite2x2 Pixel.Mode.MASK).m_PixelMode = Pixel.Mode.MASK →
        (b = true ↔ (sprite2x2.inBounds 1 1 = true ∧ RED.a = 255))) ∧
      (b = false → e1 = GameEngine.onSprite sprite2x2 Pixel.Mode.MASK) ∧
      (b = true → ∃ c : Pixel,
        ((GameEngine.onSprite sprite2x2 Pixel.Mode.MASK).m_PixelMode = Pixel.Mode.DEFAULT →
          c = RED) ∧
        ((GameEngine.onSprite sprite2x2 Pixel.Mode.MASK).m_PixelMode = Pixel.Mode.MASK →
          c = RED) ∧
        ((GameEngine.onSprite sprite2x2 Pixel.Mode.MASK).m_PixelMode = Pixel.Mode.ALPHA →
          c = { r := lerp_channel (sprite2x2.GetPixel 1 1).r RED.r RED.a
                g := lerp_channel (sprite2x2.GetPixel 1 1).g RED.g RED.a
                b := lerp_channel (sprite2x2.GetPixel 1 1).b RED.b RED.a
                a := 255 }) ∧
        e1 = (GameEngine.onSprite sprite2x2 Pixel.Mode.MASK).withTarget
          (sprite2x2.pixelsSet (1 * sprite2x2.size.x + 1) c) ∧
        (sprite2x2.Inv →
          (sprite2x2.pixelsSet (1 * sprite2x2.size.x + 1) c).pixels[
            ((1 : Int) * sprite2x2.size.x + 1).toNat]? = some c)) :=
  ⟨(GameEngine.Draw_returns_written lerp_channel GameEngine.constructed 1 1 RED).1 rfl,
   (GameEngine.Draw_returns_written lerp_channel
      (GameEngine.onSprite sprite2x2 Pixel.Mode.MASK) 1 1 RED).2
      { sprite := sprite2x2 } rfl (Or.inr (Or.inr rfl))⟩

/-- C4: in pixel mode MASK, for every target, position and colour: if
`col.a == 255` then `Draw` returns the flag and produces the draw target that
the same call produces in DEFAULT mode; if `col.a != 255` it returns false and
leaves the engine, and with it the target buffer, unchanged. -/
theorem GameEngine.Draw_mask (blend : Fin 256 → Fin 256 → Fin 256 → Fin 256)
    (e : GameEngine) (x y : Int) (col : Pixel) :
    (col.a = 255 →
      ({ e with m_PixelMode := Pixel.Mode.MASK } : GameEngine).Draw blend x y col =
        (({ e with m_PixelMode := Pixel.Mode.DEFAULT } : GameEngine).Draw blend x y col).map
          (fun r => (r.1, { r.2 with m_PixelMode := Pixel.Mode.MASK }))) ∧
    (col.a ≠ 255 →
      ({ e with m_PixelMode := Pixel.Mode.MASK } : GameEngine).Draw blend x y col =
        some (false, { e with m_PixelMode := Pixel.Mode.MASK })) := by
  constructor
  · intro ha
    unfold GameEngine.Draw
    cases ht : e.m_DrawTarget <;> simp [ht, ha, GameEngine.withTarget]
  · intro ha
    unfold GameEngine.Draw
    cases ht : e.m_DrawTarget <;> simp [ht, ha]

theorem GameEngine.Draw_mask_witness :
    (({ GameEngine.onSprite sprite2x2 Pixel.Mode.ALPHA with m_PixelMode := Pixel.Mode.MASK }
        : GameEngine).Draw lerp_channel 0 1 RED =
      (({ GameEngine.onSprite sprite2x2 Pixel.Mode.ALPHA with
            m_PixelMode := Pixel.Mode.DEFAULT } : GameEngine).Draw lerp_channel 0 1 RED).map
        (fun r => (r.1, { r.2 with m_PixelMode := Pixel.Mode.MASK }))) ∧
    ({ GameEngine.onSprite sprite2x2 Pixel.Mode.ALPHA with m_PixelMode := Pixel.Mode.MASK }
        : GameEngine).Draw lerp_channel 0 1 NONE
      = some (false, { GameEngine.onSprite sprite2x2 Pixel.Mode.ALPHA with
          m_PixelMode := Pixel.Mode.MASK }) :=
  ⟨(GameEngine.Draw_mask lerp_channel (GameEngine.onSprite sprite2x2 Pixel.Mode.ALPHA)
      0 1 RED).1 (by decide),
   (GameEngine.Draw_mask lerp_channel (GameEngine.onSprite sprite2x2 Pixel.Mode.ALPHA)
      0 1 NONE).2 (by decide)⟩

/-- C5, as stated, fails: on a 1x1 target holding the pixel (10,20,30,128),
drawing the source (1,2,3,0) in ALPHA mode at (0,0) stores (10,20,30,255),
which is not the destination pixel: the alpha 128 was replaced by 255.  The
source alpha is 0, where the blend returns the destination channel exactly. -/
theorem GameEngine.Draw_alpha_transparent_changes_dst :
    (sprite1x1.Inv ∧ sprite1x1.inBounds 0 0 = true ∧
      sprite1x1.GetPixel 0 0 = { r := 10, g := 20, b := 30, a := 128 }) ∧
    ((GameEngine.onSprite sprite1x1 Pixel.Mode.ALPHA).Draw lerp_channel 0 0
        { r := 1, g := 2, b := 3, a := 0 }).map
        (fun r => (r.1, r.2.m_DrawTarget.map (fun t => t.sprite.GetPixel 0 0)))
      = some (true, some { r := 10, g := 20, b := 30, a := 255 }) ∧
    ({ r := 10, g := 20, b := 30, a := 255 } : Pixel) ≠ sprite1x1.GetPixel 0 0 := by
  decide

/-- C5, amended: in pixel mode ALPHA, for a draw target holding
`size.x * size.y` pixels and an in-bounds position with destination pixel
`dst`, drawing a source with `src.a = 0` stores the r, g, b of dst with alpha
255 (so dst is unchanged exactly when its alpha is 255), drawing a source with
`src.a = 255` stores the r, g, b of src with alpha 255, and in both cases the
call returns true and no other position changes.  The channel blend is any
function with the exact end points of `std::lerp`. -/
theorem GameEngine.Draw_alpha_endpoints (blend : Fin 256 → Fin 256 → Fin 256 → Fin 256)
    (hb : ExactEndpoints blend) (e : GameEngine) (g : Graphic) (x y : Int)
    (col : Pixel) (hm : e.m_PixelMode = Pixel.Mode.ALPHA) (ht : e.m_DrawTarget = some g)
    (hInv : g.sprite.Inv) (hin : g.sprite.inBounds x y = true) :
    ∃ s : Sprite, e.Draw blend x y col = some (true, e.withTarget s) ∧
      (∀ x1 y1 : Int, ¬ (x1 = x ∧ y1 = y) → s.GetPixel x1 y1 = g.sprite.GetPixel x1 y1) ∧
      (col.a = 0 →
        s.GetPixel x y = { r := (g.sprite.GetPixel x y).r, g := (g.sprite.GetPixel x y).g,
                           b := (g.sprite.GetPixel x y).b, a := 255 } ∧
        (s.GetPixel x y = g.sprite.GetPixel x y ↔ (g.sprite.GetPixel x y).a = 255)) ∧
      (col.a = 255 → s.GetPixel x y = { r := col.r, g := col.g, b := col.b, a := 255 }) := by
  refine ⟨(g.sprite.SetPixel x y
      { r := blend (g.sprite.GetPixel x y).r col.r col.a
        g := blend (g.sprite.GetPixel x y).g col.g col.a
        b := blend (g.sprite.GetPixel x y).b col.b col.a }).2, ?_,
    fun x1 y1 hne => Sprite.GetPixel_SetPixel_other _ x y x1 y1 _ hne, ?_, ?_⟩
  · rw [GameEngine.Draw_eq_of_ALPHA blend e g x y col hm ht, Sprite.SetPixel_fst, hin]
  · intro ha
    rw [Sprite.GetPixel_SetPixel_same _ x y _ hInv hin, ha, hb.1, hb.1, hb.1]
    refine ⟨rfl, ?_⟩
    constructor
    · intro h
      rw [← h]
    · intro h
      cases hd : g.sprite.GetPixel x y with
      | mk r1 g1 b1 a1 =>
        rw [hd] at h
        simp only at h
        rw [h]
  · intro ha
    rw [Sprite.GetPixel_SetPixel_same _ x y _ hInv hin, ha, hb.2, hb.2, hb.2]

theorem GameEngine.Draw_alpha_endpoints_witness :
    ∃ s : Sprite, (GameEngine.onSprite sprite1x1 Pixel.Mode.ALPHA).Draw lerp_channel 0 0 RED
        = some (true, (GameEngine.onSprite sprite1x1 Pixel.Mode.ALPHA).withTarget s) ∧
      (∀ x1 y1 : Int, ¬ (x1 = 0 ∧ y1 = 0) → s.GetPixel x1 y1 = sprite1x1.GetPixel x1 y1) ∧
      (RED.a = 0 →
        s.GetPixel 0 0 = { r := (sprite1x1.GetPixel 0 0).r, g := (sprite1x1.GetPixel 0 0).g,
                           b := (sprite1x1.GetPixel 0 0).b, a := 255 } ∧
        (s.GetPixel 0 0 = sprite1x1.GetPixel 0 0 ↔ (sprite1x1.GetPixel 0 0).a = 255)) ∧
      (RED.a = 255 → s.GetPixel 0 0 = { r := RED.r, g := RED.g, b := RED.b, a := 255 }) :=
  GameEngine.Draw_alpha_endpoints lerp_channel ⟨lerp_channel_zero, lerp_channel_full⟩
    (GameEngine.onSprite sprite1x1 Pixel.Mode.ALPHA)
    { sprite := sprite1x1 } 0 0 RED rfl rfl (by decide) (by decide)

/-- C7: for every pixel `p` and integer-valued scalar `k`, each of the r, g, b
channels of `p + k`, `p - k`, `p += k` and `p -= k` is
`min(255, max(0, p.c ± k))`; the same saturation holds channel by channel for
`Pixel + Pixel` and `Pixel - Pixel`; and
`Pixel(250,250,250) + 50 == Pixel(255,255,255)`. -/
theorem Pixel.arithmetic_saturates (p q : Pixel) (k : Int) :
    (((p.operator_plus_float k).r.val : Int) = min 255 (max 0 ((p.r.val : Int) + k)) ∧
     ((p.operator_plus_float k).g.val : Int) = min 255 (max 0 ((p.g.val : Int) + k)) ∧
     ((p.operator_plus_float k).b.val : Int) = min 255 (max 0 ((p.b.val : Int) + k))) ∧
    (((p.operator_minus_float k).r.val : Int) = min 255 (max 0 ((p.r.val : Int) - k)) ∧
     ((p.operator_minus_float k).g.val : Int) = min 255 (max 0 ((p.g.val : Int) - k)) ∧
     ((p.operator_minus_float k).b.val : Int) = min 255 (max 0 ((p.b.val : Int) - k))) ∧
    (((p.operator_plus_eq_float k).r.val : Int) = min 255 (max 0 ((p.r.val : Int) + k)) ∧
     ((p.operator_plus_eq_float k).g.val : Int) = min 255 (max 0 ((p.g.val : Int) + k)) ∧
     ((p.operator_plus_eq_float k).b.val : Int) = min 255 (max 0 ((p.b.val : Int) + k))) ∧
    (((p.operator_minus_eq_float k).r.val : Int) = min 255 (max 0 ((p.r.val : Int) - k)) ∧
     ((p.operator_minus_eq_float k).g.val : Int) = min 255 (max 0 ((p.g.val : Int) - k)) ∧
     ((p.operator_minus_eq_float k).b.val : Int) = min 255 (max 0 ((p.b.val : Int) - k))) ∧
    (((p.operator_plus q).r.val : Int) = min 255 (max 0 ((p.r.val : Int) + (q.r.val : Int))) ∧
     ((p.operator_plus q).g.val : Int) = min 255 (max 0 ((p.g.val : Int) + (q.g.val : Int))) ∧
     ((p.operator_plus q).b.val : Int) = min 255 (max 0 ((p.b.val : Int) + (q.b.val : Int)))) ∧
    (((p.operator_minus q).r.val : Int) = min 255 (max 0 ((p.r.val : Int) - (q.r.val : Int))) ∧
     ((p.operator_minus q).g.val : Int) = min 255 (max 0 ((p.g.val : Int) - (q.g.val : Int))) ∧
     ((p.operator_minus q).b.val : Int) = min 255 (max 0 ((p.b.val : Int) - (q.b.val : Int)))) ∧
    (Pixel.operator_plus_float { r := 250, g := 250, b := 250 } 50
        = { r := 255, g := 255, b := 255 } ∧
     (Pixel.operator_plus_float { r := 250, g := 250, b := 250 } 50).operator_eq
        { r := 255, g := 255, b := 255 } = true) := by
  refine ⟨⟨?_, ?_, ?_⟩, ⟨?_, ?_, ?_⟩, ⟨?_, ?_, ?_⟩, ⟨?_, ?_, ?_⟩, ⟨?_, ?_, ?_⟩,
    ⟨?_, ?_, ?_⟩, ⟨by decide, by decide⟩⟩ <;>
  exact toU8_clamp_val _

/-- C8: `p == q` holds iff the r, g and b channels agree, whatever the two
alpha channels are, and `p != q` is the negation of `p == q`. -/
theorem Pixel.operator_eq_compares_rgb (p q : Pixel) :
    (p.operator_eq q = true ↔ (p.r = q.r ∧ p.g = q.g ∧ p.b = q.b)) ∧
    (∀ a1 a2 : Fin 256,
      ({ p with a := a1 } : Pixel).operator_eq { q with a := a2 } = p.operator_eq q) ∧
    p.operator_ne q = !(p.operator_eq q) := by
  refine ⟨?_, ?_, ?_⟩
  · unfold Pixel.operator_eq
    simp only [Bool.and_eq_true, beq_iff_eq]
    tauto
  · intro a1 a2
    rfl
  · unfold Pixel.operator_eq Pixel.operator_ne
    simp only [bne, Bool.not_and]

/-- C11 fails on the code: `GetPixel(x, y, REPEAT)` addresses column
`abs(x) % size.x` and row `abs(y) % size.y`, so a negative coordinate is
reflected through 0 instead of wrapped around: on a 10x10 buffer with 100
distinct pixels `GetPixel(-1, -1, REPEAT)` reads index 11, the pixel at (1,1),
and not index 99, the pixel at (9,9). -/
theorem Sprite.GetPixel_repeat_negative :
    (∀ (s : Sprite) (x y : Int),
      Sprite.GetPixel.index s x y Sprite.WrapMethod.REPEAT =
        some (Int.tmod (y.natAbs : Int) s.size.y * s.size.x + Int.tmod (x.natAbs : Int) s.size.x)) ∧
    sprite10x10.Inv ∧
    Sprite.GetPixel.index sprite10x10 (-1) (-1) Sprite.WrapMethod.REPEAT = some 11 ∧
    sprite10x10.GetPixel (-1) (-1) Sprite.WrapMethod.REPEAT = sprite10x10.GetPixel 1 1 ∧
    sprite10x10.GetPixel (-1) (-1) Sprite.WrapMethod.REPEAT ≠ sprite10x10.GetPixel 9 9 ∧
    (sprite10x10.GetPixel (-1) (-1) Sprite.WrapMethod.REPEAT).operator_eq
      (sprite10x10.GetPixel 9 9) = false := by
  refine ⟨fun s x y => rfl, by decide, by decide, by decide, by decide, by decide⟩

/-- C12, as stated, fails: on a 2x2 sprite the out-of-range `GetPixel(2, 0)`
with wrap method NONE returns `BLACK`, whose alpha is 255, not the pixel
(0,0,0,0). -/
theorem Sprite.GetPixel_none_returns_opaque_black :
    sprite2x2.inBounds 2 0 = false ∧
    sprite2x2.GetPixel 2 0 Sprite.WrapMethod.NONE = { r := 0, g := 0, b := 0, a := 255 } ∧
    sprite2x2.GetPixel 2 0 Sprite.WrapMethod.NONE ≠ { r := 0, g := 0, b := 0, a := 0 } := by
  decide

/-- C12, amended: for every sprite and every out-of-range `(x, y)`,
`GetPixel(x, y)` with wrap method NONE returns the opaque black pixel
`(r,g,b,a) = (0,0,0,255)` (the constant `BLACK`) and reads no buffer
element. -/
theorem Sprite.GetPixel_out_of_range (s : Sprite) (x y : Int)
    (h : x < 0 ∨ y < 0 ∨ x ≥ s.size.x ∨ y ≥ s.size.y) :
    s.GetPixel x y Sprite.WrapMethod.NONE = { r := 0, g := 0, b := 0, a := 255 } ∧
    s.GetPixel x y Sprite.WrapMethod.NONE = BLACK ∧
    Sprite.GetPixel.index s x y Sprite.WrapMethod.NONE = none := by
  have hb : s.inBounds x y = false := by
    cases hb : s.inBounds x y
    · rfl
    · have := (s.inBounds_iff x y).1 hb
      omega
  have hi : Sprite.GetPixel.index s x y Sprite.WrapMethod.NONE = none := by
    simp [Sprite.GetPixel.index, hb]
  refine ⟨?_, ?_, hi⟩
  · simp [Sprite.GetPixel, hi, BLACK]
  · simp [Sprite.GetPixel, hi]

theorem Sprite.GetPixel_out_of_range_witness :
    sprite2x2.GetPixel (-1) 1 Sprite.WrapMethod.NONE = { r := 0, g := 0, b := 0, a := 255 } ∧
    sprite2x2.GetPixel (-1) 1 Sprite.WrapMethod.NONE = BLACK ∧
    Sprite.GetPixel.index sprite2x2 (-1) 1 Sprite.WrapMethod.NONE = none :=
  Sprite.GetPixel_out_of_range sprite2x2 (-1) 1 (Or.inl (by decide))

/-- One write seen through `GetPixel`: the written position reads `col` when
it is in bounds, every other read is unchanged. -/
theorem Sprite.GetPixel_SetPixel_eq (s : Sprite) (x y px py : Int) (col : Pixel) (hInv : s.Inv) :
    (s.SetPixel x y col).2.GetPixel px py =
      if (px, py) = (x, y) ∧ s.inBounds px py = true then col else s.GetPixel px py := by
  by_cases he : px = x ∧ py = y
  · obtain ⟨e1, e2⟩ := he
    subst e1 e2
    cases hb : s.inBounds px py
    · rw [Sprite.SetPixel_out s px py col hb]
      simp
    · rw [Sprite.GetPixel_SetPixel_same s px py col hInv hb]
      simp
  · rw [Sprite.GetPixel_SetPixel_other s x y px py col he]
    have : ¬ ((px, py) = (x, y)) := by
      intro h
      exact he ⟨congrArg Prod.fst h, congrArg Prod.snd h⟩
    simp [this]

/-! ## Rasterizers -/

namespace GameEngine

/-- The minor-axis step of `DrawLine`: `+1` when `dx` and `dy` have the same
strict sign, `-1` otherwise. -/
theorem DrawLine.step_cases (dx dy : Int) :
    (if (dx < 0 ∧ dy < 0) ∨ (dx > 0 ∧ dy > 0) then (1 : Int) else -1) = 1 ∨
    (if (dx < 0 ∧ dy < 0) ∨ (dx > 0 ∧ dy > 0) then (1 : Int) else -1) = -1 := by
  split_ifs
  · exact Or.inl rfl
  · exact Or.inr rfl

/-- The x-driven loop of `DrawLine`: started `n` columns before `xe` with the
decision variable in `[2 dy1 - 2 dx1, 2 dy1)`, it plots `n` positions, each
adjacent to the one before, ends in column `xe` after some `j` minor steps,
and leaves the decision variable in the same interval. -/
theorem DrawLine.loopX_spec (dx dy dx1 dy1 xe : Int) (h1 : 0 ≤ dy1) (h2 : dy1 ≤ dx1) :
    ∀ (n : Nat) (x y px : Int), xe - x = (n : Int) →
      2 * dy1 - 2 * dx1 ≤ px → px < 2 * dy1 →
      (DrawLine.loopX dx dy dx1 dy1 xe n x y px).length = n ∧
      List.Chain Adjacent8 (x, y) (DrawLine.loopX dx dy dx1 dy1 xe n x y px) ∧
      ∃ j : Int,
        ((x, y) :: DrawLine.loopX dx dy dx1 dy1 xe n x y px).getLast? =
          some (xe, y + (if (dx < 0 ∧ dy < 0) ∨ (dx > 0 ∧ dy > 0) then 1 else -1) * j) ∧
        2 * dy1 - 2 * dx1 ≤ px + 2 * (n : Int) * dy1 - 2 * j * dx1 ∧
        px + 2 * (n : Int) * dy1 - 2 * j * dx1 < 2 * dy1 := by
  intro n
  induction n with
  | zero =>
    intro x y px hx hlo hhi
    refine ⟨rfl, List.Chain.nil, 0, ?_, ?_, ?_⟩
    · have : xe = x := by omega
      simp [DrawLine.loopX, this]
    · simpa using hlo
    · simpa using hhi
  | succ n ih =>
    intro x y px hx hlo hhi
    have hlt : x < xe := by omega
    by_cases hp : px < 0
    · obtain ⟨hl, hc, j, hj, hjlo, hjhi⟩ :=
        ih (x + 1) y (px + 2 * dy1) (by omega) (by omega) (by omega)
      have hdef : DrawLine.loopX dx dy dx1 dy1 xe (n + 1) x y px =
          (x + 1, y) :: DrawLine.loopX dx dy dx1 dy1 xe n (x + 1) y (px + 2 * dy1) := by
        simp [DrawLine.loopX, hlt, hp]
      have he : px + 2 * ((n + 1 : Nat) : Int) * dy1 - 2 * j * dx1 =
          px + 2 * dy1 + 2 * (n : Int) * dy1 - 2 * j * dx1 := by
        push_cast
        ring
      rw [hdef]
      refine ⟨by simp [hl], List.Chain.cons ?_ hc, j, ?_, ?_, ?_⟩
      · constructor <;> simp
      · rw [List.getLast?_cons_cons]
        exact hj
      · rw [he]
        exact hjlo
      · rw [he]
        exact hjhi
    · obtain ⟨hl, hc, j, hj, hjlo, hjhi⟩ :=
        ih (x + 1) (y + (if (dx < 0 ∧ dy < 0) ∨ (dx > 0 ∧ dy > 0) then 1 else -1))
          (px + 2 * (dy1 - dx1)) (by omega) (by omega) (by omega)
      have hdef : DrawLine.loopX dx dy dx1 dy1 xe (n + 1) x y px =
          (x + 1, y + (if (dx < 0 ∧ dy < 0) ∨ (dx > 0 ∧ dy > 0) then 1 else -1)) ::
            DrawLine.loopX dx dy dx1 dy1 xe n (x + 1)
              (y + (if (dx < 0 ∧ dy < 0) ∨ (dx > 0 ∧ dy > 0) then 1 else -1))
              (px + 2 * (dy1 - dx1)) := by
        simp [DrawLine.loopX, hlt, hp]
      have he : px + 2 * ((n + 1 : Nat) : Int) * dy1 - 2 * (j + 1) * dx1 =
          px + 2 * (dy1 - dx1) + 2 * (n : Int) * dy1 - 2 * j * dx1 := by
        push_cast
        ring
      rw [hdef]
      refine ⟨by simp [hl], List.Chain.cons ?_ hc, j + 1, ?_, ?_, ?_⟩
      · constructor
        · simp
        · rcases DrawLine.step_cases dx dy with h | h <;> simp [h]
      · rw [List.getLast?_cons_cons, hj]
        congr 2
        ring
      · rw [he]
        exact hjlo
      · rw [he]
        exact hjhi

/-- The y-driven loop of `DrawLine`: started `n` rows before `ye` with the
decision variable in `(2 dx1 - 2 dy1, 2 dx1]`, it plots `n` positions, each
adjacent to the one before, ends in row `ye` after some `j` minor steps, and
leaves the decision variable in the same interval. -/
theorem DrawLine.loopY_spec (dx dy dx1 dy1 ye : Int) (h1 : 0 ≤ dx1) (h2 : dx1 < dy1) :
    ∀ (n : Nat) (x y py : Int), ye - y = (n : Int) →
      2 * dx1 - 2 * dy1 < py → py ≤ 2 * dx1 →
      (DrawLine.loopY dx dy dx1 dy1 ye n x y py).length = n ∧
      List.Chain Adjacent8 (x, y) (DrawLine.loopY dx dy dx1 dy1 ye n x y py) ∧
      ∃ j : Int,
        ((x, y) :: DrawLine.loopY dx dy dx1 dy1 ye n x y py).getLast? =
          some (x + (if (dx < 0 ∧ dy < 0) ∨ (dx > 0 ∧ dy > 0) then 1 else -1) * j, ye) ∧
        2 * dx1 - 2 * dy1 < py + 2 * (n : Int) * dx1 - 2 * j * dy1 ∧
        py + 2 * (n : Int) * dx1 - 2 * j * dy1 ≤ 2 * dx1 := by
  intro n
  induction n with
  | zero =>
    intro x y py hy hlo hhi
    refine ⟨rfl, List.Chain.nil, 0, ?_, ?_, ?_⟩
    · have : ye = y := by omega
      simp [DrawLine.loopY, this]
    · simpa using hlo
    · simpa using hhi
  | succ n ih =>
    intro x y py hy hlo hhi
    have hlt : y < ye := by omega
    by_cases hp : py ≤ 0
    · obtain ⟨hl, hc, j, hj, hjlo, hjhi⟩ :=
        ih x (y + 1) (py + 2 * dx1) (by omega) (by omega) (by omega)
      have hdef : DrawLine.loopY dx dy dx1 dy1 ye (n + 1) x y py =
          (x, y + 1) :: DrawLine.loopY dx dy dx1 dy1 ye n x (y + 1) (py + 2 * dx1) := by
        simp [DrawLine.loopY, hlt, hp]
      have he : py + 2 * ((n + 1 : Nat) : Int) * dx1 - 2 * j * dy1 =
          py + 2 * dx1 + 2 * (n : Int) * dx1 - 2 * j * dy1 := by
        push_cast
        ring
      rw [hdef]
      refine ⟨by simp [hl], List.Chain.cons ?_ hc, j, ?_, ?_, ?_⟩
      · constructor <;> simp
      · rw [List.getLast?_cons_cons]
        exact hj
      · rw [he]
        exact hjlo
      · rw [he]
        exact hjhi
    · obtain ⟨hl, hc, j, hj, hjlo, hjhi⟩ :=
        ih (x + (if (dx < 0 ∧ dy < 0) ∨ (dx > 0 ∧ dy > 0) then 1 else -1)) (y + 1)
          (py + 2 * (dx1 - dy1)) (by omega) (by omega) (by omega)
      have hdef : DrawLine.loopY dx dy dx1 dy1 ye (n + 1) x y py =
          (x + (if (dx < 0 ∧ dy < 0) ∨ (dx > 0 ∧ dy > 0) then 1 else -1), y + 1) ::
            DrawLine.loopY dx dy dx1 dy1 ye n
              (x + (if (dx < 0 ∧ dy < 0) ∨ (dx > 0 ∧ dy > 0) then 1 else -1)) (y + 1)
              (py + 2 * (dx1 - dy1)) := by
        simp [DrawLine.loopY, hlt, hp]
      have he : py + 2 * ((n + 1 : Nat) : Int) * dx1 - 2 * (j + 1) * dy1 =
          py + 2 * (dx1 - dy1) + 2 * (n : Int) * dx1 - 2 * j * dy1 := by
        push_cast
        ring
      rw [hdef]
      refine ⟨by simp [hl], List.Chain.cons ?_ hc, j + 1, ?_, ?_, ?_⟩
      · constructor
        · rcases DrawLine.step_cases dx dy with h | h <;> simp [h]
        · simp
      · rw [List.getLast?_cons_cons, hj]
        congr 2
        ring
      · rw [he]
        exact hjlo
      · rw [he]
        exact hjhi

/-- The number of minor steps of a complete run: the closing decision variable
pins it to the minor extent. -/
theorem DrawLine.minor_steps_eq (a b j : Int) (ha : 0 < a)
    (hlo : -a ≤ a * (2 * (b - j))) (hhi : a * (2 * (b - j)) < a) : j = b := by
  have h1 : 2 * (b - j) < 1 := by
    by_contra hc
    have : a * 1 ≤ a * (2 * (b - j)) := Int.mul_le_mul_of_nonneg_left (by omega) (by omega)
    omega
  have h2 : -1 ≤ 2 * (b - j) := by
    by_contra hc
    have : a * (2 * (b - j)) ≤ a * (-2) := Int.mul_le_mul_of_nonneg_left (by omega) (by omega)
    omega
  omega

/-- The same for the y-driven loop, whose interval is closed at the other
end. -/
theorem DrawLine.minor_steps_eq_y (a b j : Int) (ha : 0 < a)
    (hlo : -a < a * (2 * (b - j))) (hhi : a * (2 * (b - j)) ≤ a) : j = b := by
  have h1 : 2 * (b - j) < 2 := by
    by_contra hc
    have : a * 2 ≤ a * (2 * (b - j)) := Int.mul_le_mul_of_nonneg_left (by omega) (by omega)
    omega
  have h2 : -2 < 2 * (b - j) := by
    by_contra hc
    have : a * (2 * (b - j)) ≤ a * (-2) := Int.mul_le_mul_of_nonneg_left (by omega) (by omega)
    omega
  omega

/-- Negating both differences does not change the x-driven loop. -/
theorem DrawLine.loopX_neg (dx dy dx2 dy2 dx1 dy1 xe : Int) (hx : dx2 = -dx) (hy : dy2 = -dy) :
    ∀ (n : Nat) (x y px : Int),
      DrawLine.loopX dx2 dy2 dx1 dy1 xe n x y px = DrawLine.loopX dx dy dx1 dy1 xe n x y px := by
  have hs : (if (dx2 < 0 ∧ dy2 < 0) ∨ (dx2 > 0 ∧ dy2 > 0) then (1 : Int) else -1) =
      (if (dx < 0 ∧ dy < 0) ∨ (dx > 0 ∧ dy > 0) then (1 : Int) else -1) := by
    subst hx hy
    split_ifs <;> omega
  intro n
  induction n with
  | zero => intro x y px; rfl
  | succ n ih =>
    intro x y px
    simp only [DrawLine.loopX, hs, ih]

/-- Negating both differences does not change the y-driven loop. -/
theorem DrawLine.loopY_neg (dx dy dx2 dy2 dx1 dy1 ye : Int) (hx : dx2 = -dx) (hy : dy2 = -dy) :
    ∀ (n : Nat) (x y py : Int),
      DrawLine.loopY dx2 dy2 dx1 dy1 ye n x y py = DrawLine.loopY dx dy dx1 dy1 ye n x y py := by
  have hs : (if (dx2 < 0 ∧ dy2 < 0) ∨ (dx2 > 0 ∧ dy2 > 0) then (1 : Int) else -1) =
      (if (dx < 0 ∧ dy < 0) ∨ (dx > 0 ∧ dy > 0) then (1 : Int) else -1) := by
    subst hx hy
    split_ifs <;> omega
  intro n
  induction n with
  | zero => intro x y py; rfl
  | succ n ih =>
    intro x y py
    simp only [DrawLine.loopY, hs, ih]

/-- The x-driven loop of `DrawLine` stops on its own test: iterations beyond
`xe - x` are never run. -/
theorem DrawLine.loopX_fuel (dx dy dx1 dy1 xe : Int) :
    ∀ (n m : Nat) (x y px : Int), xe - x ≤ (n : Int) → n ≤ m →
      DrawLine.loopX dx dy dx1 dy1 xe m x y px = DrawLine.loopX dx dy dx1 dy1 xe n x y px := by
  intro n
  induction n with
  | zero =>
    intro m x y px hx _
    have hlt : ¬ x < xe := by omega
    cases m with
    | zero => rfl
    | succ m => simp [DrawLine.loopX, hlt]
  | succ n ih =>
    intro m x y px hx hm
    obtain ⟨k, rfl⟩ : ∃ k, m = k + 1 := ⟨m - 1, by omega⟩
    simp only [DrawLine.loopX]
    rw [ih k (x + 1) y _ (by omega) (by omega), ih k (x + 1) _ _ (by omega) (by omega)]

/-- The y-driven loop of `DrawLine` stops on its own test. -/
theorem DrawLine.loopY_fuel (dx dy dx1 dy1 ye : Int) :
    ∀ (n m : Nat) (x y py : Int), ye - y ≤ (n : Int) → n ≤ m →
      DrawLine.loopY dx dy dx1 dy1 ye m x y py = DrawLine.loopY dx dy dx1 dy1 ye n x y py := by
  intro n
  induction n with
  | zero =>
    intro m x y py hy _
    have hlt : ¬ y < ye := by omega
    cases m with
    | zero => rfl
    | succ m => simp [DrawLine.loopY, hlt]
  | succ n ih =>
    intro m x y py hy hm
    obtain ⟨k, rfl⟩ : ∃ k, m = k + 1 := ⟨m - 1, by omega⟩
    simp only [DrawLine.loopY]
    rw [ih k x (y + 1) _ (by omega) (by omega), ih k _ (y + 1) _ (by omega) (by omega)]

/-- The loop of `DrawCircle` stops on its own test: iterations beyond
`y1 - x1 + 1` are never run. -/
theorem DrawCircle.drawLoop_fuel (x y : Int) :
    ∀ (n m : Nat) (x1 y1 p1 : Int), y1 - x1 < (n : Int) → n ≤ m →
      DrawCircle.loop x y m x1 y1 p1 = DrawCircle.loop x y n x1 y1 p1 := by
  intro n
  induction n with
  | zero =>
    intro m x1 y1 p1 hx _
    have hlt : ¬ y1 ≥ x1 := by omega
    cases m with
    | zero => rfl
    | succ m => simp [DrawCircle.loop, hlt]
  | succ n ih =>
    intro m x1 y1 p1 hx hm
    obtain ⟨k, rfl⟩ : ∃ k, m = k + 1 := ⟨m - 1, by omega⟩
    simp only [DrawCircle.loop]
    rw [ih k (x1 + 1) y1 _ (by omega) (by omega), ih k (x1 + 1) (y1 - 1) _ (by omega) (by omega)]

/-- The loop of `FillCircle` stops on its own test. -/
theorem FillCircle.fillLoop_fuel (x y : Int) :
    ∀ (n m : Nat) (x1 y1 p1 : Int), y1 - x1 < (n : Int) → n ≤ m →
      FillCircle.loop x y m x1 y1 p1 = FillCircle.loop x y n x1 y1 p1 := by
  intro n
  induction n with
  | zero =>
    intro m x1 y1 p1 hx _
    have hlt : ¬ y1 ≥ x1 := by omega
    cases m with
    | zero => rfl
    | succ m => simp [FillCircle.loop, hlt]
  | succ n ih =>
    intro m x1 y1 p1 hx hm
    obtain ⟨k, rfl⟩ : ∃ k, m = k + 1 := ⟨m - 1, by omega⟩
    simp only [FillCircle.loop]
    rw [ih k (x1 + 1) y1 _ (by omega) (by omega), ih k (x1 + 1) (y1 - 1) _ (by omega) (by omega)]

/-- C13: for all integer endpoints, the sequence of positions `DrawLine` passes
to `Draw` has exactly `max(|x2-x1|, |y2-y1|) + 1` elements, has `(x1,y1)` and
`(x2,y2)` as its first and last elements in one order or the other, and every
two consecutive positions differ by at most 1 in x and at most 1 in y. -/
theorem DrawLine_connected_path (x1 y1 x2 y2 : Int) :
    (DrawLine.plots x1 y1 x2 y2).length = max (x2 - x1).natAbs (y2 - y1).natAbs + 1 ∧
    (((DrawLine.plots x1 y1 x2 y2).head? = some (x1, y1) ∧
        (DrawLine.plots x1 y1 x2 y2).getLast? = some (x2, y2)) ∨
      ((DrawLine.plots x1 y1 x2 y2).head? = some (x2, y2) ∧
        (DrawLine.plots x1 y1 x2 y2).getLast? = some (x1, y1))) ∧
    List.Chain' Adjacent8 (DrawLine.plots x1 y1 x2 y2) := by
  unfold DrawLine.plots
  by_cases hc : ((y2 - y1).natAbs : Int) ≤ ((x2 - x1).natAbs : Int)
  · simp only [hc, if_true]
    by_cases h0 : x2 - x1 = 0
    · have e1 : x2 = x1 := by omega
      have e2 : y2 = y1 := by omega
      subst e1 e2
      simp [DrawLine.loopX, List.Chain']
    · by_cases hd : x2 - x1 ≥ 0
      · simp only [hd, if_true]
        obtain ⟨hl, hch, j, hj, hjlo, hjhi⟩ :=
          DrawLine.loopX_spec (x2 - x1) (y2 - y1) ((x2 - x1).natAbs : Int)
            ((y2 - y1).natAbs : Int) x2 (by omega) hc (x2 - x1).toNat x1 y1
            (2 * ((y2 - y1).natAbs : Int) - ((x2 - x1).natAbs : Int))
            (by omega) (by omega) (by omega)
        have hn : (((x2 - x1).toNat : Nat) : Int) = ((x2 - x1).natAbs : Int) := by omega
        rw [hn] at hjlo hjhi
        have hjv : j = ((y2 - y1).natAbs : Int) :=
          DrawLine.minor_steps_eq ((x2 - x1).natAbs : Int) _ j (by omega)
            (by linarith) (by linarith)
        refine ⟨?_, Or.inl ⟨rfl, ?_⟩, hch⟩
        · simp only [List.length_cons, hl]
          omega
        · rw [hj, hjv]
          congr 2
          split_ifs <;> omega
      · simp only [hd, if_false]
        obtain ⟨hl, hch, j, hj, hjlo, hjhi⟩ :=
          DrawLine.loopX_spec (x2 - x1) (y2 - y1) ((x2 - x1).natAbs : Int)
            ((y2 - y1).natAbs : Int) x1 (by omega) hc (x1 - x2).toNat x2 y2
            (2 * ((y2 - y1).natAbs : Int) - ((x2 - x1).natAbs : Int))
            (by omega) (by omega) (by omega)
        have hn : (((x1 - x2).toNat : Nat) : Int) = ((x2 - x1).natAbs : Int) := by omega
        rw [hn] at hjlo hjhi
        have hjv : j = ((y2 - y1).natAbs : Int) :=
          DrawLine.minor_steps_eq ((x2 - x1).natAbs : Int) _ j (by omega)
            (by linarith) (by linarith)
        refine ⟨?_, Or.inr ⟨rfl, ?_⟩, hch⟩
        · simp only [List.length_cons, hl]
          omega
        · rw [hj, hjv]
          congr 2
          split_ifs <;> omega
  · simp only [hc, if_false]
    have hc2 : ((x2 - x1).natAbs : Int) < ((y2 - y1).natAbs : Int) := by omega
    by_cases hd : y2 - y1 ≥ 0
    · simp only [hd, if_true]
      obtain ⟨hl, hch, j, hj, hjlo, hjhi⟩ :=
        DrawLine.loopY_spec (x2 - x1) (y2 - y1) ((x2 - x1).natAbs : Int)
          ((y2 - y1).natAbs : Int) y2 (by omega) hc2 (y2 - y1).toNat x1 y1
          (2 * ((x2 - x1).natAbs : Int) - ((y2 - y1).natAbs : Int))
          (by omega) (by omega) (by omega)
      have hn : (((y2 - y1).toNat : Nat) : Int) = ((y2 - y1).natAbs : Int) := by omega
      rw [hn] at hjlo hjhi
      have hjv : j = ((x2 - x1).natAbs : Int) :=
        DrawLine.minor_steps_eq_y ((y2 - y1).natAbs : Int) _ j (by omega)
          (by linarith) (by linarith)
      refine ⟨?_, Or.inl ⟨rfl, ?_⟩, hch⟩
      · simp only [List.length_cons, hl]
        omega
      · rw [hj, hjv]
        congr 2
        split_ifs <;> omega
    · simp only [hd, if_false]
      obtain ⟨hl, hch, j, hj, hjlo, hjhi⟩ :=
        DrawLine.loopY_spec (x2 - x1) (y2 - y1) ((x2 - x1).natAbs : Int)
          ((y2 - y1).natAbs : Int) y1 (by omega) hc2 (y1 - y2).toNat x2 y2
          (2 * ((x2 - x1).natAbs : Int) - ((y2 - y1).natAbs : Int))
          (by omega) (by omega) (by omega)
      have hn : (((y1 - y2).toNat : Nat) : Int) = ((y2 - y1).natAbs : Int) := by omega
      rw [hn] at hjlo hjhi
      have hjv : j = ((x2 - x1).natAbs : Int) :=
        DrawLine.minor_steps_eq_y ((y2 - y1).natAbs : Int) _ j (by omega)
          (by linarith) (by linarith)
      refine ⟨?_, Or.inr ⟨rfl, ?_⟩, hch⟩
      · simp only [List.length_cons, hl]
        omega
      · rw [hj, hjv]
        congr 2
        split_ifs <;> omega

/-- C14: for all integer points a and b, `DrawLine(a, b)` and `DrawLine(b, a)`
pass the identical sequence of positions to `Draw`, hence plot the identical
set, whatever the octant and for horizontal, vertical and diagonal lines. -/
theorem DrawLine_symmetric (x1 y1 x2 y2 : Int) :
    DrawLine.plots x1 y1 x2 y2 = DrawLine.plots x2 y2 x1 y1 ∧
    ∀ p : Int × Int, p ∈ DrawLine.plots x1 y1 x2 y2 ↔ p ∈ DrawLine.plots x2 y2 x1 y1 := by
  have key : DrawLine.plots x1 y1 x2 y2 = DrawLine.plots x2 y2 x1 y1 := by
    have ha : ((x1 - x2).natAbs : Int) = ((x2 - x1).natAbs : Int) := by omega
    have hb : ((y1 - y2).natAbs : Int) = ((y2 - y1).natAbs : Int) := by omega
    unfold DrawLine.plots
    simp only [ha, hb]
    rw [DrawLine.loopX_neg (x2 - x1) (y2 - y1) (x1 - x2) (y1 - y2) _ _ _ (by ring) (by ring),
      DrawLine.loopY_neg (x2 - x1) (y2 - y1) (x1 - x2) (y1 - y2) _ _ _ (by ring) (by ring)]
    by_cases hc : ((y2 - y1).natAbs : Int) ≤ ((x2 - x1).natAbs : Int)
    · simp only [hc, if_true]
      rcases lt_trichotomy (x2 - x1) 0 with h | h | h
      · have h1 : ¬ (x2 - x1 ≥ 0) := by omega
        have h2 : x1 - x2 ≥ 0 := by omega
        simp only [h1, h2, if_true, if_false]
      · have e1 : x2 = x1 := by omega
        have e2 : y2 = y1 := by omega
        subst e1 e2
        rfl
      · have h1 : x2 - x1 ≥ 0 := by omega
        have h2 : ¬ (x1 - x2 ≥ 0) := by omega
        simp only [h1, h2, if_true, if_false]
    · simp only [hc, if_false]
      rcases lt_trichotomy (y2 - y1) 0 with h | h | h
      · have h1 : ¬ (y2 - y1 ≥ 0) := by omega
        have h2 : y1 - y2 ≥ 0 := by omega
        simp only [h1, h2, if_true, if_false]
      · omega
      · have h1 : y2 - y1 ≥ 0 := by omega
        have h2 : ¬ (y1 - y2 ≥ 0) := by omega
        simp only [h1, h2, if_true, if_false]
  exact ⟨key, fun p => by rw [key]⟩

theorem FillCircle.mem_draw_line (start stop yy a b : Int) :
    (a, b) ∈ FillCircle.draw_line start stop yy ↔ (b = yy ∧ start ≤ a ∧ a ≤ stop) := by
  unfold FillCircle.draw_line
  simp only [List.mem_map, List.mem_range, Prod.mk.injEq]
  constructor
  · rintro ⟨k, hk, h1, h2⟩
    omega
  · rintro ⟨h1, h2, h3⟩
    exact ⟨(a - start).toNat, by omega, by omega, h1.symm⟩

theorem FillCircle.mem_spans (x y u v a b : Int) :
    (a, b) ∈ FillCircle.spans x y u v ↔
      (((a - x).natAbs : Int) ≤ u ∧ (b = y - v ∨ b = y + v)) ∨
      (((a - x).natAbs : Int) ≤ v ∧ (b = y - u ∨ b = y + u)) := by
  unfold FillCircle.spans
  simp only [List.mem_append, FillCircle.mem_draw_line]
  omega

theorem FillCircle.mem_loop (x y : Int) (p : Int × Int) :
    ∀ (fuel : Nat) (x1 y1 p1 : Int),
      p ∈ FillCircle.loop x y fuel x1 y1 p1 ↔
        ∃ s ∈ FillCircle.states fuel x1 y1 p1, p ∈ FillCircle.spans x y s.1 s.2 := by
  intro fuel
  induction fuel with
  | zero =>
    intro x1 y1 p1
    simp [FillCircle.loop, FillCircle.states]
  | succ n ih =>
    intro x1 y1 p1
    by_cases hg : y1 ≥ x1
    · by_cases hp : p1 < 0
      · simp only [FillCircle.loop, FillCircle.states, hg, hp, if_true, List.mem_append,
          List.mem_cons, exists_eq_or_imp, ih]
      · simp only [FillCircle.loop, FillCircle.states, hg, hp, if_true, if_false,
          List.mem_append, List.mem_cons, exists_eq_or_imp, ih]
    · simp [FillCircle.loop, FillCircle.states, hg]

/-- From any state with `x1 >= 0`, every position the loop of
`DrawCircle` plots is plotted by the loop of `FillCircle`. -/
theorem DrawCircle.loop_subset (x y : Int) (p : Int × Int) :
    ∀ (fuel : Nat) (x1 y1 p1 : Int), 0 ≤ x1 →
      p ∈ DrawCircle.loop x y fuel x1 y1 p1 → p ∈ FillCircle.loop x y fuel x1 y1 p1 := by
  intro fuel
  induction fuel with
  | zero =>
    intro x1 y1 p1 _ h
    simp [DrawCircle.loop] at h
  | succ n ih =>
    intro x1 y1 p1 h0 h
    by_cases hg : y1 ≥ x1
    · simp only [DrawCircle.loop, hg, if_true, List.mem_append] at h
      simp only [FillCircle.loop, hg, if_true, List.mem_append]
      rcases h with h | h
      · left
        obtain ⟨a, b⟩ := p
        rw [FillCircle.mem_spans]
        simp only [DrawCircle.octants, List.mem_cons, Prod.mk.injEq, List.mem_singleton,
          List.not_mem_nil, or_false] at h
        omega
      · right
        by_cases hp : p1 < 0
        · simp only [hp, if_true] at h ⊢
          exact ih _ _ _ (by omega) h
        · simp only [hp, if_false] at h ⊢
          exact ih _ _ _ (by omega) h
    · simp [DrawCircle.loop, hg] at h

/-- Every loop state reached from `(x1, y1)` has `x1 <= x <= y <= y1`. -/
theorem FillCircle.states_bounds :
    ∀ (fuel : Nat) (x1 y1 p1 : Int), ∀ s ∈ FillCircle.states fuel x1 y1 p1,
      x1 ≤ s.1 ∧ s.1 ≤ s.2 ∧ s.2 ≤ y1 := by
  intro fuel
  induction fuel with
  | zero =>
    intro x1 y1 p1 s hs
    simp [FillCircle.states] at hs
  | succ n ih =>
    intro x1 y1 p1 s hs
    by_cases hg : y1 ≥ x1
    · simp only [FillCircle.states, hg, if_true, List.mem_cons] at hs
      rcases hs with hs | hs
      · subst hs
        exact ⟨le_refl _, hg, le_refl _⟩
      · by_cases hp : p1 < 0
        · simp only [hp, if_true] at hs
          have := ih _ _ _ s hs
          omega
        · simp only [hp, if_false] at hs
          have := ih _ _ _ s hs
          omega
    · simp [FillCircle.states, hg] at hs

/-- The loop visits every column between its first and any later one, at a
height that is at least the later height. -/
theorem FillCircle.states_column :
    ∀ (fuel : Nat) (x1 y1 p1 : Int), ∀ s ∈ FillCircle.states fuel x1 y1 p1,
      ∀ m : Int, x1 ≤ m → m ≤ s.1 →
        ∃ t ∈ FillCircle.states fuel x1 y1 p1, t.1 = m ∧ s.2 ≤ t.2 := by
  intro fuel
  induction fuel with
  | zero =>
    intro x1 y1 p1 s hs
    simp [FillCircle.states] at hs
  | succ n ih =>
    intro x1 y1 p1 s hs m hm1 hm2
    have hb := FillCircle.states_bounds (n + 1) x1 y1 p1 s hs
    by_cases hg : y1 ≥ x1
    · by_cases hx : m = x1
      · refine ⟨(x1, y1), ?_, hx.symm, hb.2.2⟩
        simp [FillCircle.states, hg]
      · simp only [FillCircle.states, hg, if_true, List.mem_cons] at hs ⊢
        rcases hs with hs | hs
        · subst hs
          simp only at hm2
          omega
        · by_cases hp : p1 < 0
          · simp only [hp, if_true] at hs ⊢
            obtain ⟨t, ht, h1, h2⟩ := ih _ _ _ s hs m (by omega) hm2
            exact ⟨t, Or.inr ht, h1, h2⟩
          · simp only [hp, if_false] at hs ⊢
            obtain ⟨t, ht, h1, h2⟩ := ih _ _ _ s hs m (by omega) hm2
            exact ⟨t, Or.inr ht, h1, h2⟩
    · simp [FillCircle.states, hg] at hs

/-- With enough iterations left, every value between the column and the height
of the current state is the column of a visited state or the height of a
visited state. -/
theorem FillCircle.states_head_cover :
    ∀ (fuel : Nat) (x1 y1 p1 : Int), y1 - x1 < (fuel : Int) → x1 ≤ y1 →
      ∀ m : Int, x1 ≤ m → m ≤ y1 →
        ∃ t ∈ FillCircle.states fuel x1 y1 p1, t.1 = m ∨ (t.2 = m ∧ x1 ≤ t.1) := by
  intro fuel
  induction fuel with
  | zero =>
    intro x1 y1 p1 hf hg
    omega
  | succ n ih =>
    intro x1 y1 p1 hf hg m hm1 hm2
    have hg' : y1 ≥ x1 := hg
    have hhead : (x1, y1) ∈ FillCircle.states (n + 1) x1 y1 p1 := by
      simp [FillCircle.states, hg']
    by_cases hx : m = x1
    · exact ⟨(x1, y1), hhead, Or.inl hx.symm⟩
    · by_cases hp : p1 < 0
      · by_cases hn : x1 + 1 ≤ y1 ∧ m ≤ y1
        · obtain ⟨t, ht, h⟩ := ih (x1 + 1) y1 (p1 + (4 * x1 + 6)) (by push_cast at hf; omega)
            hn.1 m (by omega) hn.2
          refine ⟨t, ?_, ?_⟩
          · simp only [FillCircle.states, hg', hp, if_true, List.mem_cons]
            exact Or.inr ht
          · rcases h with h | h
            · exact Or.inl h
            · exact Or.inr ⟨h.1, by omega⟩
        · exact ⟨(x1, y1), hhead, Or.inr ⟨by simp only; omega, le_refl _⟩⟩
      · by_cases hn : x1 + 1 ≤ y1 - 1 ∧ m ≤ y1 - 1
        · obtain ⟨t, ht, h⟩ := ih (x1 + 1) (y1 - 1) (p1 + (4 * (x1 - y1) + 10))
            (by push_cast at hf; omega) hn.1 m (by omega) hn.2
          refine ⟨t, ?_, ?_⟩
          · simp only [FillCircle.states, hg', hp, if_true, if_false, List.mem_cons]
            exact Or.inr ht
          · rcases h with h | h
            · exact Or.inl h
            · exact Or.inr ⟨h.1, by omega⟩
        · exact ⟨(x1, y1), hhead, Or.inr ⟨by simp only; omega, le_refl _⟩⟩

/-- The same from any visited state. -/
theorem FillCircle.states_cover :
    ∀ (fuel : Nat) (x1 y1 p1 : Int), y1 - x1 < (fuel : Int) →
      ∀ s ∈ FillCircle.states fuel x1 y1 p1, ∀ m : Int, s.1 ≤ m → m ≤ s.2 →
        ∃ t ∈ FillCircle.states fuel x1 y1 p1, t.1 = m ∨ (t.2 = m ∧ s.1 ≤ t.1) := by
  intro fuel
  induction fuel with
  | zero =>
    intro x1 y1 p1 _ s hs
    simp [FillCircle.states] at hs
  | succ n ih =>
    intro x1 y1 p1 hf s hs m hm1 hm2
    by_cases hg : y1 ≥ x1
    · have hs' := hs
      simp only [FillCircle.states, hg, if_true, List.mem_cons] at hs'
      rcases hs' with hs' | hs'
      · subst hs'
        exact FillCircle.states_head_cover (n + 1) x1 y1 p1 hf hg m hm1 hm2
      · by_cases hp : p1 < 0
        · simp only [hp, if_true] at hs'
          obtain ⟨t, ht, h⟩ := ih (x1 + 1) y1 (p1 + (4 * x1 + 6))
            (by push_cast at hf; omega) s hs' m hm1 hm2
          refine ⟨t, ?_, h⟩
          simp only [FillCircle.states, hg, hp, if_true, List.mem_cons]
          exact Or.inr ht
        · simp only [hp, if_false] at hs'
          obtain ⟨t, ht, h⟩ := ih (x1 + 1) (y1 - 1) (p1 + (4 * (x1 - y1) + 10))
            (by push_cast at hf; omega) s hs' m hm1 hm2
          refine ⟨t, ?_, h⟩
          simp only [FillCircle.states, hg, hp, if_true, if_false, List.mem_cons]
          exact Or.inr ht
    · simp [FillCircle.states, hg] at hs

/-- The offsets `FillCircle` plots, read off the loop states: `(dx, dy)` is
plotted iff some state `(u, v)` has `|dx| <= u` and `|dy| = v`, or
`|dx| <= v` and `|dy| = u`. -/
theorem FillCircle.mem_plots_offset (x y r dx dy : Int) :
    (x + dx, y + dy) ∈ FillCircle.plots x y r ↔
      ∃ s ∈ FillCircle.states (r + 1).toNat 0 r (3 - 2 * r),
        ((dx.natAbs : Int) ≤ s.1 ∧ (dy.natAbs : Int) = s.2) ∨
        ((dx.natAbs : Int) ≤ s.2 ∧ (dy.natAbs : Int) = s.1) := by
  unfold FillCircle.plots
  rw [FillCircle.mem_loop]
  constructor
  · rintro ⟨s, hs, h⟩
    have hb := FillCircle.states_bounds _ _ _ _ s hs
    rw [FillCircle.mem_spans] at h
    exact ⟨s, hs, by omega⟩
  · rintro ⟨s, hs, h⟩
    have hb := FillCircle.states_bounds _ _ _ _ s hs
    refine ⟨s, hs, ?_⟩
    rw [FillCircle.mem_spans]
    omega

/-- The set of plotted offsets is symmetric under exchanging the two
coordinates. -/
theorem FillCircle.offset_swap (r a b : Int) (ha : 0 ≤ a)
    (h : ∃ s ∈ FillCircle.states (r + 1).toNat 0 r (3 - 2 * r),
      (a ≤ s.1 ∧ b = s.2) ∨ (a ≤ s.2 ∧ b = s.1)) :
    ∃ s ∈ FillCircle.states (r + 1).toNat 0 r (3 - 2 * r),
      (b ≤ s.1 ∧ a = s.2) ∨ (b ≤ s.2 ∧ a = s.1) := by
  obtain ⟨s, hs, h⟩ := h
  have hb := FillCircle.states_bounds _ _ _ _ s hs
  by_cases hle : a ≤ s.1
  · obtain ⟨t, ht, h1, h2⟩ := FillCircle.states_column _ _ _ _ s hs a ha hle
    exact ⟨t, ht, Or.inr ⟨by omega, h1.symm⟩⟩
  · have hr : 0 ≤ r := by
      by_contra hc
      have : (r + 1).toNat = 0 := by omega
      rw [this] at hs
      simp [FillCircle.states] at hs
    obtain ⟨t, ht, h'⟩ := FillCircle.states_cover (r + 1).toNat 0 r (3 - 2 * r) (by omega)
      s hs a (by omega) (by omega)
    have hbt := FillCircle.states_bounds _ _ _ _ t ht
    rcases h' with h' | h'
    · exact ⟨t, ht, Or.inr ⟨by omega, h'.symm⟩⟩
    · exact ⟨t, ht, Or.inl ⟨by omega, h'.1.symm⟩⟩

/-- C15: for every centre `(x, y)` and every radius (in particular every
`r > 0`), every position `DrawCircle(x, y, r)` plots is also plotted by
`FillCircle(x, y, r)`. -/
theorem DrawCircle_subset_FillCircle (x y r : Int) :
    ∀ p : Int × Int, p ∈ DrawCircle.plots x y r → p ∈ FillCircle.plots x y r := by
  intro p hp
  exact DrawCircle.loop_subset x y p _ 0 r _ (le_refl 0) hp

theorem DrawCircle_subset_FillCircle_witness :
    ((8 : Int), (5 : Int)) ∈ DrawCircle.plots 5 5 3 ∧
    ((8 : Int), (5 : Int)) ∈ FillCircle.plots 5 5 3 ∧
    ((7 : Int), (7 : Int)) ∈ FillCircle.plots 5 5 3 :=
  ⟨by decide, DrawCircle_subset_FillCircle 5 5 3 (8, 5) (by decide),
   DrawCircle_subset_FillCircle 5 5 3 (7, 7) (by decide)⟩

/-- C16: for every centre and every radius (in particular every `r > 0`), the
set of offsets `(dx, dy)` from the centre that `FillCircle` plots is closed
under the octant reflections: `(dx, dy)` is plotted iff `(-dx, dy)` is, iff
`(dx, -dy)` is, iff `(dy, dx)` is. -/
theorem FillCircle_octant_symmetric (x y r dx dy : Int) :
    ((x + dx, y + dy) ∈ FillCircle.plots x y r ↔
      (x + -dx, y + dy) ∈ FillCircle.plots x y r) ∧
    ((x + dx, y + dy) ∈ FillCircle.plots x y r ↔
      (x + dx, y + -dy) ∈ FillCircle.plots x y r) ∧
    ((x + dx, y + dy) ∈ FillCircle.plots x y r ↔
      (x + dy, y + dx) ∈ FillCircle.plots x y r) ∧
    ((x + dx, y + dy) ∈ FillCircle.plots x y r ↔
      ((x + -dx, y + dy) ∈ FillCircle.plots x y r ∧
       (x + dx, y + -dy) ∈ FillCircle.plots x y r ∧
       (x + dy, y + dx) ∈ FillCircle.plots x y r)) := by
  have hnx : (((-dx).natAbs : Nat) : Int) = (dx.natAbs : Int) := by omega
  have hny : (((-dy).natAbs : Nat) : Int) = (dy.natAbs : Int) := by omega
  have h1 : (x + dx, y + dy) ∈ FillCircle.plots x y r ↔
      (x + -dx, y + dy) ∈ FillCircle.plots x y r := by
    rw [FillCircle.mem_plots_offset, FillCircle.mem_plots_offset, hnx]
  have h2 : (x + dx, y + dy) ∈ FillCircle.plots x y r ↔
      (x + dx, y + -dy) ∈ FillCircle.plots x y r := by
    rw [FillCircle.mem_plots_offset, FillCircle.mem_plots_offset, hny]
  have h3 : (x + dx, y + dy) ∈ FillCircle.plots x y r ↔
      (x + dy, y + dx) ∈ FillCircle.plots x y r := by
    rw [FillCircle.mem_plots_offset, FillCircle.mem_plots_offset]
    exact ⟨FillCircle.offset_swap r _ _ (by omega), FillCircle.offset_swap r _ _ (by omega)⟩
  refine ⟨h1, h2, h3, ?_⟩
  constructor
  · intro h
    exact ⟨h1.1 h, h2.1 h, h3.1 h⟩
  · intro h
    exact h1.2 h.1

theorem withTarget_withTarget (e : GameEngine) (s t : Sprite) :
    (e.withTarget s).withTarget t = e.withTarget t := rfl

theorem FillRectangle.mem_plots (x y sizeX sizeY px py : Int) :
    (px, py) ∈ FillRectangle.plots x y sizeX sizeY ↔
      (x ≤ px ∧ px < x + sizeX ∧ y ≤ py ∧ py < y + sizeY) := by
  unfold FillRectangle.plots
  simp only [List.mem_flatMap, List.mem_map, List.mem_range, Prod.mk.injEq]
  constructor
  · rintro ⟨i, hi, j, hj, h1, h2⟩
    omega
  · rintro ⟨h1, h2, h3, h4⟩
    exact ⟨(px - x).toNat, by omega, (py - y).toNat, by omega, by omega, by omega⟩

/-- A run of `Draw` calls in DEFAULT mode: it succeeds, keeps the size and the
length of the target, and afterwards a position reads `col` iff it is in the
list and in bounds, and reads its old value otherwise. -/
theorem drawAll_DEFAULT (blend : Fin 256 → Fin 256 → Fin 256 → Fin 256) (col : Pixel) :
    ∀ (ps : List (Int × Int)) (e : GameEngine) (g : Graphic),
      e.m_PixelMode = Pixel.Mode.DEFAULT → e.m_DrawTarget = some g → g.sprite.Inv →
      ∃ s : Sprite, e.drawAll blend ps col = some (e.withTarget s) ∧
        s.size = g.sprite.size ∧ s.pixels.length = g.sprite.pixels.length ∧
        ∀ px py : Int, s.GetPixel px py =
          if (px, py) ∈ ps ∧ g.sprite.inBounds px py = true then col
          else g.sprite.GetPixel px py := by
  intro ps
  induction ps with
  | nil =>
    intro e g _ ht _
    refine ⟨g.sprite, ?_, rfl, rfl, ?_⟩
    · simp [drawAll, GameEngine.withTarget_self e g ht]
    · intro px py
      simp
  | cons p ps ih =>
    intro e g hm ht hInv
    have hsz := Sprite.SetPixel_size g.sprite p.1 p.2 col
    have hInv1 : (g.sprite.SetPixel p.1 p.2 col).2.Inv := by
      unfold Sprite.Inv at hInv ⊢
      rw [hsz.1, hsz.2]
      exact hInv
    obtain ⟨s, hs, h1, h2, h3⟩ := ih (e.withTarget (g.sprite.SetPixel p.1 p.2 col).2)
      { sprite := (g.sprite.SetPixel p.1 p.2 col).2 } hm rfl hInv1
    refine ⟨s, ?_, by rw [h1, hsz.1], by rw [h2, hsz.2], ?_⟩
    · simp only [drawAll, GameEngine.Draw_eq_of_DEFAULT blend e g p.1 p.2 col hm ht]
      rw [hs, withTarget_withTarget]
    · intro px py
      rw [h3 px py]
      simp only [Sprite.inBounds_SetPixel, Sprite.GetPixel_SetPixel_eq g.sprite p.1 p.2 px py col hInv,
        List.mem_cons]
      by_cases hp : (px, py) = p
      · subst hp
        by_cases hb : g.sprite.inBounds px py = true <;> simp [hb]
      · have hp' : ¬ ((px, py) = (p.1, p.2)) := hp
        simp [hp, hp']

/-- C17 fails on the code: `DrawCircle(x, y, 0)` and `FillCircle(x, y, 0)` run
the loop body once (`y1 >= x1` holds for `0 >= 0`) and pass the centre to
`Draw` eight and four times; on a 3x3 BLACK target in DEFAULT mode
`DrawCircle(1, 1, 0, RED)` and `FillCircle(1, 1, 0, RED)` turn the centre
pixel RED. -/
theorem Circle_zero_radius_plots_centre :
    (∀ x y : Int, DrawCircle.plots x y 0 = List.replicate 8 (x, y)) ∧
    (∀ x y : Int, FillCircle.plots x y 0 = List.replicate 4 (x, y)) ∧
    ((GameEngine.onSprite sprite3x3 Pixel.Mode.DEFAULT).DrawCircle lerp_channel 1 1 0 RED).map
        (fun e => e.m_DrawTarget.map (fun t => t.sprite.pixels))
      = some (some [BLACK, BLACK, BLACK, BLACK, RED, BLACK, BLACK, BLACK, BLACK]) ∧
    ((GameEngine.onSprite sprite3x3 Pixel.Mode.DEFAULT).FillCircle lerp_channel 1 1 0 RED).map
        (fun e => e.m_DrawTarget.map (fun t => t.sprite.pixels))
      = some (some [BLACK, BLACK, BLACK, BLACK, RED, BLACK, BLACK, BLACK, BLACK]) ∧
    sprite3x3.pixels ≠ [BLACK, BLACK, BLACK, BLACK, RED, BLACK, BLACK, BLACK, BLACK] := by
  refine ⟨?_, ?_, by decide, by decide, by decide⟩
  · intro x y
    simp [DrawCircle.plots, DrawCircle.loop, DrawCircle.octants, List.replicate]
  · intro x y
    simp [FillCircle.plots, FillCircle.loop, FillCircle.spans, FillCircle.draw_line,
      List.replicate, List.range_succ]

/-- C18: in DEFAULT mode, for every target holding `size.x * size.y` pixels and
all `x, y, sizeX, sizeY`, `FillRectangle(x, y, sizeX, sizeY, col)` sets exactly
the in-bounds pixels `(x+i, y+j)` with `0 <= i < sizeX`, `0 <= j < sizeY` to
`col` and changes no other pixel, nor the size or the length of the buffer;
`FillRectangle((0,0), (3,3), BLUE)` on an 8x8 canvas produces exactly 9 BLUE
pixels, the top-left 3x3 block. -/
theorem FillRectangle_sets_block :
    (∀ (blend : Fin 256 → Fin 256 → Fin 256 → Fin 256) (e : GameEngine) (g : Graphic)
        (x y sizeX sizeY : Int) (col : Pixel),
      e.m_PixelMode = Pixel.Mode.DEFAULT → e.m_DrawTarget = some g → g.sprite.Inv →
      ∃ s : Sprite, e.FillRectangle blend x y sizeX sizeY col = some (e.withTarget s) ∧
        s.size = g.sprite.size ∧ s.pixels.length = g.sprite.pixels.length ∧
        ∀ px py : Int, s.GetPixel px py =
          if (x ≤ px ∧ px < x + sizeX ∧ y ≤ py ∧ py < y + sizeY) ∧
              g.sprite.inBounds px py = true then col
          else g.sprite.GetPixel px py) ∧
    (∃ (s : Sprite) (e1 : GameEngine) (t : Graphic),
      Sprite.Create { x := 8, y := 8 } = some s ∧
      (GameEngine.onSprite s Pixel.Mode.DEFAULT).FillRectangle lerp_channel 0 0 3 3 BLUE
        = some e1 ∧
      e1.m_DrawTarget = some t ∧
      t.sprite.pixels.length = 64 ∧
      t.sprite.pixels.count BLUE = 9 ∧
      ∀ i j : Fin 8, t.sprite.GetPixel (i.val : Int) (j.val : Int) =
        if i.val < 3 ∧ j.val < 3 then BLUE else BLACK) := by
  constructor
  · intro blend e g x y sizeX sizeY col hm ht hInv
    obtain ⟨s, hs, h1, h2, h3⟩ :=
      drawAll_DEFAULT blend col (FillRectangle.plots x y sizeX sizeY) e g hm ht hInv
    refine ⟨s, hs, h1, h2, ?_⟩
    intro px py
    rw [h3 px py]
    simp only [FillRectangle.mem_plots]
  · refine ⟨_, _, _, rfl, rfl, rfl, by decide, by decide, by decide⟩

theorem FillRectangle_sets_block_witness :
    ∃ s : Sprite, (GameEngine.onSprite sprite3x3 Pixel.Mode.DEFAULT).FillRectangle lerp_channel
          1 (-1) 5 2 RED
        = some ((GameEngine.onSprite sprite3x3 Pixel.Mode.DEFAULT).withTarget s) ∧
      s.size = sprite3x3.size ∧ s.pixels.length = sprite3x3.pixels.length ∧
      ∀ px py : Int, s.GetPixel px py =
        if (1 ≤ px ∧ px < 1 + 5 ∧ -1 ≤ py ∧ py < -1 + 2) ∧
            sprite3x3.inBounds px py = true then RED
        else sprite3x3.GetPixel px py :=
  FillRectangle_sets_block.1 lerp_channel (GameEngine.onSprite sprite3x3 Pixel.Mode.DEFAULT)
    { sprite := sprite3x3 } 1 (-1) 5 2 RED rfl rfl (by decide)

end GameEngine

/-! ## Texture builder -/

/-- The polygon builder called with a colour list of length 1, or with as many
colours as vertices and at least one vertex: it returns, and appends one
instance whose vectors have `verts.size()` elements. -/
theorem TextureEngine.DrawTexturePolygon_appends {F : Type} [FloatArith F]
    (e : TextureEngine F) (verts : List (Vf2d F)) (cols : List Pixel)
    (st : Texture.Structure)
    (h : cols.length = 1 ∨ (cols.length = verts.length ∧ 0 < verts.length)) :
    ∃ inst : TextureInstance F,
      e.DrawTexturePolygon verts cols st = some (e.push_back inst) ∧
      inst.points = verts.length ∧ inst.vertices.length = verts.length ∧
      inst.uv.length = verts.length ∧ inst.tint.length = verts.length := by
  by_cases h1 : cols.length > 1
  · have hlen : cols.length = verts.length := by omega
    refine ⟨{ texture := none, structure_ := st, points := verts.length,
              tint := cols ++ List.drop cols.length
                (vector_resize ([] : List Pixel) verts.length Pixel.value_init),
              vertices := verts.map e.polygonVertex,
              uv := vector_resize (TextureInstance.ctor (F := F)).uv verts.length
                { x := FloatArith.lit 0, y := FloatArith.lit 0 },
              drawBeforeTransforms := e.m_DrawBeforeTransforms }, ?_, rfl, ?_, ?_, ?_⟩
    · simp only [TextureEngine.DrawTexturePolygon, TextureInstance.ctor, h1, if_true]
      simp [vector_resize, hlen]
    · simp
    · simp [vector_resize, TextureInstance.ctor]
      omega
    · simp [vector_resize, hlen]
  · have hc : cols.length = 1 := by omega
    match cols, hc with
    | [c], _ =>
      refine ⟨{ texture := none, structure_ := st, points := verts.length,
                tint := (vector_resize ([] : List Pixel) verts.length Pixel.value_init).map
                  (fun _ => c),
                vertices := verts.map e.polygonVertex,
                uv := vector_resize (TextureInstance.ctor (F := F)).uv verts.length
                  { x := FloatArith.lit 0, y := FloatArith.lit 0 },
                drawBeforeTransforms := e.m_DrawBeforeTransforms }, ?_, rfl, ?_, ?_, ?_⟩
      · simp [TextureEngine.DrawTexturePolygon, TextureInstance.ctor]
      · simp
      · simp [vector_resize, TextureInstance.ctor]
        omega
      · simp [vector_resize]

theorem TextureEngine.appendsOne_push_back {F : Type} (e : TextureEngine F)
    (inst : TextureInstance F) (h1 : inst.vertices.length = inst.points)
    (h2 : inst.uv.length = inst.points) (h3 : inst.tint.length = inst.points) :
    e.AppendsOne (e.push_back inst) :=
  ⟨inst, rfl, rfl, h1, h2, h3⟩

/-- C20, as stated, fails for the empty polygon: with an empty vertex list and
an empty colour list (a colour list of length equal to the vertex list)
`DrawTexturePolygon` reads `cols[0]` of the empty `cols`, an element that does
not exist, so the call has no defined result. -/
theorem TextureEngine.DrawTexturePolygon_empty_undefined :
    ([] : List Pixel).length = ([] : List (Vf2d Rat)).length ∧
    texEngine2x2.DrawTexturePolygon [] [] Texture.Structure.FAN = none :=
  ⟨rfl, rfl⟩

/-- C20, amended: each of `DrawTexture`, `DrawPartialTexture`,
`DrawRotatedTexture`, `DrawPartialRotatedTexture`, and `DrawTexturePolygon`
called with a colour list of length 1 or with as many colours as vertices and
at least one vertex, grows the instance queue by exactly one element, keeps
the previously queued instances unchanged and in order, leaves the fields
`Draw` uses, the draw target and its pixel buffer among them, unchanged, and
the appended instance has `len(vertices) == len(uv) == len(tint) == points`. -/
theorem TextureEngine.builders_append_one {F : Type} [FloatArith F] (cos sin : F → F)
    (e : TextureEngine F) :
    (∀ (pos : Vf2d F) (tex : Texture F) (scale : Vf2d F) (tint : Pixel),
      e.AppendsOne (e.DrawTexture pos tex scale tint)) ∧
    (∀ (pos : Vf2d F) (tex : Texture F) (filePos fileSize scale : Vf2d F) (tint : Pixel),
      e.AppendsOne (e.DrawPartialTexture pos tex filePos fileSize scale tint)) ∧
    (∀ (pos : Vf2d F) (tex : Texture F) (rotation : F) (center scale : Vf2d F) (tint : Pixel),
      e.AppendsOne (e.DrawRotatedTexture cos sin pos tex rotation center scale tint)) ∧
    (∀ (pos : Vf2d F) (tex : Texture F) (filePos fileSize : Vf2d F) (rotation : F)
        (center scale : Vf2d F) (tint : Pixel),
      e.AppendsOne
        (e.DrawPartialRotatedTexture cos sin pos tex filePos fileSize rotation center scale
          tint)) ∧
    (∀ (verts : List (Vf2d F)) (cols : List Pixel) (st : Texture.Structure),
      (cols.length = 1 ∨ (cols.length = verts.length ∧ 0 < verts.length)) →
      ∃ e1 : TextureEngine F, e.DrawTexturePolygon verts cols st = some e1 ∧
        e.AppendsOne e1 ∧ e1.m_Textures.length = e.m_Textures.length + 1) := by
  refine ⟨?_, ?_, ?_, ?_, ?_⟩
  · intro pos tex scale tint
    exact TextureEngine.appendsOne_push_back e _ rfl rfl rfl
  · intro pos tex filePos fileSize scale tint
    exact TextureEngine.appendsOne_push_back e _ rfl rfl rfl
  · intro pos tex rotation center scale tint
    exact TextureEngine.appendsOne_push_back e _ rfl rfl rfl
  · intro pos tex filePos fileSize rotation center scale tint
    exact TextureEngine.appendsOne_push_back e _ rfl rfl rfl
  · intro verts cols st h
    obtain ⟨inst, h0, h1, h2, h3, h4⟩ := TextureEngine.DrawTexturePolygon_appends e verts cols st h
    refine ⟨_, h0, TextureEngine.appendsOne_push_back e inst (by omega) (by omega) (by omega), ?_⟩
    simp [TextureEngine.push_back]

theorem TextureEngine.builders_append_one_witness :
    ∃ e1 : TextureEngine Rat,
      texEngine2x2.DrawTexturePolygon
        [{ x := 0, y := 0 }, { x := 2, y := 0 }, { x := 2, y := 2 }] [RED, WHITE, BLUE]
        Texture.Structure.FAN = some e1 ∧
      texEngine2x2.AppendsOne e1 ∧
      e1.m_Textures.length = texEngine2x2.m_Textures.length + 1 :=
  (TextureEngine.builders_append_one (fun _ => (1 : Rat)) (fun _ => (0 : Rat)) texEngine2x2).2.2.2.2
    [{ x := 0, y := 0 }, { x := 2, y := 0 }, { x := 2, y := 2 }] [RED, WHITE, BLUE]
    Texture.Structure.FAN (Or.inr ⟨rfl, by decide⟩)

/-! ## Texture structure, draw order and device coordinates -/

/-- What a defined call of `DrawTexturePolygon` queues: one instance with the
structure passed as argument, the flag of the engine, and the vertices mapped
by `polygonVertex`. -/
theorem TextureEngine.DrawTexturePolygon_some {F : Type} [FloatArith F]
    (e e1 : TextureEngine F) (verts : List (Vf2d F)) (cols : List Pixel)
    (st : Texture.Structure) (h : e.DrawTexturePolygon verts cols st = some e1) :
    ∃ inst : TextureInstance F, e1 = e.push_back inst ∧ inst.structure_ = st ∧
      inst.drawBeforeTransforms = e.m_DrawBeforeTransforms ∧
      inst.vertices = verts.map e.polygonVertex := by
  unfold TextureEngine.DrawTexturePolygon at h
  simp only at h
  split at h
  · exact absurd h (by simp)
  · rename_i tint htint
    simp only [Option.some.injEq] at h
    exact ⟨_, h.symm, rfl, rfl, rfl⟩

theorem TextureEngine.lastRecorded_push_back {F : Type} (e : TextureEngine F)
    (inst : TextureInstance F) :
    (e.push_back inst).lastRecorded = some (inst.structure_, inst.drawBeforeTransforms) := by
  simp [TextureEngine.lastRecorded, TextureEngine.push_back]

theorem TextureEngine.DrawTexturePolygon_lastRecorded {F : Type} [FloatArith F]
    (e e1 : TextureEngine F) (verts : List (Vf2d F)) (cols : List Pixel)
    (st : Texture.Structure) (h : e.DrawTexturePolygon verts cols st = some e1) :
    e1.m_Textures.length = e.m_Textures.length + 1 ∧
    e1.lastRecorded = some (st, e.m_DrawBeforeTransforms) := by
  obtain ⟨inst, h1, h2, h3, _⟩ := TextureEngine.DrawTexturePolygon_some e e1 verts cols st h
  subst h1
  rw [TextureEngine.lastRecorded_push_back, h2, h3]
  simp [TextureEngine.push_back]

theorem TextureEngine.DrawWarpedTexture_some {F : Type} [FloatArith F] (cmp : FloatCmp F)
    (e e1 : TextureEngine F) (points : List (Vf2d F)) (tex : Option (Texture F)) (tint : Pixel)
    (h : e.DrawWarpedTexture cmp points tex tint = some e1) :
    e1 = e ∨ ∃ inst : TextureInstance F, e1 = e.push_back inst ∧
      inst.structure_ = e.m_TextureStructure ∧
      inst.drawBeforeTransforms = e.m_DrawBeforeTransforms ∧
      inst.vertices = (points.take 4).map e.warpVertex := by
  unfold TextureEngine.DrawWarpedTexture at h
  split at h
  · simp only at h
    split at h
    · simp only [Option.some.injEq] at h
      exact Or.inr ⟨_, h.symm, rfl, rfl, by simp⟩
    · simp only [Option.some.injEq] at h
      exact Or.inl h.symm
  · exact absurd h (by simp)

/-- C21, as stated, fails for the polygon wrappers: with the engine default set
to `STRIP` by `SetTextureStructure`, `FillTextureTriangle` queues an instance
whose structure is `FAN`, not the default. -/
theorem TextureEngine.FillTextureTriangle_ignores_default :
    (texEngine2x2.SetTextureStructure Texture.Structure.STRIP).m_TextureStructure =
      Texture.Structure.STRIP ∧
    ((texEngine2x2.SetTextureStructure Texture.Structure.STRIP).FillTextureTriangle
        { x := 0, y := 0 } { x := 1, y := 0 } { x := 0, y := 1 } RED).map
      TextureEngine.lastRecorded = some (some (Texture.Structure.FAN, false)) ∧
    Texture.Structure.FAN ≠ Texture.Structure.STRIP :=
  ⟨rfl, rfl, by decide⟩

theorem TextureEngine.Queues_of_polygon {F : Type} [FloatArith F]
    (e : TextureEngine F) (verts : List (Vf2d F)) (cols : List Pixel)
    (st : Texture.Structure)
    (h : cols.length = 1 ∨ (cols.length = verts.length ∧ 0 < verts.length)) :
    ∃ e1 : TextureEngine F, e.DrawTexturePolygon verts cols st = some e1 ∧
      e.Queues e1 st e.m_DrawBeforeTransforms := by
  obtain ⟨inst, h0, _⟩ := TextureEngine.DrawTexturePolygon_appends e verts cols st h
  obtain ⟨inst1, h1, h2, h3, _⟩ := TextureEngine.DrawTexturePolygon_some e _ verts cols st h0
  exact ⟨_, h0, inst1, by rw [h1]; rfl, h2, h3⟩

/-- C21, amended: each builder of the quad family (`DrawTexture`,
`DrawPartialTexture`, `DrawRotatedTexture`, `DrawPartialRotatedTexture`, and
`DrawWarpedTexture` when it queues) appends an instance whose structure is the
engine default at the time of the call; `DrawTexturePolygon` appends an
instance whose structure is the structure argument of the call, which is
`WIREFRAME` in the wrappers `DrawTextureLine`, `DrawTextureTriangle`,
`DrawTextureRectangle`, `DrawTextureCircle` and `FAN` in the wrappers
`FillTextureTriangle`, `FillTextureRectangle`, `FillTextureCircle`,
`GradientTextureTriangle`, `GradientTextureRectangle`, whatever the default;
in all of them `drawBeforeTransforms` is the flag of the engine at the time of
the call; and a later `SetTextureStructure` changes no queued instance. -/
theorem TextureEngine.builders_record_structure {F : Type} [FloatArith F] (cos sin : F → F)
    (cmp : FloatCmp F) (s_UnitCircle : List (Vf2d F)) (e : TextureEngine F) :
    (∀ (pos : Vf2d F) (tex : Texture F) (scale : Vf2d F) (tint : Pixel),
      e.Queues (e.DrawTexture pos tex scale tint) e.m_TextureStructure
        e.m_DrawBeforeTransforms) ∧
    (∀ (pos : Vf2d F) (tex : Texture F) (filePos fileSize scale : Vf2d F) (tint : Pixel),
      e.Queues (e.DrawPartialTexture pos tex filePos fileSize scale tint) e.m_TextureStructure
        e.m_DrawBeforeTransforms) ∧
    (∀ (pos : Vf2d F) (tex : Texture F) (rotation : F) (center scale : Vf2d F) (tint : Pixel),
      e.Queues (e.DrawRotatedTexture cos sin pos tex rotation center scale tint)
        e.m_TextureStructure e.m_DrawBeforeTransforms) ∧
    (∀ (pos : Vf2d F) (tex : Texture F) (filePos fileSize : Vf2d F) (rotation : F)
        (center scale : Vf2d F) (tint : Pixel),
      e.Queues
        (e.DrawPartialRotatedTexture cos sin pos tex filePos fileSize rotation center scale tint)
        e.m_TextureStructure e.m_DrawBeforeTransforms) ∧
    (∀ (points : List (Vf2d F)) (tex : Option (Texture F)) (tint : Pixel)
        (e1 : TextureEngine F), e.DrawWarpedTexture cmp points tex tint = some e1 →
      e1 = e ∨ e.Queues e1 e.m_TextureStructure e.m_DrawBeforeTransforms) ∧
    (∀ (verts : List (Vf2d F)) (cols : List Pixel) (st : Texture.Structure)
        (e1 : TextureEngine F), e.DrawTexturePolygon verts cols st = some e1 →
      e.Queues e1 st e.m_DrawBeforeTransforms) ∧
    (∀ (pos1 pos2 pos3 size : Vi2d) (radius : Int) (col col2 col3 col4 : Pixel),
      (∃ e1, e.DrawTextureLine pos1 pos2 col = some e1 ∧
        e.Queues e1 Texture.Structure.WIREFRAME e.m_DrawBeforeTransforms) ∧
      (∃ e1, e.DrawTextureTriangle pos1 pos2 pos3 col = some e1 ∧
        e.Queues e1 Texture.Structure.WIREFRAME e.m_DrawBeforeTransforms) ∧
      (∃ e1, e.DrawTextureRectangle pos1 size col = some e1 ∧
        e.Queues e1 Texture.Structure.WIREFRAME e.m_DrawBeforeTransforms) ∧
      (∃ e1, e.DrawTextureCircle s_UnitCircle pos1 radius col = some e1 ∧
        e.Queues e1 Texture.Structure.WIREFRAME e.m_DrawBeforeTransforms) ∧
      (∃ e1, e.FillTextureTriangle pos1 pos2 pos3 col = some e1 ∧
        e.Queues e1 Texture.Structure.FAN e.m_DrawBeforeTransforms) ∧
      (∃ e1, e.FillTextureRectangle pos1 size col = some e1 ∧
        e.Queues e1 Texture.Structure.FAN e.m_DrawBeforeTransforms) ∧
      (∃ e1, e.FillTextureCircle s_UnitCircle pos1 radius col = some e1 ∧
        e.Queues e1 Texture.Structure.FAN e.m_DrawBeforeTransforms) ∧
      (∃ e1, e.GradientTextureTriangle pos1 pos2 pos3 col col2 col3 = some e1 ∧
        e.Queues e1 Texture.Structure.FAN e.m_DrawBeforeTransforms) ∧
      (∃ e1, e.GradientTextureRectangle pos1 size col col2 col3 col4 = some e1 ∧
        e.Queues e1 Texture.Structure.FAN e.m_DrawBeforeTransforms)) ∧
    (∀ st : Texture.Structure,
      (e.SetTextureStructure st).m_Textures = e.m_Textures ∧
      (e.SetTextureStructure st).m_TextureStructure = st ∧
      (e.SetTextureStructure st).m_DrawBeforeTransforms = e.m_DrawBeforeTransforms) := by
  refine ⟨?_, ?_, ?_, ?_, ?_, ?_, ?_, ?_⟩
  · intro pos tex scale tint
    exact ⟨_, rfl, rfl, rfl⟩
  · intro pos tex filePos fileSize scale tint
    exact ⟨_, rfl, rfl, rfl⟩
  · intro pos tex rotation center scale tint
    exact ⟨_, rfl, rfl, rfl⟩
  · intro pos tex filePos fileSize rotation center scale tint
    exact ⟨_, rfl, rfl, rfl⟩
  · intro points tex tint e1 h
    rcases TextureEngine.DrawWarpedTexture_some cmp e e1 points tex tint h with h1 | h1
    · exact Or.inl h1
    · obtain ⟨inst, h1, h2, h3, _⟩ := h1
      exact Or.inr ⟨inst, by rw [h1]; rfl, h2, h3⟩
  · intro verts cols st e1 h
    obtain ⟨inst, h1, h2, h3, _⟩ := TextureEngine.DrawTexturePolygon_some e e1 verts cols st h
    exact ⟨inst, by rw [h1]; rfl, h2, h3⟩
  · intro pos1 pos2 pos3 size radius col col2 col3 col4
    refine ⟨?_, ?_, ?_, ?_, ?_, ?_, ?_, ?_, ?_⟩
    · exact TextureEngine.Queues_of_polygon e _ _ _ (Or.inr ⟨rfl, by simp⟩)
    · exact TextureEngine.Queues_of_polygon e _ _ _ (Or.inr ⟨rfl, by simp⟩)
    · exact TextureEngine.Queues_of_polygon e _ _ _ (Or.inr ⟨rfl, by simp [TextureEngine.rectangleVerts]⟩)
    · exact TextureEngine.Queues_of_polygon e _ _ _ (Or.inl rfl)
    · exact TextureEngine.Queues_of_polygon e _ _ _ (Or.inr ⟨rfl, by simp⟩)
    · exact TextureEngine.Queues_of_polygon e _ _ _ (Or.inr ⟨rfl, by simp [TextureEngine.rectangleVerts]⟩)
    · exact TextureEngine.Queues_of_polygon e _ _ _ (Or.inl rfl)
    · exact TextureEngine.Queues_of_polygon e _ _ _ (Or.inr ⟨rfl, by simp⟩)
    · exact TextureEngine.Queues_of_polygon e _ _ _ (Or.inr ⟨rfl, by simp [TextureEngine.rectangleVerts]⟩)
  · intro st
    exact ⟨rfl, rfl, rfl⟩

theorem TextureEngine.builders_record_structure_witness :
    (texEngine2x2.SetTextureStructure Texture.Structure.STRIP).Queues
      ((texEngine2x2.SetTextureStructure Texture.Structure.STRIP).push_back
        { (TextureInstance.ctor : TextureInstance Rat) with
          texture := none, points := 1, tint := [RED],
          uv := [{ x := 0, y := 0 }],
          vertices := [{ x := -1, y := 1 }] })
      Texture.Structure.FAN false :=
  (TextureEngine.builders_record_structure (fun _ => (1 : Rat)) (fun _ => (0 : Rat))
      FloatCmp.exact [] (texEngine2x2.SetTextureStructure Texture.Structure.STRIP)).2.2.2.2.2.1
    [{ x := 0, y := 0 }] [RED] Texture.Structure.FAN _ (by
      simp [TextureEngine.DrawTexturePolygon, TextureEngine.SetTextureStructure,
        TextureEngine.push_back, TextureInstance.ctor, vector_resize, texEngine2x2,
        TextureEngine.polygonVertex, FloatArith.lit, FloatArith.mul, FloatArith.sub])

namespace GameEngine

theorem ScanHardware.step_other (Get : Nat → Bool) (s : HardwareState) (i j : Nat)
    (h : j ≠ i) :
    (ScanHardware.step Get s i).data j = s.data j ∧
    (ScanHardware.step Get s i).oldState j = s.oldState j := by
  simp [ScanHardware.step, Function.update, h]

theorem ScanHardware.foldl_range (Get : Nat → Bool) (n : Nat) (s : HardwareState) (j : Nat) :
    ((List.range n).foldl (ScanHardware.step Get) s).data j =
      (if j < n then (ScanHardware.step Get s j).data j else s.data j) ∧
    ((List.range n).foldl (ScanHardware.step Get) s).oldState j =
      (if j < n then Get j else s.oldState j) := by
  induction n with
  | zero => simp
  | succ n ih =>
    rw [List.range_succ, List.foldl_append, List.foldl_cons, List.foldl_nil]
    by_cases hj : j = n
    · subst hj
      have h1 := ih.1
      have h2 := ih.2
      simp only [lt_irrefl, if_false] at h1 h2
      constructor
      · simp only [ScanHardware.step, Function.update_same, h1, h2, Nat.lt_succ_self, if_true]
      · simp [ScanHardware.step]
    · have ho := ScanHardware.step_other Get ((List.range n).foldl (ScanHardware.step Get) s) n j hj
      rw [ho.1, ho.2, ih.1, ih.2]
      have : (j < n + 1) = (j < n) := by
        apply propext; omega
      simp only [this, and_self]

theorem ScanHardware.at_index (s : HardwareState) (count : Nat) (Get : Nat → Bool) (i : Nat)
    (hi : i < count) :
    (ScanHardware s count Get).data i = (ScanHardware.step Get s i).data i ∧
    (ScanHardware s count Get).oldState i = Get i := by
  have h := ScanHardware.foldl_range Get count s i
  simp only [hi, if_true] at h
  exact h

theorem MainLoop.scans_held (count : Nat) (polls : List (Nat → Bool)) (i : Nat)
    (hi : i < count) :
    ((MainLoop.scans count polls).data i).held = (MainLoop.scans count polls).oldState i ∧
    (MainLoop.scans count polls).oldState i = lastPoll polls i := by
  induction polls using List.reverseRecOn with
  | nil => simp [MainLoop.scans, MainLoop.init, lastPoll]
  | append_singleton ps g ih =>
    have hs : MainLoop.scans count (ps ++ [g]) = ScanHardware (MainLoop.scans count ps) count g := by
      simp [MainLoop.scans, List.foldl_append]
    have h := ScanHardware.at_index (MainLoop.scans count ps) count g i hi
    rw [hs, h.1, h.2]
    constructor
    · simp only [ScanHardware.step, Function.update_same]
      rw [← ih.1]
      cases hg : g i <;> cases hd : ((MainLoop.scans count ps).data i).held <;> simp
    · simp [lastPoll]

/-- C25: from the all-false state `MainLoop` initialises, after every poll
(the last `Get` of a run of calls of `ScanHardware` over `count` keys) and for
every key index `i < count`: `held[i]` is the polled state of key `i`;
`pressed[i]` is true iff the key is down in this poll and was up in the poll
before (up before the first poll); `released[i]` is true iff the key is up in
this poll and was down in the poll before; and `pressed[i]`, `released[i]` are
never both true. -/
theorem ScanHardware_edge_detection (count : Nat) (polls : List (Nat → Bool))
    (Get : Nat → Bool) (i : Nat) (hi : i < count) :
    ((MainLoop.scans count (polls ++ [Get])).data i).held = Get i ∧
    (((MainLoop.scans count (polls ++ [Get])).data i).pressed = true ↔
      (Get i = true ∧ lastPoll polls i = false)) ∧
    (((MainLoop.scans count (polls ++ [Get])).data i).released = true ↔
      (Get i = false ∧ lastPoll polls i = true)) ∧
    ¬ (((MainLoop.scans count (polls ++ [Get])).data i).pressed = true ∧
       ((MainLoop.scans count (polls ++ [Get])).data i).released = true) := by
  have hs : MainLoop.scans count (polls ++ [Get]) =
      ScanHardware (MainLoop.scans count polls) count Get := by
    simp [MainLoop.scans, List.foldl_append]
  have h := ScanHardware.at_index (MainLoop.scans count polls) count Get i hi
  have hinv := MainLoop.scans_held count polls i hi
  rw [hs, h.1]
  simp only [ScanHardware.step, Function.update_same]
  rw [← hinv.2, ← hinv.1]
  cases hg : Get i <;> cases hd : ((MainLoop.scans count polls).data i).held <;> simp

theorem ScanHardware_edge_detection_witness :
    ((MainLoop.scans 512 ([fun _ => false] ++ [fun _ => true])).data 65).held = true ∧
    (((MainLoop.scans 512 ([fun _ => false] ++ [fun _ => true])).data 65).pressed = true ↔
      (true = true ∧ lastPoll [fun _ => false] 65 = false)) ∧
    (((MainLoop.scans 512 ([fun _ => false] ++ [fun _ => true])).data 65).released = true ↔
      (true = false ∧ lastPoll [fun _ => false] 65 = true)) ∧
    ¬ (((MainLoop.scans 512 ([fun _ => false] ++ [fun _ => true])).data 65).pressed = true ∧
       ((MainLoop.scans 512 ([fun _ => false] ++ [fun _ => true])).data 65).released = true) :=
  ScanHardware_edge_detection 512 [fun _ => false] (fun _ => true) 65 (by decide)

end GameEngine

/-! ## Wire-frame models and strings -/

theorem toI32_toU32 (v : Int) (h1 : -2147483648 ≤ v) (h2 : v < 2147483648) :
    toI32 (toU32 v) = v := by
  unfold toI32 toU32
  omega

theorem toU32_of_range (v : Int) (h1 : 0 ≤ v) (h2 : v < 4294967296) : toU32 v = v := by
  unfold toU32
  omega

namespace GameEngine

/-- C23, refuted by the code: on an empty coordinate list `DrawWireFrameModel`
runs its drawing loop once (`i <= verts` holds for `i = 0`, `verts = 0`) and
evaluates `i % verts`, a remainder by zero, and `FillWireFrameModel` reads
`coordinates.front()` of the empty vector: neither call is skipped, both are
undefined. -/
theorem WireFrameModel_empty_undefined {F : Type} [FloatArith F] (cmp : FloatCmp F)
    (cosf sinf : F → F) (toInt : F → Int) (x y rotation scale : F) :
    DrawWireFrameModel.plots cosf sinf toInt [] x y rotation scale = none ∧
    FillWireFrameModel.bounds cmp cosf sinf [] x y rotation scale = none :=
  ⟨rfl, rfl⟩

theorem DrawString.glyphPlain_eq_glyphScaled (font : Sprite) (x y sx sy ox oy : Int) :
    DrawString.glyphPlain font x y sx sy ox oy =
      DrawString.glyphScaled font x y sx sy ox oy 1 1 := by
  unfold DrawString.glyphPlain DrawString.glyphScaled
  have h1 : (toU32 1).toNat = 1 := by decide
  have h2 : List.range 1 = [0] := rfl
  simp [h1, h2]

theorem DrawString.mem_glyphScaled (font : Sprite) (x y ox oy scaleX scaleY : Int)
    (hox1 : 0 ≤ ox) (hox2 : ox ≤ 15) (hoy1 : 0 ≤ oy) (hoy2 : oy ≤ 15)
    (hsx : 1 ≤ scaleX) (hsy : 1 ≤ scaleY)
    (hx1 : -2147483648 ≤ x) (hx2 : x + 8 * scaleX ≤ 2147483648)
    (hy1 : -2147483648 ≤ y) (hy2 : y + 8 * scaleY ≤ 2147483648) (p : Int × Int) :
    p ∈ DrawString.glyphScaled font x y 0 0 ox oy scaleX scaleY ↔
      ∃ i j is js : Int, 0 ≤ i ∧ i < 8 ∧ 0 ≤ j ∧ j < 8 ∧ 0 ≤ is ∧ is < scaleX ∧
        0 ≤ js ∧ js < scaleY ∧
        (font.GetPixel (8 * ox + i) (8 * oy + j)).r > 0 ∧
        p = (x + i * scaleX + is, y + j * scaleY + js) := by
  have hux : toU32 scaleX = scaleX := toU32_of_range _ (by omega) (by omega)
  have huy : toU32 scaleY = scaleY := toU32_of_range _ (by omega) (by omega)
  have hpix : ∀ i j : Nat, i < 8 → j < 8 →
      font.GetPixel (toI32 (toU32 ((i : Int) + ox * 8))) (toI32 (toU32 ((j : Int) + oy * 8))) =
        font.GetPixel (8 * ox + (i : Int)) (8 * oy + (j : Int)) := by
    intro i j hi hj
    rw [toI32_toU32 _ (by omega) (by omega), toI32_toU32 _ (by omega) (by omega)]
    congr 1 <;> ring
  have hpos : ∀ (b s : Int) (i k : Nat), 1 ≤ s → -2147483648 ≤ b → b + 8 * s ≤ 2147483648 →
      i < 8 → (k : Int) < s →
      toI32 (toU32 (b + 0 + (i : Int) * s + (k : Int))) = b + (i : Int) * s + (k : Int) := by
    intro b s i k hs hb1 hb2 hi hk
    have h1 : 0 ≤ (i : Int) * s := by positivity
    have h2 : (i : Int) * s ≤ 7 * s := by
      apply mul_le_mul_of_nonneg_right _ (by omega)
      omega
    rw [toI32_toU32 _ (by omega) (by omega)]
    ring
  unfold DrawString.glyphScaled
  simp only [List.mem_flatMap, List.mem_range, hux, huy]
  constructor
  · rintro ⟨i, hi, j, hj, hmem⟩
    rw [hpix i j hi hj] at hmem
    split_ifs at hmem with hr
    · simp only [List.mem_flatMap, List.mem_range, List.mem_map] at hmem
      obtain ⟨is, his, js, hjs, hp⟩ := hmem
      have his1 : (is : Int) < scaleX := by omega
      have hjs1 : (js : Int) < scaleY := by omega
      rw [hpos x scaleX i is hsx hx1 hx2 hi his1, hpos y scaleY j js hsy hy1 hy2 hj hjs1] at hp
      exact ⟨i, j, is, js, by omega, by omega, by omega, by omega, by omega, his1, by omega,
        hjs1, hr, hp.symm⟩
    · simp at hmem
  · rintro ⟨i, j, is, js, hi0, hi1, hj0, hj1, his0, his1, hjs0, hjs1, hr, hp⟩
    refine ⟨i.toNat, by omega, j.toNat, by omega, ?_⟩
    have hi : ((i.toNat : Nat) : Int) = i := by omega
    have hj : ((j.toNat : Nat) : Int) = j := by omega
    rw [hpix i.toNat j.toNat (by omega) (by omega), hi, hj, if_pos hr]
    simp only [List.mem_flatMap, List.mem_range, List.mem_map]
    refine ⟨is.toNat, by omega, js.toNat, by omega, ?_⟩
    have h1 := hpos x scaleX i.toNat is.toNat hsx hx1 hx2 (by omega) (by omega)
    have h2 := hpos y scaleY j.toNat js.toNat hsy hy1 hy2 (by omega) (by omega)
    have his : ((is.toNat : Nat) : Int) = is := by omega
    have hjs : ((js.toNat : Nat) : Int) = js := by omega
    rw [hi] at h1
    rw [hj] at h2
    rw [h1, h2, hp, his, hjs]

/-- C24: a character `c` with `32 <= c <= 127` drawn alone by `DrawString` at
`(x, y)` with scales `scaleX, scaleY >= 1` (the cell within the range of `int`)
plots exactly the positions `(x + i*scaleX + is, y + j*scaleY + js)` with
`0 <= i, j < 8`, `0 <= is < scaleX`, `0 <= js < scaleY` for which the font
pixel at `(8*((c-32) mod 16) + i, 8*((c-32) div 16) + j)` has a red channel
above 0; all of them lie in the cell `[x, x + 8*scaleX) x [y, y + 8*scaleY)`;
and the fast path plots what the general path plots at scale `(1, 1)`. -/
theorem DrawString_single_char (font : Sprite) (m_TabSize x y c scaleX scaleY : Int)
    (hc1 : 32 ≤ c) (hc2 : c ≤ 127) (hsx : 1 ≤ scaleX) (hsy : 1 ≤ scaleY)
    (hx1 : -2147483648 ≤ x) (hx2 : x + 8 * scaleX ≤ 2147483648)
    (hy1 : -2147483648 ≤ y) (hy2 : y + 8 * scaleY ≤ 2147483648) :
    (∀ p : Int × Int, p ∈ DrawString.plots font m_TabSize x y [c] scaleX scaleY ↔
      ∃ i j is js : Int, 0 ≤ i ∧ i < 8 ∧ 0 ≤ j ∧ j < 8 ∧ 0 ≤ is ∧ is < scaleX ∧
        0 ≤ js ∧ js < scaleY ∧
        (font.GetPixel (8 * ((c - 32) % 16) + i) (8 * ((c - 32) / 16) + j)).r > 0 ∧
        p = (x + i * scaleX + is, y + j * scaleY + js)) ∧
    (∀ p : Int × Int, p ∈ DrawString.plots font m_TabSize x y [c] scaleX scaleY →
      x ≤ p.1 ∧ p.1 < x + 8 * scaleX ∧ y ≤ p.2 ∧ p.2 < y + 8 * scaleY) ∧
    (∀ sx sy ox oy : Int, DrawString.glyphPlain font x y sx sy ox oy =
      DrawString.glyphScaled font x y sx sy ox oy 1 1) := by
  have hox : Int.tmod (c - 32) 16 = (c - 32) % 16 := by
    rw [Int.tmod_eq_emod (by omega) (by omega)]
  have hoy : Int.tdiv (c - 32) 16 = (c - 32) / 16 := by
    rw [Int.tdiv_eq_ediv (by omega) (by omega)]
  have hmem : ∀ p : Int × Int, p ∈ DrawString.plots font m_TabSize x y [c] scaleX scaleY ↔
      ∃ i j is js : Int, 0 ≤ i ∧ i < 8 ∧ 0 ≤ j ∧ j < 8 ∧ 0 ≤ is ∧ is < scaleX ∧
        0 ≤ js ∧ js < scaleY ∧
        (font.GetPixel (8 * ((c - 32) % 16) + i) (8 * ((c - 32) / 16) + j)).r > 0 ∧
        p = (x + i * scaleX + is, y + j * scaleY + js) := by
    intro p
    have hc10 : c ≠ 10 := by omega
    have hc9 : c ≠ 9 := by omega
    simp only [DrawString.plots, DrawString.loop, hc10, hc9, if_false, List.append_nil, hox,
      hoy]
    split_ifs with hs
    · exact DrawString.mem_glyphScaled font x y _ _ scaleX scaleY (by omega) (by omega)
        (by omega) (by omega) hsx hsy hx1 hx2 hy1 hy2 p
    · have h1 : scaleX = 1 := by omega
      have h2 : scaleY = 1 := by omega
      subst h1
      subst h2
      rw [DrawString.glyphPlain_eq_glyphScaled]
      exact DrawString.mem_glyphScaled font x y _ _ 1 1 (by omega) (by omega)
        (by omega) (by omega) hsx hsy hx1 hx2 hy1 hy2 p
  refine ⟨hmem, ?_, fun sx sy ox oy => DrawString.glyphPlain_eq_glyphScaled font x y sx sy ox oy⟩
  intro p hp
  obtain ⟨i, j, is, js, hi0, hi1, hj0, hj1, his0, his1, hjs0, hjs1, _, rfl⟩ := (hmem p).1 hp
  have h1 : 0 ≤ i * scaleX := by positivity
  have h2 : i * scaleX ≤ 7 * scaleX := mul_le_mul_of_nonneg_right (by omega) (by omega)
  have h3 : 0 ≤ j * scaleY := by positivity
  have h4 : j * scaleY ≤ 7 * scaleY := mul_le_mul_of_nonneg_right (by omega) (by omega)
  simp only
  omega

theorem DrawString_single_char_witness :
    ((10 : Int), (20 : Int)) ∈ DrawString.plots fontChecker 4 10 20 [65] 2 1 ↔
      ∃ i j is js : Int, 0 ≤ i ∧ i < 8 ∧ 0 ≤ j ∧ j < 8 ∧ 0 ≤ is ∧ is < 2 ∧
        0 ≤ js ∧ js < 1 ∧
        (fontChecker.GetPixel (8 * ((65 - 32) % 16) + i) (8 * ((65 - 32) / 16) + j)).r > 0 ∧
        ((10 : Int), (20 : Int)) = (10 + i * 2 + is, 20 + j * 1 + js) :=
  (DrawString_single_char fontChecker 4 10 20 65 2 1 (by decide) (by decide) (by decide)
    (by decide) (by decide) (by decide) (by decide) (by decide)).1 (10, 20)

end GameEngine

/-! ## Ellipses -/

namespace GameEngine

theorem DrawEllipse.loop_sym (a b1 cx cy : Int) (fuel : Nat) :
    ∀ (x x1 y y1 dx dy err : Int) (r : List (Int × Int) × Int × Int × Int × Int),
      x + x1 = cx → y + y1 = cy →
      DrawEllipse.loop a b1 fuel x x1 y y1 dx dy err = some r →
      (∀ p ∈ r.1, (cx - p.1, p.2) ∈ r.1 ∧ (p.1, cy - p.2) ∈ r.1) ∧
      r.2.1 + r.2.2.1 = cx ∧ r.2.2.2.1 + r.2.2.2.2 = cy ∧
      y - y1 ≤ r.2.2.2.1 - r.2.2.2.2 := by
  induction fuel with
  | zero =>
    intro x x1 y y1 dx dy err r _ _ h
    simp [DrawEllipse.loop] at h
  | succ fuel ih =>
    intro x x1 y y1 dx dy err r hx hy h
    have hbatch : ∀ p ∈ [(x1, y), (x, y), (x, y1), (x1, y1)],
        (cx - p.1, p.2) ∈ [(x1, y), (x, y), (x, y1), (x1, y1)] ∧
        (p.1, cy - p.2) ∈ [(x1, y), (x, y), (x, y1), (x1, y1)] := by
      intro p hp
      have e1 : cx - x1 = x := by omega
      have e2 : cx - x = x1 := by omega
      have e3 : cy - y1 = y := by omega
      have e4 : cy - y = y1 := by omega
      simp only [List.mem_cons, List.mem_singleton, List.not_mem_nil, or_false] at hp
      rcases hp with rfl | rfl | rfl | rfl <;> simp [e1, e2, e3, e4]
    rw [DrawEllipse.loop] at h
    split_ifs at h <;>
    first
    | (simp only [Option.some.injEq] at h
       subst h
       exact ⟨hbatch, by simp only; omega, by simp only; omega, by simp only; omega⟩)
    | (split at h
       · exact absurd h (by simp)
       · rename_i r1 hr1
         simp only [Option.some.injEq] at h
         subst h
         obtain ⟨h1, h2, h3, h4⟩ := ih _ _ _ _ _ _ _ r1 (by omega) (by omega) hr1
         refine ⟨?_, h2, h3, by simp only; omega⟩
         intro p hp
         simp only [List.mem_append] at hp ⊢
         rcases hp with hp | hp
         · exact ⟨Or.inl (hbatch p hp).1, Or.inl (hbatch p hp).2⟩
         · exact ⟨Or.inr (h1 p hp).1, Or.inr (h1 p hp).2⟩)

theorem DrawEllipse.tail_sym (b cx cy x x1 : Int) (hx : x + x1 = cx) (fuel : Nat) :
    ∀ (y y1 : Int) (r : List (Int × Int)), y + y1 = cy →
      DrawEllipse.tail b x x1 fuel y y1 = some r →
      ∀ p ∈ r, (cx - p.1, p.2) ∈ r ∧ (p.1, cy - p.2) ∈ r := by
  induction fuel with
  | zero =>
    intro y y1 r _ h
    simp only [DrawEllipse.tail] at h
    split_ifs at h
    simp only [Option.some.injEq] at h
    subst h
    simp
  | succ fuel ih =>
    intro y y1 r hy h
    rw [DrawEllipse.tail] at h
    split_ifs at h with hc
    · split at h
      · exact absurd h (by simp)
      · rename_i r1 hr1
        simp only [Option.some.injEq] at h
        subst h
        have h1 := ih _ _ r1 (by omega) hr1
        intro p hp
        simp only [List.mem_append] at hp ⊢
        rcases hp with hp | hp
        · have e1 : cx - (x1 + 1) = x - 1 := by omega
          have e2 : cx - (x - 1) = x1 + 1 := by omega
          have e3 : cy - y1 = y := by omega
          have e4 : cy - y = y1 := by omega
          simp only [List.mem_cons, List.mem_singleton, List.not_mem_nil, or_false] at hp
          rcases hp with rfl | rfl | rfl | rfl <;> simp [e1, e2, e3, e4]
        · exact ⟨Or.inr (h1 p hp).1, Or.inr (h1 p hp).2⟩
    · simp only [Option.some.injEq] at h
      subst h
      simp

theorem DrawEllipse.tail_terminates (b x x1 : Int) (n : Nat) :
    ∀ (y y1 : Int), b - (y - y1) ≤ 2 * (n : Int) →
      ∃ r, ∀ m : Nat, n ≤ m → DrawEllipse.tail b x x1 m y y1 = some r := by
  induction n with
  | zero =>
    intro y y1 h
    refine ⟨[], fun m _ => ?_⟩
    cases m with
    | zero => simp only [DrawEllipse.tail]; rw [if_neg (by omega)]
    | succ m => rw [DrawEllipse.tail, if_neg (by omega)]
  | succ n ih =>
    intro y y1 h
    by_cases hc : y - y1 < b
    · obtain ⟨r, hr⟩ := ih (y + 1) (y1 - 1) (by push_cast at h; omega)
      refine ⟨[(x - 1, y), (x1 + 1, y), (x - 1, y1), (x1 + 1, y1)] ++ r, fun m hm => ?_⟩
      cases m with
      | zero => omega
      | succ m =>
        rw [DrawEllipse.tail, if_pos hc, hr m (by omega)]
    · refine ⟨[], fun m _ => ?_⟩
      cases m with
      | zero => simp only [DrawEllipse.tail]; rw [if_neg hc]
      | succ m => rw [DrawEllipse.tail, if_neg hc]

theorem DrawEllipse.loop_terminates (a b1 D : Int) (ha : 1 ≤ a) (hb : 0 ≤ b1) (hD : 0 ≤ D)
    (n : Nat) :
    ∀ (s : Nat) (x x1 y y1 dx dy err : Int),
      0 ≤ dy → -D ≤ dx → x ≤ x1 → x1 - x < 2 * (s : Int) →
      ((dy - 2 * err).toNat : Int) + (s : Int) * (2 * D + 1) < (n : Int) →
      ∃ r, ∀ m : Nat, n ≤ m → DrawEllipse.loop a b1 m x x1 y y1 dx dy err = some r := by
  induction n with
  | zero =>
    intro s x x1 y y1 dx dy err _ _ hx hs hn
    have : 0 ≤ (s : Int) * (2 * D + 1) := mul_nonneg (by omega) (by omega)
    omega
  | succ n ih =>
    intro s x x1 y y1 dx dy err hdy hdx hx hs hn
    obtain ⟨s', rfl⟩ : ∃ s', s = s' + 1 := ⟨s - 1, by omega⟩
    have hmul : ((s' + 1 : Nat) : Int) * (2 * D + 1) = (s' : Int) * (2 * D + 1) + (2 * D + 1) := by
      push_cast; ring
    rw [hmul] at hn
    have hs0 : 0 ≤ (s' : Int) * (2 * D + 1) := mul_nonneg (by omega) (by omega)
    by_cases hY : 2 * err ≤ dy
    · by_cases hX : (2 * err ≥ dx ∨ 2 * (err + (dy + a)) > dy + a)
      · by_cases hc : x + 1 ≤ x1 - 1
        · obtain ⟨r, hr⟩ := ih s' (x + 1) (x1 - 1) (y + 1) (y1 - 1) (dx + b1) (dy + a)
            (err + (dy + a) + (dx + b1)) (by omega) (by omega) hc (by push_cast at hs; omega)
            (by omega)
          refine ⟨([(x1, y), (x, y), (x, y1), (x1, y1)] ++ r.1, r.2), fun m hm => ?_⟩
          obtain ⟨m', rfl⟩ : ∃ m', m = m' + 1 := ⟨m - 1, by omega⟩
          rw [DrawEllipse.loop]
          simp only [hY, hX, hc, if_true, decide_True, hr m' (by omega)]
        · refine ⟨([(x1, y), (x, y), (x, y1), (x1, y1)], x + 1, x1 - 1, y + 1, y1 - 1),
            fun m hm => ?_⟩
          obtain ⟨m', rfl⟩ : ∃ m', m = m' + 1 := ⟨m - 1, by omega⟩
          rw [DrawEllipse.loop]
          simp only [hY, hX, hc, if_true, if_false, decide_True]
      · obtain ⟨r, hr⟩ := ih (s' + 1) x x1 (y + 1) (y1 - 1) dx (dy + a)
          (err + (dy + a)) (by omega) (by omega) hx hs
          (by rw [hmul]; omega)
        refine ⟨([(x1, y), (x, y), (x, y1), (x1, y1)] ++ r.1, r.2), fun m hm => ?_⟩
        obtain ⟨m', rfl⟩ : ∃ m', m = m' + 1 := ⟨m - 1, by omega⟩
        rw [DrawEllipse.loop]
        simp only [hY, hX, hx, if_true, if_false, decide_False, Bool.false_eq_true,
          hr m' (by omega)]
    · have hX : (2 * err ≥ dx ∨ 2 * err > dy) := Or.inr (by omega)
      by_cases hc : x + 1 ≤ x1 - 1
      · obtain ⟨r, hr⟩ := ih s' (x + 1) (x1 - 1) y y1 (dx + b1) dy
          (err + (dx + b1)) (by omega) (by omega) hc (by push_cast at hs; omega)
          (by omega)
        refine ⟨([(x1, y), (x, y), (x, y1), (x1, y1)] ++ r.1, r.2), fun m hm => ?_⟩
        obtain ⟨m', rfl⟩ : ∃ m', m = m' + 1 := ⟨m - 1, by omega⟩
        rw [DrawEllipse.loop]
        simp only [hY, hX, hc, if_true, if_false, decide_True, hr m' (by omega)]
      · refine ⟨([(x1, y), (x, y), (x, y1), (x1, y1)], x + 1, x1 - 1, y, y1),
          fun m hm => ?_⟩
        obtain ⟨m', rfl⟩ : ∃ m', m = m' + 1 := ⟨m - 1, by omega⟩
        rw [DrawEllipse.loop]
        simp only [hY, hX, hc, if_true, if_false, decide_True]

/-- With `a == 0` the first iteration of the `do` loop steps `x` and the loop
ends. -/
theorem DrawEllipse.loop_zero_width (b1 : Int) (x y y1 dx dy err : Int)
    (h : 2 * err ≥ dx) :
    ∃ r, ∀ m : Nat, 1 ≤ m → DrawEllipse.loop 0 b1 m x x y y1 dx dy err = some r := by
  by_cases hY : 2 * err ≤ dy
  · refine ⟨([(x, y), (x, y), (x, y1), (x, y1)], x + 1, x - 1, y + 1, y1 - 1), fun m hm => ?_⟩
    obtain ⟨m', rfl⟩ : ∃ m', m = m' + 1 := ⟨m - 1, by omega⟩
    rw [DrawEllipse.loop]
    have hc : ¬ (x + 1 ≤ x - 1) := by omega
    simp only [hY, h, hc, true_or, if_true, if_false, decide_True]
  · refine ⟨([(x, y), (x, y), (x, y1), (x, y1)], x + 1, x - 1, y, y1), fun m hm => ?_⟩
    obtain ⟨m', rfl⟩ : ∃ m', m = m' + 1 := ⟨m - 1, by omega⟩
    rw [DrawEllipse.loop]
    have hc : ¬ (x + 1 ≤ x - 1) := by omega
    simp only [hY, h, hc, true_or, if_true, if_false, decide_True]

theorem DrawEllipse.loop_start (sizeX sizeY x y : Int) :
    ∃ r, ∀ m : Nat, DrawEllipse.fuel sizeX sizeY ≤ m →
      DrawEllipse.loop ((sizeX.natAbs : Int) * (8 * (sizeX.natAbs : Int)))
        (8 * (sizeY.natAbs : Int) * (sizeY.natAbs : Int)) m
        (if x > x + sizeX then x + sizeX else x)
        (if x > x + sizeX then x + sizeX + (sizeX.natAbs : Int) else x + sizeX)
        y (y - (sizeY.natAbs : Int) % 2)
        (4 * (1 - (sizeX.natAbs : Int)) * (sizeY.natAbs : Int) * (sizeY.natAbs : Int))
        (4 * ((sizeY.natAbs : Int) % 2 + 1) * (sizeX.natAbs : Int) * (sizeX.natAbs : Int))
        (4 * (1 - (sizeX.natAbs : Int)) * (sizeY.natAbs : Int) * (sizeY.natAbs : Int) +
          4 * ((sizeY.natAbs : Int) % 2 + 1) * (sizeX.natAbs : Int) * (sizeX.natAbs : Int) +
          (sizeY.natAbs : Int) % 2 * (sizeX.natAbs : Int) * (sizeX.natAbs : Int)) = some r := by
  generalize ha0 : (sizeX.natAbs : Int) = a0
  generalize hb0 : (sizeY.natAbs : Int) = b0
  have ha : 0 ≤ a0 := by omega
  have hb : 0 ≤ b0 := by omega
  have hbb : 0 ≤ b0 * b0 := mul_nonneg hb hb
  have haa : 0 ≤ a0 * a0 := mul_nonneg ha ha
  have hm2 : 0 ≤ b0 % 2 := by omega
  by_cases hz : a0 = 0
  · subst hz
    have hx : sizeX = 0 := by omega
    subst hx
    obtain ⟨r, hr⟩ := DrawEllipse.loop_zero_width (8 * b0 * b0) x y (y - b0 % 2)
      (4 * (1 - 0) * b0 * b0) (4 * (b0 % 2 + 1) * 0 * 0)
      (4 * (1 - 0) * b0 * b0 + 4 * (b0 % 2 + 1) * 0 * 0 + b0 % 2 * 0 * 0) (by nlinarith)
    refine ⟨r, fun m hm => ?_⟩
    have h1 : 1 ≤ m := by
      simp only [DrawEllipse.fuel] at hm
      omega
    have := hr m h1
    simpa using this
  · have ha1 : 1 ≤ a0 := by omega
    have hab : 0 ≤ a0 * (b0 * b0) := mul_nonneg ha hbb
    have hdy : 0 ≤ 4 * (b0 % 2 + 1) * a0 * a0 := by
      have : 0 ≤ (b0 % 2 + 1) * (a0 * a0) := mul_nonneg (by omega) haa
      nlinarith
    have hpar : 0 ≤ b0 % 2 * a0 * a0 := by
      have : 0 ≤ (b0 % 2) * (a0 * a0) := mul_nonneg hm2 haa
      nlinarith
    obtain ⟨r, hr⟩ := DrawEllipse.loop_terminates (a0 * (8 * a0)) (8 * b0 * b0)
      (4 * a0 * b0 * b0) (by nlinarith) (by nlinarith) (by nlinarith)
      (DrawEllipse.fuel sizeX sizeY) (sizeX.natAbs + 2)
      (if x > x + sizeX then x + sizeX else x)
      (if x > x + sizeX then x + sizeX + a0 else x + sizeX)
      y (y - b0 % 2)
      (4 * (1 - a0) * b0 * b0) (4 * (b0 % 2 + 1) * a0 * a0)
      (4 * (1 - a0) * b0 * b0 + 4 * (b0 % 2 + 1) * a0 * a0 + b0 % 2 * a0 * a0)
      hdy (by nlinarith) (by split_ifs <;> omega) (by simp only [Nat.cast_add, Nat.cast_ofNat, ha0]; split_ifs <;> omega)
      (by
        have h1 : ((4 * (b0 % 2 + 1) * a0 * a0 -
            2 * (4 * (1 - a0) * b0 * b0 + 4 * (b0 % 2 + 1) * a0 * a0 + b0 % 2 * a0 * a0)).toNat
              : Int) ≤ 2 * (4 * a0 * b0 * b0) := by
          have : 4 * (b0 % 2 + 1) * a0 * a0 -
            2 * (4 * (1 - a0) * b0 * b0 + 4 * (b0 % 2 + 1) * a0 * a0 + b0 % 2 * a0 * a0) ≤
              2 * (4 * a0 * b0 * b0) := by nlinarith
          have h0 : 0 ≤ 2 * (4 * a0 * b0 * b0) := by nlinarith
          omega
        simp only [DrawEllipse.fuel, Nat.cast_add, Nat.cast_mul, Nat.cast_ofNat, Nat.cast_one,
          ha0, hb0]
        nlinarith)
    exact ⟨r, hr⟩

/-- C27: `DrawEllipse(x, y, sizeX, sizeY)` returns (both loops reach their exit
within `DrawEllipse.fuel sizeX sizeY` iterations), and the set of positions it
plots is invariant under the reflection through the vertical and through the
horizontal centre line of the rectangle with corners `(x, y)` and
`(x + sizeX, y + sizeY)`: `(px, py)` is plotted iff `(2x + sizeX - px, py)` is,
and iff `(px, 2y + sizeY - py)` is.  This holds for every sign of the sizes. -/
theorem DrawEllipse_four_way_symmetric (x y sizeX sizeY : Int) :
    ∃ ps : List (Int × Int),
      (∀ fuel : Nat, DrawEllipse.fuel sizeX sizeY ≤ fuel →
        DrawEllipse.plots fuel x y sizeX sizeY = some ps) ∧
      ∀ px py : Int,
        ((px, py) ∈ ps ↔ (2 * x + sizeX - px, py) ∈ ps) ∧
        ((px, py) ∈ ps ↔ (px, 2 * y + sizeY - py) ∈ ps) := by
  obtain ⟨r, hr⟩ := DrawEllipse.loop_start sizeX sizeY x
    ((if y > y + sizeY then y + sizeY else y) + ((sizeY.natAbs : Int) + 1) / 2)
  obtain ⟨ps1, xf, x1f, yf, y1f⟩ := r
  have hcx : (if x > x + sizeX then x + sizeX else x) +
      (if x > x + sizeX then x + sizeX + (sizeX.natAbs : Int) else x + sizeX) =
        2 * x + sizeX := by
    split_ifs <;> omega
  have hcy : ((if y > y + sizeY then y + sizeY else y) + ((sizeY.natAbs : Int) + 1) / 2) +
      ((if y > y + sizeY then y + sizeY else y) + ((sizeY.natAbs : Int) + 1) / 2 -
        (sizeY.natAbs : Int) % 2) = 2 * y + sizeY := by
    split_ifs <;> omega
  obtain ⟨hs1, hxf, hyf, hyy⟩ := DrawEllipse.loop_sym _ _ (2 * x + sizeX) (2 * y + sizeY) _
    _ _ _ _ _ _ _ _ hcx hcy (hr _ (le_refl _))
  simp only at hxf hyf hyy
  obtain ⟨rt, hrt⟩ := DrawEllipse.tail_terminates (sizeY.natAbs : Int) xf x1f sizeY.natAbs yf y1f
    (by omega)
  have hs2 := DrawEllipse.tail_sym (sizeY.natAbs : Int) (2 * x + sizeX) (2 * y + sizeY) xf x1f hxf
    _ yf y1f rt hyf (hrt _ (le_refl _))
  have hsym : ∀ p ∈ ps1 ++ rt,
      (2 * x + sizeX - p.1, p.2) ∈ ps1 ++ rt ∧ (p.1, 2 * y + sizeY - p.2) ∈ ps1 ++ rt := by
    intro p hp
    simp only [List.mem_append] at hp ⊢
    rcases hp with hp | hp
    · exact ⟨Or.inl (hs1 p hp).1, Or.inl (hs1 p hp).2⟩
    · exact ⟨Or.inr (hs2 p hp).1, Or.inr (hs2 p hp).2⟩
  refine ⟨ps1 ++ rt, fun fuel hfuel => ?_, fun px py => ⟨⟨fun h => (hsym _ h).1, fun h => ?_⟩,
    ⟨fun h => (hsym _ h).2, fun h => ?_⟩⟩⟩
  · have hb : sizeY.natAbs ≤ fuel := by
      simp only [DrawEllipse.fuel] at hfuel
      omega
    have h1 := hr fuel hfuel
    have h2 := hrt fuel hb
    unfold DrawEllipse.plots
    simp only [add_sub_cancel_left, h1, h2]
  · have := (hsym _ h).1
    simpa using this
  · have := (hsym _ h).2
    simpa using this

end GameEngine

/-! ## Triangles -/

namespace GameEngine

theorem FillTriangle.plots_congr (fuel : Nat) (x1 y1 x2 y2 x3 y3 a1 b1 a2 b2 a3 b3 : Int)
    (h : FillTriangle.sort x1 y1 x2 y2 x3 y3 = FillTriangle.sort a1 b1 a2 b2 a3 b3) :
    FillTriangle.plots fuel x1 y1 x2 y2 x3 y3 = FillTriangle.plots fuel a1 b1 a2 b2 a3 b3 := by
  unfold FillTriangle.plots
  rw [h]

theorem FillTriangle.mem_draw_row (start stop y : Int) (p : Int × Int) :
    p ∈ FillTriangle.draw_line start stop y ↔ p.2 = y ∧ start ≤ p.1 ∧ p.1 ≤ stop := by
  obtain ⟨a, b⟩ := p
  unfold FillTriangle.draw_line
  simp only [List.mem_map, List.mem_range, Prod.mk.injEq]
  constructor
  · rintro ⟨k, hk, h1, h2⟩
    omega
  · rintro ⟨h1, h2, h3⟩
    exact ⟨(a - start).toNat, by omega, by omega, h1.symm⟩

/-- The span of a scanline is the row `y` between the least and the greatest of
the four edge positions. -/
theorem FillTriangle.mem_span (a b c d y : Int) (p : Int × Int) :
    p ∈ FillTriangle.span a b c d y ↔
      p.2 = y ∧ min (min a b) (min c d) ≤ p.1 ∧ p.1 ≤ max (max a b) (max c d) := by
  unfold FillTriangle.span
  simp only [FillTriangle.mem_draw_row]
  constructor
  · rintro ⟨h1, h2, h3⟩
    refine ⟨h1, ?_, ?_⟩
    · simp only [min_def]
      split_ifs at h2 ⊢ <;> omega
    · simp only [max_def]
      split_ifs at h3 ⊢ <;> omega
  · rintro ⟨h1, h2, h3⟩
    refine ⟨h1, ?_, ?_⟩
    · simp only [min_def] at h2
      split_ifs at h2 ⊢ <;> omega
    · simp only [max_def] at h3
      split_ifs at h3 ⊢ <;> omega

theorem FillTriangle.span_bounds (a b c d y lo hi : Int) (ha : lo ≤ a ∧ a ≤ hi)
    (hb : lo ≤ b ∧ b ≤ hi) (hc : lo ≤ c ∧ c ≤ hi) (hd : lo ≤ d ∧ d ≤ hi) (p : Int × Int)
    (hp : p ∈ FillTriangle.span a b c d y) : p.2 = y ∧ lo ≤ p.1 ∧ p.1 ≤ hi := by
  rw [FillTriangle.mem_span] at hp
  obtain ⟨h1, h2, h3⟩ := hp
  refine ⟨h1, ?_, ?_⟩
  · have : lo ≤ min (min a b) (min c d) := by
      simp only [le_min_iff]; omega
    omega
  · have : max (max a b) (max c d) ≤ hi := by
      simp only [max_le_iff]; omega
    omega

theorem FillTriangle.span_mem (a b c d y t : Int) (h : t = a ∨ t = b ∨ t = c ∨ t = d) :
    (t, y) ∈ FillTriangle.span a b c d y := by
  rw [FillTriangle.mem_span]
  refine ⟨rfl, ?_, ?_⟩
  · simp only [min_le_iff]
    rcases h with h | h | h | h <;> simp [h]
  · simp only [le_max_iff]
    rcases h with h | h | h | h <;> simp [h]

theorem FillTriangle.reduce_once (dx sign : Int) (fuel : Nat) (e txp : Int) (h : e < 2 * dx)
    (hf : 1 ≤ fuel) :
    FillTriangle.reduce dx sign fuel e txp =
      some (if e ≥ dx then (e - dx, sign) else (e, txp)) := by
  obtain ⟨f, rfl⟩ : ∃ f, fuel = f + 1 := ⟨fuel - 1, by omega⟩
  rw [FillTriangle.reduce]
  by_cases h1 : e ≥ dx
  · rw [if_pos h1, if_pos h1]
    cases f with
    | zero => rw [FillTriangle.reduce, if_neg (by omega)]
    | succ f => rw [FillTriangle.reduce, if_neg (by omega)]
  · rw [if_neg h1, if_neg h1]

/-- On a steep edge the number of columns stepped does not exceed `m` while
the row is at most `M`. -/
theorem FillTriangle.steep_le (M m k e n : Int) (hM : 0 < M) (hm : 0 ≤ m) (he : 0 ≤ e)
    (hr : e + n * M = M / 2 + k * m) (hk : k ≤ M) : n ≤ m := by
  by_contra hc
  have h1 : (m + 1) * M ≤ n * M := mul_le_mul_of_nonneg_right (by omega) (by omega)
  have h2 : k * m ≤ M * m := mul_le_mul_of_nonneg_right hk hm
  have h3 : (m + 1) * M = M * m + M := by ring
  omega

/-- On a steep edge all `m` columns are stepped when the row `M` is reached. -/
theorem FillTriangle.steep_last (M m e n : Int) (hM : 0 < M) (he : e < M)
    (hr : e + n * M = M / 2 + M * m) : m ≤ n := by
  by_contra hc
  have h1 : n * M ≤ (m - 1) * M := mul_le_mul_of_nonneg_right (by omega) (by omega)
  have h3 : (m - 1) * M = M * m - M := by ring
  omega

/-- On a shallow edge, while the error term is below `M` on a row before the
last, a column is left to step. -/
theorem FillTriangle.shallow_lt (M m k e n : Int) (hk0 : 0 ≤ k) (hk : k + 1 ≤ m) (he : e < M)
    (hr : e + k * M = M / 2 + n * m) (hmM : m ≤ M) : n < M := by
  by_contra hc
  have h1 : M * m ≤ n * m := mul_le_mul_of_nonneg_right (by omega) (by omega)
  have h2 : (k + 1) * M ≤ m * M := mul_le_mul_of_nonneg_right hk (by omega)
  have h3 : (k + 1) * M = k * M + M := by ring
  have h4 : m * M = M * m := by ring
  omega

/-- On a shallow edge the columns stepped at the start of a row do not exceed
`M` while the row is at most `m`. -/
theorem FillTriangle.shallow_le (M m k e n : Int) (hM : 0 ≤ M) (hm : 0 ≤ m)
    (hk : k ≤ m) (hr : e + k * M = M / 2 + n * m) (he : e < m ∨ (k = 0 ∧ n = 0)) : n ≤ M := by
  rcases he with he | ⟨_, h0⟩
  · by_contra hc
    have h1 : (M + 1) * m ≤ n * m := mul_le_mul_of_nonneg_right (by omega) hm
    have h2 : k * M ≤ m * M := mul_le_mul_of_nonneg_right hk hM
    have h3 : (M + 1) * m = m * M + m := by ring
    omega
  · omega

/-- On the last row of a shallow edge a step before the last column does not
overflow the error term. -/
theorem FillTriangle.shallow_last (M m e n : Int) (hm : 0 ≤ m) (hn0 : 0 ≤ n) (hn : n < M)
    (hr : e + m * M = M / 2 + n * m) : e + m < M := by
  have h1 : (n + 1) * m ≤ M * m := mul_le_mul_of_nonneg_right (by omega) hm
  have h3 : (n + 1) * m = n * m + m := by ring
  have h4 : m * M = M * m := by ring
  omega

/-- The walk of a shallow edge along a row before its last row, by `walk2`:
it steps columns until the error term overflows. -/
theorem FillTriangle.walk2_shallow (sign M m xa k : Int) (hk0 : 0 ≤ k)
    (hk : k + 1 ≤ m) (hmM : m ≤ M) (N : Nat) :
    ∀ (n e tp : Int), 0 ≤ n → 0 ≤ e → e < M → e + k * M = M / 2 + n * m → M - n ≤ N →
      ∃ na e', n ≤ na ∧ 0 ≤ e' ∧ e' < m ∧ e' + (k + 1) * M = M / 2 + (na + 1) * m ∧
        ∀ fuel0 fuel : Nat, N ≤ fuel →
          FillTriangle.walk2 false sign M m fuel0 fuel e (xa + sign * n) tp =
            some (e', xa + sign * na, tp) := by
  induction N with
  | zero =>
    intro n e tp _ _ he hr hN
    have := FillTriangle.shallow_lt M m k e n hk0 hk he hr hmM
    omega
  | succ N ih =>
    intro n e tp hn he0 he hr hN
    have hlt := FillTriangle.shallow_lt M m k e n hk0 hk he hr hmM
    have r1 : (k + 1) * M = k * M + M := by ring
    have r2 : (n + 1) * m = n * m + m := by ring
    by_cases ho : e + m ≥ M
    · refine ⟨n, e + m - M, le_refl _, by omega, by omega, by omega, fun fuel0 fuel hf => ?_⟩
      obtain ⟨f, rfl⟩ : ∃ f, fuel = f + 1 := ⟨fuel - 1, by omega⟩
      rw [FillTriangle.walk2]
      simp only [Bool.false_eq_true, if_false, if_pos ho]
    · obtain ⟨na, e', h1, h2, h3, h4, h5⟩ := ih (n + 1) (e + m) tp (by omega) (by omega)
        (by omega) (by omega) (by omega)
      refine ⟨na, e', by omega, h2, h3, h4, fun fuel0 fuel hf => ?_⟩
      obtain ⟨f, rfl⟩ : ∃ f, fuel = f + 1 := ⟨fuel - 1, by omega⟩
      rw [FillTriangle.walk2]
      simp only [Bool.false_eq_true, if_false, if_neg ho]
      have ht : xa + sign * n + sign = xa + sign * (n + 1) := by ring
      rw [ht]
      exact h5 fuel0 f (by omega)

/-- The walk of a shallow edge along a row before its last row, by `walk1`,
whose counter `i` is the number of columns stepped. -/
theorem FillTriangle.walk1_shallow (sign M m xa k : Int) (hk0 : 0 ≤ k)
    (hk : k + 1 ≤ m) (hmM : m ≤ M) (N : Nat) :
    ∀ (n e tp : Int), 0 ≤ n → 0 ≤ e → e < M → e + k * M = M / 2 + n * m → M - n ≤ N →
      ∃ na e', n ≤ na ∧ 0 ≤ e' ∧ e' < m ∧ e' + (k + 1) * M = M / 2 + (na + 1) * m ∧
        ∀ fuel0 fuel : Nat, N ≤ fuel →
          FillTriangle.walk1 false sign M m fuel0 fuel n e (xa + sign * n) tp =
            some (na + 1, e', xa + sign * na, tp) := by
  induction N with
  | zero =>
    intro n e tp _ _ he hr hN
    have := FillTriangle.shallow_lt M m k e n hk0 hk he hr hmM
    omega
  | succ N ih =>
    intro n e tp hn he0 he hr hN
    have hlt := FillTriangle.shallow_lt M m k e n hk0 hk he hr hmM
    have r1 : (k + 1) * M = k * M + M := by ring
    have r2 : (n + 1) * m = n * m + m := by ring
    by_cases ho : e + m ≥ M
    · refine ⟨n, e + m - M, le_refl _, by omega, by omega, by omega, fun fuel0 fuel hf => ?_⟩
      obtain ⟨f, rfl⟩ : ∃ f, fuel = f + 1 := ⟨fuel - 1, by omega⟩
      rw [FillTriangle.walk1]
      simp only [Bool.false_eq_true, if_false, if_pos ho, if_pos hlt]
    · obtain ⟨na, e', h1, h2, h3, h4, h5⟩ := ih (n + 1) (e + m) tp (by omega) (by omega)
        (by omega) (by omega) (by omega)
      refine ⟨na, e', by omega, h2, h3, h4, fun fuel0 fuel hf => ?_⟩
      obtain ⟨f, rfl⟩ : ∃ f, fuel = f + 1 := ⟨fuel - 1, by omega⟩
      rw [FillTriangle.walk1]
      simp only [Bool.false_eq_true, if_false, if_neg ho, if_pos hlt]
      have ht : xa + sign * n + sign = xa + sign * (n + 1) := by ring
      rw [ht]
      exact h5 fuel0 f (by omega)

/-- The walk of a shallow edge along a row before its last row, by `walk3`. -/
theorem FillTriangle.walk3_shallow (sign M m xa k : Int) (hk0 : 0 ≤ k)
    (hk : k + 1 ≤ m) (hmM : m ≤ M) (N : Nat) :
    ∀ (n e tp : Int), 0 ≤ n → 0 ≤ e → e < M → e + k * M = M / 2 + n * m → M - n ≤ N →
      ∃ na e', n ≤ na ∧ 0 ≤ e' ∧ e' < m ∧ e' + (k + 1) * M = M / 2 + (na + 1) * m ∧
        ∀ fuel : Nat, N ≤ fuel →
          FillTriangle.walk3 false sign M m fuel n e (xa + sign * n) tp =
            some (na, e', xa + sign * na, tp) := by
  induction N with
  | zero =>
    intro n e tp _ _ he hr hN
    have := FillTriangle.shallow_lt M m k e n hk0 hk he hr hmM
    omega
  | succ N ih =>
    intro n e tp hn he0 he hr hN
    have hlt := FillTriangle.shallow_lt M m k e n hk0 hk he hr hmM
    have r1 : (k + 1) * M = k * M + M := by ring
    have r2 : (n + 1) * m = n * m + m := by ring
    by_cases ho : e + m ≥ M
    · refine ⟨n, e + m - M, le_refl _, by omega, by omega, by omega, fun fuel hf => ?_⟩
      obtain ⟨f, rfl⟩ : ∃ f, fuel = f + 1 := ⟨fuel - 1, by omega⟩
      rw [FillTriangle.walk3]
      simp only [Bool.false_eq_true, if_false, if_pos ho, if_pos hlt]
    · obtain ⟨na, e', h1, h2, h3, h4, h5⟩ := ih (n + 1) (e + m) tp (by omega) (by omega)
        (by omega) (by omega) (by omega)
      refine ⟨na, e', by omega, h2, h3, h4, fun fuel hf => ?_⟩
      obtain ⟨f, rfl⟩ : ∃ f, fuel = f + 1 := ⟨fuel - 1, by omega⟩
      rw [FillTriangle.walk3]
      simp only [Bool.false_eq_true, if_false, if_neg ho, if_pos hlt]
      have ht : xa + sign * n + sign = xa + sign * (n + 1) := by ring
      rw [ht]
      exact h5 f (by omega)

theorem FillTriangle.ne_target (sign xa n M : Int) (hs : sign = 1 ∨ sign = -1) :
    xa + sign * n ≠ xa + sign * M ↔ n ≠ M := by
  rcases hs with rfl | rfl <;> omega

/-- The walk of a shallow edge along a row before its last row, by `walk4`. -/
theorem FillTriangle.walk4_shallow (sign M m xa k : Int)
    (hs : sign = 1 ∨ sign = -1) (hk0 : 0 ≤ k)
    (hk : k + 1 ≤ m) (hmM : m ≤ M) (N : Nat) :
    ∀ (n e tp : Int), 0 ≤ n → 0 ≤ e → e < M → e + k * M = M / 2 + n * m → M - n ≤ N →
      ∃ na e', n ≤ na ∧ 0 ≤ e' ∧ e' < m ∧ e' + (k + 1) * M = M / 2 + (na + 1) * m ∧
        ∀ fuel0 fuel : Nat, N ≤ fuel →
          FillTriangle.walk4 false sign M m (xa + sign * M) fuel0 fuel e (xa + sign * n) tp =
            some (e', xa + sign * na, tp) := by
  induction N with
  | zero =>
    intro n e tp _ _ he hr hN
    have := FillTriangle.shallow_lt M m k e n hk0 hk he hr hmM
    omega
  | succ N ih =>
    intro n e tp hn he0 he hr hN
    have hlt := FillTriangle.shallow_lt M m k e n hk0 hk he hr hmM
    have hne : xa + sign * n ≠ xa + sign * M :=
      (FillTriangle.ne_target sign xa n M hs).2 (by omega)
    have r1 : (k + 1) * M = k * M + M := by ring
    have r2 : (n + 1) * m = n * m + m := by ring
    by_cases ho : e + m ≥ M
    · refine ⟨n, e + m - M, le_refl _, by omega, by omega, by omega, fun fuel0 fuel hf => ?_⟩
      obtain ⟨f, rfl⟩ : ∃ f, fuel = f + 1 := ⟨fuel - 1, by omega⟩
      rw [FillTriangle.walk4]
      simp only [Bool.false_eq_true, if_false, if_pos ho, if_pos hne]
    · obtain ⟨na, e', h1, h2, h3, h4, h5⟩ := ih (n + 1) (e + m) tp (by omega) (by omega)
        (by omega) (by omega) (by omega)
      refine ⟨na, e', by omega, h2, h3, h4, fun fuel0 fuel hf => ?_⟩
      obtain ⟨f, rfl⟩ : ∃ f, fuel = f + 1 := ⟨fuel - 1, by omega⟩
      rw [FillTriangle.walk4]
      simp only [Bool.false_eq_true, if_false, if_neg ho, if_pos hne]
      have ht : xa + sign * n + sign = xa + sign * (n + 1) := by ring
      rw [ht]
      exact h5 fuel0 f (by omega)

/-- The walk of a shallow edge along its last row, by `walk3`: it steps to the
last column without an overflow of the error term. -/
theorem FillTriangle.walk3_shallow_last (sign M m xa : Int) (hm : 0 ≤ m) (N : Nat) :
    ∀ (n e tp : Int), 0 ≤ n → n ≤ M → e + m * M = M / 2 + n * m → M - n ≤ N →
      ∃ e', ∀ fuel : Nat, N + 1 ≤ fuel →
        FillTriangle.walk3 false sign M m fuel n e (xa + sign * n) tp =
          some (M, e', xa + sign * M, tp) := by
  induction N with
  | zero =>
    intro n e tp hn hnM hr hN
    have : n = M := by omega
    subst this
    refine ⟨e, fun fuel hf => ?_⟩
    obtain ⟨f, rfl⟩ : ∃ f, fuel = f + 1 := ⟨fuel - 1, by omega⟩
    rw [FillTriangle.walk3]
    simp only [lt_irrefl, if_false]
  | succ N ih =>
    intro n e tp hn hnM hr hN
    by_cases hlt : n < M
    · have ho := FillTriangle.shallow_last M m e n hm hn hlt hr
      have r2 : (n + 1) * m = n * m + m := by ring
      obtain ⟨e', h5⟩ := ih (n + 1) (e + m) tp (by omega) (by omega) (by omega) (by omega)
      refine ⟨e', fun fuel hf => ?_⟩
      obtain ⟨f, rfl⟩ : ∃ f, fuel = f + 1 := ⟨fuel - 1, by omega⟩
      rw [FillTriangle.walk3]
      simp only [Bool.false_eq_true, if_false, if_neg (show ¬ (e + m ≥ M) by omega), if_pos hlt]
      have ht : xa + sign * n + sign = xa + sign * (n + 1) := by ring
      rw [ht]
      exact h5 f (by omega)
    · have : n = M := by omega
      subst this
      refine ⟨e, fun fuel hf => ?_⟩
      obtain ⟨f, rfl⟩ : ∃ f, fuel = f + 1 := ⟨fuel - 1, by omega⟩
      rw [FillTriangle.walk3]
      simp only [lt_irrefl, if_false]

/-- The walk of a shallow edge along its last row, by `walk4`. -/
theorem FillTriangle.walk4_shallow_last (sign M m xa : Int)
    (hs : sign = 1 ∨ sign = -1) (hm : 0 ≤ m) (N : Nat) :
    ∀ (n e tp : Int), 0 ≤ n → n ≤ M → e + m * M = M / 2 + n * m → M - n ≤ N →
      ∃ e', ∀ fuel0 fuel : Nat, N + 1 ≤ fuel →
        FillTriangle.walk4 false sign M m (xa + sign * M) fuel0 fuel e (xa + sign * n) tp =
          some (e', xa + sign * M, tp) := by
  induction N with
  | zero =>
    intro n e tp hn hnM hr hN
    have : n = M := by omega
    subst this
    refine ⟨e, fun fuel0 fuel hf => ?_⟩
    obtain ⟨f, rfl⟩ : ∃ f, fuel = f + 1 := ⟨fuel - 1, by omega⟩
    rw [FillTriangle.walk4]
    simp only [ne_eq, not_true_eq_false, if_false]
  | succ N ih =>
    intro n e tp hn hnM hr hN
    by_cases hlt : n < M
    · have ho := FillTriangle.shallow_last M m e n hm hn hlt hr
      have hne : xa + sign * n ≠ xa + sign * M :=
        (FillTriangle.ne_target sign xa n M hs).2 (by omega)
      have r2 : (n + 1) * m = n * m + m := by ring
      obtain ⟨e', h5⟩ := ih (n + 1) (e + m) tp (by omega) (by omega) (by omega) (by omega)
      refine ⟨e', fun fuel0 fuel hf => ?_⟩
      obtain ⟨f, rfl⟩ : ∃ f, fuel = f + 1 := ⟨fuel - 1, by omega⟩
      rw [FillTriangle.walk4]
      simp only [Bool.false_eq_true, if_false, if_neg (show ¬ (e + m ≥ M) by omega), if_pos hne]
      have ht : xa + sign * n + sign = xa + sign * (n + 1) := by ring
      rw [ht]
      exact h5 fuel0 f (by omega)
    · have : n = M := by omega
      subst this
      refine ⟨e, fun fuel0 fuel hf => ?_⟩
      obtain ⟨f, rfl⟩ : ∃ f, fuel = f + 1 := ⟨fuel - 1, by omega⟩
      rw [FillTriangle.walk4]
      simp only [ne_eq, not_true_eq_false, if_false]

theorem FillTriangle.Track_le (changed : Bool) (sign M m dx dy k e n : Int)
    (hok : FillTriangle.EdgeOK changed sign M m dx dy) (htr : FillTriangle.Track changed M m k e n)
    (hk : k ≤ dy) : n ≤ dx := by
  obtain ⟨_, hdx, hdy, hmode⟩ := hok
  obtain ⟨hn, he, htr⟩ := htr
  cases changed with
  | true =>
    simp only [if_true] at hmode htr
    obtain ⟨rfl, rfl, hlt⟩ := hmode
    exact FillTriangle.steep_le _ _ k e n (by omega) hdx he htr.2 hk
  | false =>
    simp only [Bool.false_eq_true, if_false] at hmode htr
    obtain ⟨rfl, rfl, hle⟩ := hmode
    exact FillTriangle.shallow_le _ _ k e n hdx hdy hk htr.1 htr.2

theorem FillTriangle.TrackG_le (changed : Bool) (sign M m dx dy k e n : Int)
    (hok : FillTriangle.EdgeOK changed sign M m dx dy)
    (htr : FillTriangle.TrackG changed M m k e n) (hk : k ≤ dy) : n ≤ dx := by
  obtain ⟨_, hdx, hdy, hmode⟩ := hok
  obtain ⟨hn, he, htr⟩ := htr
  cases changed with
  | true =>
    simp only [if_true] at hmode htr
    obtain ⟨rfl, rfl, hlt⟩ := hmode
    rcases htr.2 with h | h
    · omega
    · exact FillTriangle.steep_le _ _ k e n (by omega) hdx he h hk
  | false =>
    simp only [Bool.false_eq_true, if_false] at hmode htr
    obtain ⟨rfl, rfl, hle⟩ := hmode
    exact FillTriangle.shallow_le _ _ k e n hdx hdy hk htr.1 htr.2

theorem FillTriangle.Track_toG (changed : Bool) (M m k e n : Int)
    (htr : FillTriangle.Track changed M m k e n) : FillTriangle.TrackG changed M m k e n := by
  obtain ⟨hn, he, htr⟩ := htr
  refine ⟨hn, he, ?_⟩
  cases changed with
  | true =>
    simp only [if_true] at htr ⊢
    exact ⟨htr.1, Or.inr htr.2⟩
  | false =>
    simp only [Bool.false_eq_true, if_false] at htr ⊢
    exact htr

/-- The state in which both halves start an edge: no column stepped, the error
term at `M / 2`. -/
theorem FillTriangle.Track_init (changed : Bool) (sign M m dx dy : Int)
    (hok : FillTriangle.EdgeOK changed sign M m dx dy) :
    FillTriangle.Track changed M m 0 (M / 2) 0 := by
  obtain ⟨_, hdx, hdy, hmode⟩ := hok
  cases changed with
  | true =>
    simp only [if_true] at hmode
    obtain ⟨rfl, rfl, hlt⟩ := hmode
    refine ⟨le_refl _, by omega, ?_⟩
    simp only [if_true]
    constructor
    · omega
    · ring
  | false =>
    simp only [Bool.false_eq_true, if_false] at hmode
    obtain ⟨rfl, rfl, hle⟩ := hmode
    refine ⟨le_refl _, by omega, ?_⟩
    simp

/-- One row of `walk1` on an edge before its last row. -/
theorem FillTriangle.walk1_row (changed : Bool) (sign M m dx dy xa k e n : Int)
    (hok : FillTriangle.EdgeOK changed sign M m dx dy) (hk0 : 0 ≤ k) (hk : k < dy)
    (htr : FillTriangle.Track changed M m k e n) :
    ∃ i' e' na tp n', n ≤ na ∧ na ≤ n' ∧
      FillTriangle.Track changed M m (k + 1) e' n' ∧
      i' = (if changed then k + 1 else n') ∧
      (if !changed then xa + sign * na + sign else xa + sign * na) + tp = xa + sign * n' ∧
      (if changed then k else n) < M ∧
      ∀ fuel0 fuel : Nat, 1 ≤ fuel0 → M < fuel →
        FillTriangle.walk1 changed sign M m fuel0 fuel (if changed then k else n) e
          (xa + sign * n) 0 = some (i', e', xa + sign * na, tp) := by
  obtain ⟨hs, hdx, hdy, hmode⟩ := hok
  obtain ⟨hn, he, htr⟩ := htr
  cases changed with
  | true =>
    simp only [if_true] at hmode htr
    obtain ⟨rfl, rfl, hlt⟩ := hmode
    obtain ⟨heM, hr⟩ := htr
    have r1 : (n + 1) * M = n * M + M := by ring
    have r2 : (k + 1) * m = k * m + m := by ring
    by_cases ho : e + m ≥ M
    · refine ⟨k + 1, e + m - M, n, sign, n + 1, le_refl _, by omega,
        ⟨by omega, by omega, ?_⟩, by simp, ?_, by simpa using hk, fun fuel0 fuel hf0 hf => ?_⟩
      · simp only [if_true]
        constructor <;> omega
      · simp only [Bool.not_true, Bool.false_eq_true, if_false]
        ring
      · obtain ⟨f, rfl⟩ : ∃ f, fuel = f + 1 := ⟨fuel - 1, by omega⟩
        simp only [if_true]
        rw [FillTriangle.walk1]
        simp only [if_pos hk, if_true,
          FillTriangle.reduce_once M sign fuel0 (e + m) 0 (by omega) hf0, if_pos ho]
    · refine ⟨k + 1, e + m, n, 0, n, le_refl _, le_refl _,
        ⟨by omega, by omega, ?_⟩, by simp, ?_, by simpa using hk, fun fuel0 fuel hf0 hf => ?_⟩
      · simp only [if_true]
        constructor <;> omega
      · simp only [Bool.not_true, Bool.false_eq_true, if_false]
        ring
      · obtain ⟨f, rfl⟩ : ∃ f, fuel = f + 1 := ⟨fuel - 1, by omega⟩
        simp only [if_true]
        rw [FillTriangle.walk1]
        simp only [if_pos hk, if_true,
          FillTriangle.reduce_once M sign fuel0 (e + m) 0 (by omega) hf0, if_neg ho]
  | false =>
    simp only [Bool.false_eq_true, if_false] at hmode htr
    obtain ⟨rfl, rfl, hle⟩ := hmode
    obtain ⟨hr, hem⟩ := htr
    have heM : e < M := by
      rcases hem with h | ⟨h1, h2⟩
      · omega
      · subst h1; subst h2
        simp only [zero_mul, add_zero] at hr
        omega
    have hlt := FillTriangle.shallow_lt M m k e n hk0 (by omega) heM hr hle
    obtain ⟨na, e', h1, h2, h3, h4, h5⟩ := FillTriangle.walk1_shallow sign M m xa k hk0
      (by omega) hle (M - n).toNat n e 0 hn he heM hr (by omega)
    refine ⟨na + 1, e', na, 0, na + 1, h1, by omega, ⟨by omega, h2, ?_⟩, by simp, ?_,
      by simpa using hlt, fun fuel0 fuel hf0 hf => ?_⟩
    · simp only [Bool.false_eq_true, if_false]
      exact ⟨h4, Or.inl h3⟩
    · simp only [Bool.not_false, if_true]
      ring
    · simp only [Bool.false_eq_true, if_false]
      exact h5 fuel0 fuel (by omega)

/-- One row of `walk2` on an edge before its last row. -/
theorem FillTriangle.walk2_row (changed : Bool) (sign M m dx dy xa k e n : Int)
    (hok : FillTriangle.EdgeOK changed sign M m dx dy) (hk0 : 0 ≤ k) (hk : k < dy)
    (htr : FillTriangle.Track changed M m k e n) :
    ∃ e' na tp n', n ≤ na ∧ na ≤ n' ∧
      FillTriangle.Track changed M m (k + 1) e' n' ∧
      (if !changed then xa + sign * na + sign else xa + sign * na) + tp = xa + sign * n' ∧
      ∀ fuel0 fuel : Nat, 1 ≤ fuel0 → M < fuel →
        FillTriangle.walk2 changed sign M m fuel0 fuel e (xa + sign * n) 0 =
          some (e', xa + sign * na, tp) := by
  obtain ⟨hs, hdx, hdy, hmode⟩ := hok
  obtain ⟨hn, he, htr⟩ := htr
  cases changed with
  | true =>
    simp only [if_true] at hmode htr
    obtain ⟨rfl, rfl, hlt⟩ := hmode
    obtain ⟨heM, hr⟩ := htr
    have r1 : (n + 1) * M = n * M + M := by ring
    have r2 : (k + 1) * m = k * m + m := by ring
    by_cases ho : e + m ≥ M
    · refine ⟨e + m - M, n, sign, n + 1, le_refl _, by omega,
        ⟨by omega, by omega, ?_⟩, ?_, fun fuel0 fuel hf0 hf => ?_⟩
      · simp only [if_true]
        constructor <;> omega
      · simp only [Bool.not_true, Bool.false_eq_true, if_false]
        ring
      · obtain ⟨f, rfl⟩ : ∃ f, fuel = f + 1 := ⟨fuel - 1, by omega⟩
        rw [FillTriangle.walk2]
        simp only [if_true,
          FillTriangle.reduce_once M sign fuel0 (e + m) 0 (by omega) hf0, if_pos ho]
    · refine ⟨e + m, n, 0, n, le_refl _, le_refl _,
        ⟨by omega, by omega, ?_⟩, ?_, fun fuel0 fuel hf0 hf => ?_⟩
      · simp only [if_true]
        constructor <;> omega
      · simp only [Bool.not_true, Bool.false_eq_true, if_false]
        ring
      · obtain ⟨f, rfl⟩ : ∃ f, fuel = f + 1 := ⟨fuel - 1, by omega⟩
        rw [FillTriangle.walk2]
        simp only [if_true,
          FillTriangle.reduce_once M sign fuel0 (e + m) 0 (by omega) hf0, if_neg ho]
  | false =>
    simp only [Bool.false_eq_true, if_false] at hmode htr
    obtain ⟨rfl, rfl, hle⟩ := hmode
    obtain ⟨hr, hem⟩ := htr
    have heM : e < M := by
      rcases hem with h | ⟨h1, h2⟩
      · omega
      · subst h1; subst h2
        simp only [zero_mul, add_zero] at hr
        omega
    obtain ⟨na, e', h1, h2, h3, h4, h5⟩ := FillTriangle.walk2_shallow sign M m xa k hk0
      (by omega) hle (M - n).toNat n e 0 hn he heM hr (by omega)
    refine ⟨e', na, 0, na + 1, h1, by omega, ⟨by omega, h2, ?_⟩, ?_,
      fun fuel0 fuel hf0 hf => ?_⟩
    · simp only [Bool.false_eq_true, if_false]
      exact ⟨h4, Or.inl h3⟩
    · simp only [Bool.not_false, if_true]
      ring
    · exact h5 fuel0 fuel (by omega)

/-- One row of `walk3` on an edge before its last row. -/
theorem FillTriangle.walk3_row (changed : Bool) (sign M m dx dy xa k e n : Int)
    (hok : FillTriangle.EdgeOK changed sign M m dx dy) (hk0 : 0 ≤ k) (hk : k < dy)
    (htr : FillTriangle.Track changed M m k e n) :
    ∃ i' e' na tp n', n ≤ na ∧ na ≤ n' ∧
      FillTriangle.Track changed M m (k + 1) e' n' ∧
      i' + 1 = (if changed then k + 1 else n') ∧
      (if !changed then xa + sign * na + sign else xa + sign * na) + tp = xa + sign * n' ∧
      (if changed then k else n) ≤ M ∧
      ∀ fuel : Nat, M < fuel →
        FillTriangle.walk3 changed sign M m fuel (if changed then k else n) e
          (xa + sign * n) 0 = some (i', e', xa + sign * na, tp) := by
  obtain ⟨hs, hdx, hdy, hmode⟩ := hok
  obtain ⟨hn, he, htr⟩ := htr
  cases changed with
  | true =>
    simp only [if_true] at hmode htr
    obtain ⟨rfl, rfl, hlt⟩ := hmode
    obtain ⟨heM, hr⟩ := htr
    have r1 : (n + 1) * M = n * M + M := by ring
    have r2 : (k + 1) * m = k * m + m := by ring
    by_cases ho : e + m ≥ M
    · refine ⟨k, e + m - M, n, sign, n + 1, le_refl _, by omega,
        ⟨by omega, by omega, ?_⟩, by simp, ?_, by simp; omega, fun fuel hf => ?_⟩
      · simp only [if_true]
        constructor <;> omega
      · simp only [Bool.not_true, Bool.false_eq_true, if_false]
        ring
      · obtain ⟨f, rfl⟩ : ∃ f, fuel = f + 1 := ⟨fuel - 1, by omega⟩
        simp only [if_true]
        rw [FillTriangle.walk3]
        simp only [if_pos hk, if_true, if_pos ho]
    · refine ⟨k, e + m, n, 0, n, le_refl _, le_refl _,
        ⟨by omega, by omega, ?_⟩, by simp, ?_, by simp; omega, fun fuel hf => ?_⟩
      · simp only [if_true]
        constructor <;> omega
      · simp only [Bool.not_true, Bool.false_eq_true, if_false]
        ring
      · obtain ⟨f, rfl⟩ : ∃ f, fuel = f + 1 := ⟨fuel - 1, by omega⟩
        simp only [if_true]
        rw [FillTriangle.walk3]
        simp only [if_pos hk, if_true, if_neg ho]
  | false =>
    simp only [Bool.false_eq_true, if_false] at hmode htr
    obtain ⟨rfl, rfl, hle⟩ := hmode
    obtain ⟨hr, hem⟩ := htr
    have heM : e < M := by
      rcases hem with h | ⟨h1, h2⟩
      · omega
      · subst h1; subst h2
        simp only [zero_mul, add_zero] at hr
        omega
    have hlt := FillTriangle.shallow_lt M m k e n hk0 (by omega) heM hr hle
    obtain ⟨na, e', h1, h2, h3, h4, h5⟩ := FillTriangle.walk3_shallow sign M m xa k hk0
      (by omega) hle (M - n).toNat n e 0 hn he heM hr (by omega)
    refine ⟨na, e', na, 0, na + 1, h1, by omega, ⟨by omega, h2, ?_⟩, by simp, ?_,
      by simp; omega, fun fuel hf => ?_⟩
    · simp only [Bool.false_eq_true, if_false]
      exact ⟨h4, Or.inl h3⟩
    · simp only [Bool.not_false, if_true]
      ring
    · simp only [Bool.false_eq_true, if_false]
      exact h5 fuel (by omega)

/-- The last row of an edge in `walk3`: the walk ends in the last column. -/
theorem FillTriangle.walk3_last (changed : Bool) (sign M m dx dy xa e n : Int)
    (hok : FillTriangle.EdgeOK changed sign M m dx dy)
    (htr : FillTriangle.Track changed M m dy e n) :
    ∃ i' e' tp, n ≤ dx ∧ (if changed then dy else n) ≤ M ∧
      ∀ fuel : Nat, M < fuel →
        FillTriangle.walk3 changed sign M m fuel (if changed then dy else n) e
          (xa + sign * n) 0 = some (i', e', xa + sign * dx, tp) := by
  have hle := FillTriangle.Track_le changed sign M m dx dy dy e n hok htr (le_refl _)
  obtain ⟨hs, hdx, hdy, hmode⟩ := hok
  obtain ⟨hn, he, htr⟩ := htr
  cases changed with
  | true =>
    simp only [if_true] at hmode htr
    obtain ⟨rfl, rfl, hlt⟩ := hmode
    obtain ⟨heM, hr⟩ := htr
    have hge := FillTriangle.steep_last M m e n (by omega) heM hr
    have hnm : n = m := by omega
    subst hnm
    refine ⟨M, e, 0, le_refl _, by simp, fun fuel hf => ?_⟩
    obtain ⟨f, rfl⟩ : ∃ f, fuel = f + 1 := ⟨fuel - 1, by omega⟩
    simp only [if_true]
    rw [FillTriangle.walk3]
    simp only [lt_irrefl, if_false]
  | false =>
    simp only [Bool.false_eq_true, if_false] at hmode htr
    obtain ⟨rfl, rfl, hle2⟩ := hmode
    obtain ⟨hr, hem⟩ := htr
    obtain ⟨e', h5⟩ := FillTriangle.walk3_shallow_last sign M m xa hdy (M - n).toNat n e 0 hn
      hle hr (by omega)
    refine ⟨M, e', 0, hle, by simpa using hle, fun fuel hf => ?_⟩
    simp only [Bool.false_eq_true, if_false]
    exact h5 fuel (by omega)

/-- One row of `walk4` on the long edge before its last row. -/
theorem FillTriangle.walk4_row (changed : Bool) (sign M m dx dy xa k e n : Int)
    (hok : FillTriangle.EdgeOK changed sign M m dx dy) (hk0 : 0 ≤ k) (hk : k < dy)
    (htr : FillTriangle.TrackG changed M m k e n) :
    ∃ e' na tp n', n ≤ na ∧ na ≤ n' ∧
      FillTriangle.TrackG changed M m (k + 1) e' n' ∧
      (if !changed then xa + sign * na + sign else xa + sign * na) + tp = xa + sign * n' ∧
      ∀ fuel0 fuel : Nat, 1 ≤ fuel0 → M < fuel →
        FillTriangle.walk4 changed sign M m (xa + sign * dx) fuel0 fuel e (xa + sign * n) 0 =
          some (e', xa + sign * na, tp) := by
  obtain ⟨hs, hdx, hdy, hmode⟩ := hok
  obtain ⟨hn, he, htr⟩ := htr
  cases changed with
  | true =>
    simp only [if_true] at hmode htr
    obtain ⟨rfl, rfl, hlt⟩ := hmode
    obtain ⟨heM, hr⟩ := htr
    have r1 : (n + 1) * M = n * M + M := by ring
    have r2 : (k + 1) * m = k * m + m := by ring
    by_cases hnm : n = m
    · refine ⟨e, n, 0, n, le_refl _, le_refl _, ⟨hn, he, ?_⟩, ?_, fun fuel0 fuel hf0 hf => ?_⟩
      · simp only [if_true]
        exact ⟨heM, Or.inl hnm⟩
      · simp only [Bool.not_true, Bool.false_eq_true, if_false]
        ring
      · obtain ⟨f, rfl⟩ : ∃ f, fuel = f + 1 := ⟨fuel - 1, by omega⟩
        rw [FillTriangle.walk4]
        subst hnm
        simp only [ne_eq, not_true_eq_false, if_false]
    · have hr : e + n * M = M / 2 + k * m := by
        rcases hr with h | h
        · exact absurd h hnm
        · exact h
      have hne : xa + sign * n ≠ xa + sign * m := (FillTriangle.ne_target sign xa n m hs).2 hnm
      by_cases ho : e + m ≥ M
      · refine ⟨e + m - M, n, sign, n + 1, le_refl _, by omega,
          ⟨by omega, by omega, ?_⟩, ?_, fun fuel0 fuel hf0 hf => ?_⟩
        · simp only [if_true]
          refine ⟨by omega, Or.inr (by omega)⟩
        · simp only [Bool.not_true, Bool.false_eq_true, if_false]
          ring
        · obtain ⟨f, rfl⟩ : ∃ f, fuel = f + 1 := ⟨fuel - 1, by omega⟩
          rw [FillTriangle.walk4]
          simp only [if_pos hne, if_true,
            FillTriangle.reduce_once M sign fuel0 (e + m) 0 (by omega) hf0, if_pos ho]
      · refine ⟨e + m, n, 0, n, le_refl _, le_refl _,
          ⟨by omega, by omega, ?_⟩, ?_, fun fuel0 fuel hf0 hf => ?_⟩
        · simp only [if_true]
          refine ⟨by omega, Or.inr (by omega)⟩
        · simp only [Bool.not_true, Bool.false_eq_true, if_false]
          ring
        · obtain ⟨f, rfl⟩ : ∃ f, fuel = f + 1 := ⟨fuel - 1, by omega⟩
          rw [FillTriangle.walk4]
          simp only [if_pos hne, if_true,
            FillTriangle.reduce_once M sign fuel0 (e + m) 0 (by omega) hf0, if_neg ho]
  | false =>
    simp only [Bool.false_eq_true, if_false] at hmode htr
    obtain ⟨rfl, rfl, hle⟩ := hmode
    obtain ⟨hr, hem⟩ := htr
    have heM : e < M := by
      rcases hem with h | ⟨h1, h2⟩
      · omega
      · subst h1; subst h2
        simp only [zero_mul, add_zero] at hr
        omega
    obtain ⟨na, e', h1, h2, h3, h4, h5⟩ := FillTriangle.walk4_shallow sign M m xa k hs hk0
      (by omega) hle (M - n).toNat n e 0 hn he heM hr (by omega)
    refine ⟨e', na, 0, na + 1, h1, by omega, ⟨by omega, h2, ?_⟩, ?_,
      fun fuel0 fuel hf0 hf => ?_⟩
    · simp only [Bool.false_eq_true, if_false]
      exact ⟨h4, Or.inl h3⟩
    · simp only [Bool.not_false, if_true]
      ring
    · exact h5 fuel0 fuel (by omega)

/-- The last row of the long edge in `walk4`: the walk ends in the last
column. -/
theorem FillTriangle.walk4_last (changed : Bool) (sign M m dx dy xa e n : Int)
    (hok : FillTriangle.EdgeOK changed sign M m dx dy)
    (htr : FillTriangle.TrackG changed M m dy e n) :
    ∃ e' tp, n ≤ dx ∧
      ∀ fuel0 fuel : Nat, 1 ≤ fuel0 → M < fuel →
        FillTriangle.walk4 changed sign M m (xa + sign * dx) fuel0 fuel e (xa + sign * n) 0 =
          some (e', xa + sign * dx, tp) := by
  have hle := FillTriangle.TrackG_le changed sign M m dx dy dy e n hok htr (le_refl _)
  obtain ⟨hs, hdx, hdy, hmode⟩ := hok
  obtain ⟨hn, he, htr⟩ := htr
  cases changed with
  | true =>
    simp only [if_true] at hmode htr
    obtain ⟨rfl, rfl, hlt⟩ := hmode
    obtain ⟨heM, hr⟩ := htr
    have hnm : n = m := by
      rcases hr with h | h
      · exact h
      · have hge := FillTriangle.steep_last M m e n (by omega) heM h
        omega
    subst hnm
    refine ⟨e, 0, le_refl _, fun fuel0 fuel hf0 hf => ?_⟩
    obtain ⟨f, rfl⟩ : ∃ f, fuel = f + 1 := ⟨fuel - 1, by omega⟩
    rw [FillTriangle.walk4]
    simp only [ne_eq, not_true_eq_false, if_false]
  | false =>
    simp only [Bool.false_eq_true, if_false] at hmode htr
    obtain ⟨rfl, rfl, hle2⟩ := hmode
    obtain ⟨hr, hem⟩ := htr
    obtain ⟨e', h5⟩ := FillTriangle.walk4_shallow_last sign M m xa hs hdy (M - n).toNat n e 0
      hn hle hr (by omega)
    exact ⟨e', 0, hle, fun fuel0 fuel hf0 hf => h5 fuel0 fuel (by omega)⟩

/-- The first half of `FillTriangle`, from row `k` of the edges that leave the
top vertex `(xa, ya)`: it returns after the row above the middle vertex, every
position it plots lies in the rows it covers and between `lo` and `hi`, and
the first row holds the position of the short edge. -/
theorem FillTriangle.upper_spec (c1 c2 : Bool)
    (s1 s2 M1 m1 M2 m2 dx1 dy1 dx2 dy2 xa ya lo hi : Int)
    (hok1 : FillTriangle.EdgeOK c1 s1 M1 m1 dx1 dy1)
    (hok2 : FillTriangle.EdgeOK c2 s2 M2 m2 dx2 dy2) (hdy : dy1 ≤ dy2)
    (hb1 : ∀ n, 0 ≤ n → n ≤ dx1 → lo ≤ xa + s1 * n ∧ xa + s1 * n ≤ hi)
    (hb2 : ∀ n, 0 ≤ n → n ≤ dx2 → lo ≤ xa + s2 * n ∧ xa + s2 * n ≤ hi) (r : Nat) :
    ∀ (k e1 n1 e2 n2 : Int), 0 ≤ k → k + r + 1 = dy1 →
      FillTriangle.Track c1 M1 m1 k e1 n1 → FillTriangle.Track c2 M2 m2 k e2 n2 →
      ∃ lines e2f n2f, FillTriangle.Track c2 M2 m2 dy1 e2f n2f ∧
        (∀ p ∈ lines, ya + k ≤ p.2 ∧ p.2 < ya + dy1 ∧ lo ≤ p.1 ∧ p.1 ≤ hi) ∧
        (xa + s1 * n1, ya + k) ∈ lines ∧
        ∀ fuel0 fuel : Nat, 1 ≤ fuel0 → M1 < fuel0 → M2 < fuel0 → r + 1 ≤ fuel →
          FillTriangle.upper c1 c2 s1 s2 M1 m1 M2 m2 (ya + dy1) fuel0 fuel
            (if c1 then k else n1) e1 e2 (xa + s1 * n1) (xa + s2 * n2) (ya + k) =
              some (lines, e2f, xa + s2 * n2f, ya + dy1) := by
  induction r with
  | zero =>
    intro k e1 n1 e2 n2 hk0 hk htr1 htr2
    obtain ⟨i', e1', na1, tp1, n1', a1, a2, a3, a4, a5, a6, hw1⟩ :=
      FillTriangle.walk1_row c1 s1 M1 m1 dx1 dy1 xa k e1 n1 hok1 hk0 (by omega) htr1
    obtain ⟨e2', na2, tp2, n2', b1, b2, b3, b5, hw2⟩ :=
      FillTriangle.walk2_row c2 s2 M2 m2 dx2 dy2 xa k e2 n2 hok2 hk0 (by omega) htr2
    have c1' := FillTriangle.Track_le c1 s1 M1 m1 dx1 dy1 (k + 1) e1' n1' hok1 a3 (by omega)
    have c2' := FillTriangle.Track_le c2 s2 M2 m2 dx2 dy2 (k + 1) e2' n2' hok2 b3 (by omega)
    have hn1 := htr1.1
    have hn2 := htr2.1
    have hk1 : k + 1 = dy1 := by omega
    refine ⟨FillTriangle.span (xa + s1 * n1) (xa + s2 * n2) (xa + s1 * na1) (xa + s2 * na2)
      (ya + k), e2', n2', by rw [← hk1]; exact b3, ?_, ?_, fun fuel0 fuel hf0 hf1 hf2 hf => ?_⟩
    · intro p hp
      have := FillTriangle.span_bounds _ _ _ _ _ lo hi (hb1 n1 hn1 (by omega))
        (hb2 n2 hn2 (by omega)) (hb1 na1 (by omega) (by omega)) (hb2 na2 (by omega) (by omega))
        p hp
      omega
    · exact FillTriangle.span_mem _ _ _ _ _ _ (Or.inl rfl)
    · obtain ⟨f, rfl⟩ : ∃ f, fuel = f + 1 := ⟨fuel - 1, by omega⟩
      rw [FillTriangle.upper]
      simp only [if_pos a6, hw1 fuel0 fuel0 hf0 hf1, hw2 fuel0 fuel0 hf0 hf2, a5, b5]
      have hy : ya + k + 1 = ya + dy1 := by omega
      simp only [hy, if_true]
  | succ r ih =>
    intro k e1 n1 e2 n2 hk0 hk htr1 htr2
    obtain ⟨i', e1', na1, tp1, n1', a1, a2, a3, a4, a5, a6, hw1⟩ :=
      FillTriangle.walk1_row c1 s1 M1 m1 dx1 dy1 xa k e1 n1 hok1 hk0 (by omega) htr1
    obtain ⟨e2', na2, tp2, n2', b1, b2, b3, b5, hw2⟩ :=
      FillTriangle.walk2_row c2 s2 M2 m2 dx2 dy2 xa k e2 n2 hok2 hk0 (by omega) htr2
    have c1' := FillTriangle.Track_le c1 s1 M1 m1 dx1 dy1 (k + 1) e1' n1' hok1 a3 (by omega)
    have c2' := FillTriangle.Track_le c2 s2 M2 m2 dx2 dy2 (k + 1) e2' n2' hok2 b3 (by omega)
    have hn1 := htr1.1
    have hn2 := htr2.1
    obtain ⟨lines, e2f, n2f, d1, d2, d3, d4⟩ := ih (k + 1) e1' n1' e2' n2' (by omega) (by omega)
      a3 b3
    refine ⟨FillTriangle.span (xa + s1 * n1) (xa + s2 * n2) (xa + s1 * na1) (xa + s2 * na2)
      (ya + k) ++ lines, e2f, n2f, d1, ?_, ?_, fun fuel0 fuel hf0 hf1 hf2 hf => ?_⟩
    · intro p hp
      rw [List.mem_append] at hp
      rcases hp with hp | hp
      · have := FillTriangle.span_bounds _ _ _ _ _ lo hi (hb1 n1 hn1 (by omega))
          (hb2 n2 hn2 (by omega)) (hb1 na1 (by omega) (by omega))
          (hb2 na2 (by omega) (by omega)) p hp
        omega
      · have := d2 p hp
        omega
    · exact List.mem_append_left _ (FillTriangle.span_mem _ _ _ _ _ _ (Or.inl rfl))
    · obtain ⟨f, rfl⟩ : ∃ f, fuel = f + 1 := ⟨fuel - 1, by omega⟩
      rw [FillTriangle.upper]
      simp only [if_pos a6, hw1 fuel0 fuel0 hf0 hf1, hw2 fuel0 fuel0 hf0 hf2, a5, b5]
      have hy : ¬ (ya + (k + 1) = ya + dy1) := by omega
      have hy2 : ya + k + 1 = ya + (k + 1) := by ring
      have d4' := d4 fuel0 f hf0 hf1 hf2 (by omega)
      rw [← a4] at d4'
      simp only [hy2, hy, if_false, d4']

/-- The second half of `FillTriangle`, from row `k` of the edge that leaves the
middle vertex `(xb, yb)` and row `k0 + k` of the long edge from `(xa, ya)`: it
returns after the row of the bottom vertex, every position it plots lies in the
rows it covers and between `lo` and `hi`, its first row holds the positions of
both edges, and its last row holds the bottom vertex. -/
theorem FillTriangle.lower_spec (c1 c2 : Bool)
    (s1 s2 M1 m1 M2 m2 dx1 dy1 dx2 dy2 xa xb yb k0 lo hi : Int)
    (hok1 : FillTriangle.EdgeOK c1 s1 M1 m1 dx1 dy1)
    (hok2 : FillTriangle.EdgeOK c2 s2 M2 m2 dx2 dy2) (hk00 : 0 ≤ k0) (hdy : k0 + dy1 = dy2)
    (hb1 : ∀ n, 0 ≤ n → n ≤ dx1 → lo ≤ xb + s1 * n ∧ xb + s1 * n ≤ hi)
    (hb2 : ∀ n, 0 ≤ n → n ≤ dx2 → lo ≤ xa + s2 * n ∧ xa + s2 * n ≤ hi) (r : Nat) :
    ∀ (k e1 n1 e2 n2 : Int), 0 ≤ k → k + r = dy1 →
      FillTriangle.Track c1 M1 m1 k e1 n1 → FillTriangle.TrackG c2 M2 m2 (k0 + k) e2 n2 →
      ∃ lines,
        (∀ p ∈ lines, yb + k ≤ p.2 ∧ p.2 ≤ yb + dy1 ∧ lo ≤ p.1 ∧ p.1 ≤ hi) ∧
        (xb + s1 * n1, yb + k) ∈ lines ∧ (xa + s2 * n2, yb + k) ∈ lines ∧
        (xa + s2 * dx2, yb + dy1) ∈ lines ∧
        ∀ fuel0 fuel : Nat, 1 ≤ fuel0 → M1 < fuel0 → M2 < fuel0 → r + 1 ≤ fuel →
          FillTriangle.lower c1 c2 s1 s2 M1 m1 M2 m2 (xa + s2 * dx2) (yb + dy1) fuel0 fuel
            (if c1 then k else n1) e1 e2 (xb + s1 * n1) (xa + s2 * n2) (yb + k) =
              some lines := by
  have hdx1 : 0 ≤ dx1 := hok1.2.1
  have hdx2 : 0 ≤ dx2 := hok2.2.1
  induction r with
  | zero =>
    intro k e1 n1 e2 n2 hk0 hk htr1 htr2
    have hkd : k = dy1 := by omega
    subst hkd
    rw [hdy] at htr2
    obtain ⟨i', e1', tp1, a1, a6, hw1⟩ :=
      FillTriangle.walk3_last c1 s1 M1 m1 dx1 k xb e1 n1 hok1 htr1
    obtain ⟨e2', tp2, b1, hw2⟩ :=
      FillTriangle.walk4_last c2 s2 M2 m2 dx2 dy2 xa e2 n2 hok2 htr2
    have hn1 := htr1.1
    have hn2 := htr2.1
    refine ⟨FillTriangle.span (xb + s1 * n1) (xa + s2 * n2) (xb + s1 * dx1) (xa + s2 * dx2)
      (yb + k), ?_, ?_, ?_, ?_, fun fuel0 fuel hf0 hf1 hf2 hf => ?_⟩
    · intro p hp
      have := FillTriangle.span_bounds _ _ _ _ _ lo hi (hb1 n1 hn1 a1)
        (hb2 n2 hn2 b1) (hb1 dx1 hdx1 (le_refl _)) (hb2 dx2 hdx2 (le_refl _)) p hp
      omega
    · exact FillTriangle.span_mem _ _ _ _ _ _ (Or.inl rfl)
    · exact FillTriangle.span_mem _ _ _ _ _ _ (Or.inr (Or.inl rfl))
    · exact FillTriangle.span_mem _ _ _ _ _ _ (Or.inr (Or.inr (Or.inr rfl)))
    · obtain ⟨f, rfl⟩ : ∃ f, fuel = f + 1 := ⟨fuel - 1, by omega⟩
      rw [FillTriangle.lower]
      simp only [if_pos a6, hw1 fuel0 hf1, hw2 fuel0 fuel0 hf0 hf2]
      have hy : yb + k + 1 > yb + k := by omega
      simp only [hy, if_true]
  | succ r ih =>
    intro k e1 n1 e2 n2 hk0 hk htr1 htr2
    obtain ⟨i', e1', na1, tp1, n1', a1, a2, a3, a4, a5, a6, hw1⟩ :=
      FillTriangle.walk3_row c1 s1 M1 m1 dx1 dy1 xb k e1 n1 hok1 hk0 (by omega) htr1
    obtain ⟨e2', na2, tp2, n2', b1, b2, b3, b5, hw2⟩ :=
      FillTriangle.walk4_row c2 s2 M2 m2 dx2 dy2 xa (k0 + k) e2 n2 hok2 (by omega) (by omega)
        htr2
    have c1' := FillTriangle.Track_le c1 s1 M1 m1 dx1 dy1 (k + 1) e1' n1' hok1 a3 (by omega)
    have c2' := FillTriangle.TrackG_le c2 s2 M2 m2 dx2 dy2 (k0 + k + 1) e2' n2' hok2 b3
      (by omega)
    have hn1 := htr1.1
    have hn2 := htr2.1
    have hkk : k0 + k + 1 = k0 + (k + 1) := by ring
    rw [hkk] at b3
    obtain ⟨lines, d2, d3, d3', d5, d4⟩ := ih (k + 1) e1' n1' e2' n2' (by omega) (by omega)
      a3 b3
    refine ⟨FillTriangle.span (xb + s1 * n1) (xa + s2 * n2) (xb + s1 * na1) (xa + s2 * na2)
      (yb + k) ++ lines, ?_, ?_, ?_, ?_, fun fuel0 fuel hf0 hf1 hf2 hf => ?_⟩
    · intro p hp
      rw [List.mem_append] at hp
      rcases hp with hp | hp
      · have := FillTriangle.span_bounds _ _ _ _ _ lo hi (hb1 n1 hn1 (by omega))
          (hb2 n2 hn2 (by omega)) (hb1 na1 (by omega) (by omega))
          (hb2 na2 (by omega) (by omega)) p hp
        omega
      · have := d2 p hp
        omega
    · exact List.mem_append_left _ (FillTriangle.span_mem _ _ _ _ _ _ (Or.inl rfl))
    · exact List.mem_append_left _ (FillTriangle.span_mem _ _ _ _ _ _ (Or.inr (Or.inl rfl)))
    · exact List.mem_append_right _ d5
    · obtain ⟨f, rfl⟩ : ∃ f, fuel = f + 1 := ⟨fuel - 1, by omega⟩
      rw [FillTriangle.lower]
      simp only [if_pos a6, hw1 fuel0 hf1, hw2 fuel0 fuel0 hf0 hf2, a5, b5]
      have hy : ¬ (yb + (k + 1) > yb + dy1) := by omega
      have hy2 : yb + k + 1 = yb + (k + 1) := by ring
      have d4' := d4 fuel0 f hf0 hf1 hf2 (by omega)
      rw [← a4] at d4'
      simp only [hy2, hy, if_false, d4']

theorem FillTriangle.sort_of_sorted (x1 y1 x2 y2 x3 y3 : Int) (h12 : y1 ≤ y2) (h23 : y2 ≤ y3) :
    FillTriangle.sort x1 y1 x2 y2 x3 y3 = ((x1, y1), (x2, y2), (x3, y3)) := by
  unfold FillTriangle.sort
  have a : ¬ (y1 > y2) := by omega
  have b : ¬ (y1 > y3) := by omega
  have c : ¬ (y2 > y3) := by omega
  simp [a, b, c]

/-- The vertex sort returns the three vertices in some order, by rising `y`. -/
theorem FillTriangle.sort_perm (x1 y1 x2 y2 x3 y3 : Int) :
    ∃ a1 b1 a2 b2 a3 b3 : Int,
      FillTriangle.sort x1 y1 x2 y2 x3 y3 = ((a1, b1), (a2, b2), (a3, b3)) ∧
      b1 ≤ b2 ∧ b2 ≤ b3 ∧
      (((a1, b1), (a2, b2), (a3, b3)) = ((x1, y1), (x2, y2), (x3, y3)) ∨
       ((a1, b1), (a2, b2), (a3, b3)) = ((x1, y1), (x3, y3), (x2, y2)) ∨
       ((a1, b1), (a2, b2), (a3, b3)) = ((x2, y2), (x1, y1), (x3, y3)) ∨
       ((a1, b1), (a2, b2), (a3, b3)) = ((x2, y2), (x3, y3), (x1, y1)) ∨
       ((a1, b1), (a2, b2), (a3, b3)) = ((x3, y3), (x1, y1), (x2, y2)) ∨
       ((a1, b1), (a2, b2), (a3, b3)) = ((x3, y3), (x2, y2), (x1, y1))) := by
  unfold FillTriangle.sort
  by_cases a : y1 > y2 <;> by_cases b : y1 > y3 <;> by_cases c : y2 > y3 <;>
    by_cases d : y2 > y1 <;> by_cases f : y3 > y1 <;> by_cases g : y3 > y2 <;>
    first
    | omega
    | (simp only [a, b, c, d, f, g, if_true, if_false]
       refine ⟨_, _, _, _, _, _, rfl, by omega, by omega, ?_⟩
       simp)

theorem FillTriangle.edgeOK_of (d dy : Int) (hdy : 0 ≤ dy) :
    FillTriangle.EdgeOK (decide (dy > (if d < 0 then -d else d))) (if d < 0 then -1 else 1)
      (if dy > (if d < 0 then -d else d) then dy else (if d < 0 then -d else d))
      (if dy > (if d < 0 then -d else d) then (if d < 0 then -d else d) else dy)
      (if d < 0 then -d else d) dy := by
  refine ⟨by split_ifs <;> simp, by split_ifs <;> omega, hdy, ?_⟩
  by_cases h : dy > (if d < 0 then -d else d)
  · simp only [h, decide_True, if_true]
    exact ⟨trivial, trivial, trivial⟩
  · simp only [h, decide_False, Bool.false_eq_true, if_false]
    exact ⟨trivial, trivial, by omega⟩

theorem FillTriangle.edge_target (xa xb : Int) :
    xa + (if xb - xa < 0 then -1 else 1) * (if xb - xa < 0 then -(xb - xa) else xb - xa) = xb := by
  split_ifs <;> ring

theorem FillTriangle.edge_between (xa xb n : Int) (h0 : 0 ≤ n)
    (h1 : n ≤ (if xb - xa < 0 then -(xb - xa) else xb - xa)) :
    min xa xb ≤ xa + (if xb - xa < 0 then -1 else 1) * n ∧
    xa + (if xb - xa < 0 then -1 else 1) * n ≤ max xa xb := by
  simp only [min_def, max_def]
  split_ifs at h1 ⊢ <;> omega

theorem FillTriangle.edge_M_le (d dy : Int) (hdy : 0 ≤ dy) :
    (if dy > (if d < 0 then -d else d) then dy else (if d < 0 then -d else d)) ≤
      (d.natAbs : Int) + dy := by
  split_ifs <;> omega

theorem FillTriangle.box12 (x1 x2 x3 t : Int) (h : min x1 x2 ≤ t ∧ t ≤ max x1 x2) :
    min x1 (min x2 x3) ≤ t ∧ t ≤ max x1 (max x2 x3) := by
  simp only [min_def, max_def] at h ⊢
  split_ifs at h ⊢ <;> omega

theorem FillTriangle.box13 (x1 x2 x3 t : Int) (h : min x1 x3 ≤ t ∧ t ≤ max x1 x3) :
    min x1 (min x2 x3) ≤ t ∧ t ≤ max x1 (max x2 x3) := by
  simp only [min_def, max_def] at h ⊢
  split_ifs at h ⊢ <;> omega

theorem FillTriangle.box23 (x1 x2 x3 t : Int) (h : min x2 x3 ≤ t ∧ t ≤ max x2 x3) :
    min x1 (min x2 x3) ≤ t ∧ t ≤ max x1 (max x2 x3) := by
  simp only [min_def, max_def] at h ⊢
  split_ifs at h ⊢ <;> omega

theorem FillTriangle.fuel_bounds (x1 y1 x2 y2 x3 y3 : Int) (h12 : y1 ≤ y2) (h23 : y2 ≤ y3) :
    ((x2 - x1).natAbs : Int) + (y2 - y1) + 2 ≤ FillTriangle.fuel x1 y1 x2 y2 x3 y3 ∧
    ((x3 - x1).natAbs : Int) + (y3 - y1) + 2 ≤ FillTriangle.fuel x1 y1 x2 y2 x3 y3 ∧
    ((x3 - x2).natAbs : Int) + (y3 - y2) + 2 ≤ FillTriangle.fuel x1 y1 x2 y2 x3 y3 := by
  have e1 : (x1 - x2).natAbs = (x2 - x1).natAbs := by
    rw [← Int.natAbs_neg, neg_sub]
  have e2 : (x1 - x3).natAbs = (x3 - x1).natAbs := by
    rw [← Int.natAbs_neg, neg_sub]
  have e3 : (x2 - x3).natAbs = (x3 - x2).natAbs := by
    rw [← Int.natAbs_neg, neg_sub]
  have f1 : ((y1 - y2).natAbs : Int) = y2 - y1 := by omega
  have f2 : ((y1 - y3).natAbs : Int) = y3 - y1 := by omega
  have f3 : ((y2 - y3).natAbs : Int) = y3 - y2 := by omega
  unfold FillTriangle.fuel
  rw [e1, e2, e3]
  generalize (x2 - x1).natAbs = a at *
  generalize (x3 - x1).natAbs = b at *
  generalize (x3 - x2).natAbs = c at *
  generalize (y1 - y2).natAbs = d at *
  generalize (y1 - y3).natAbs = e at *
  generalize (y2 - y3).natAbs = f at *
  push_cast
  omega

/-- The parameters `FillTriangle` computes for the edge from `(xa, ya)` to
`(xb, ya + dy)`, with what the proofs use of them. -/
theorem FillTriangle.edge_params (xa xb dy : Int) (hdy : 0 ≤ dy) :
    ∃ (c : Bool) (s M m dx : Int),
      c = decide (dy > (if xb - xa < 0 then -(xb - xa) else xb - xa)) ∧
      s = (if xb - xa < 0 then -1 else 1) ∧
      M = (if dy > (if xb - xa < 0 then -(xb - xa) else xb - xa) then dy
        else (if xb - xa < 0 then -(xb - xa) else xb - xa)) ∧
      m = (if dy > (if xb - xa < 0 then -(xb - xa) else xb - xa) then
        (if xb - xa < 0 then -(xb - xa) else xb - xa) else dy) ∧
      FillTriangle.EdgeOK c s M m dx dy ∧
      M ≤ ((xb - xa).natAbs : Int) + dy ∧
      xa + s * dx = xb ∧
      ∀ n, 0 ≤ n → n ≤ dx → min xa xb ≤ xa + s * n ∧ xa + s * n ≤ max xa xb :=
  ⟨_, _, _, _, _, rfl, rfl, rfl, rfl, FillTriangle.edgeOK_of (xb - xa) dy hdy,
    FillTriangle.edge_M_le (xb - xa) dy hdy, FillTriangle.edge_target xa xb,
    FillTriangle.edge_between xa xb⟩

theorem FillTriangle.plots_unfold (fuel : Nat) (x1 y1 x2 y2 x3 y3 : Int) (h12 : y1 ≤ y2)
    (h23 : y2 ≤ y3) (cA c2 cB : Bool) (sA s2 sB MA mA M2 m2 MB mB : Int)
    (ecA : cA = decide (y2 - y1 > (if x2 - x1 < 0 then -(x2 - x1) else x2 - x1)))
    (esA : sA = (if x2 - x1 < 0 then -1 else 1))
    (eMA : MA = (if y2 - y1 > (if x2 - x1 < 0 then -(x2 - x1) else x2 - x1) then y2 - y1
        else (if x2 - x1 < 0 then -(x2 - x1) else x2 - x1)))
    (emA : mA = (if y2 - y1 > (if x2 - x1 < 0 then -(x2 - x1) else x2 - x1) then
        (if x2 - x1 < 0 then -(x2 - x1) else x2 - x1) else y2 - y1))
    (ec2 : c2 = decide (y3 - y1 > (if x3 - x1 < 0 then -(x3 - x1) else x3 - x1)))
    (es2 : s2 = (if x3 - x1 < 0 then -1 else 1))
    (eM2 : M2 = (if y3 - y1 > (if x3 - x1 < 0 then -(x3 - x1) else x3 - x1) then y3 - y1
        else (if x3 - x1 < 0 then -(x3 - x1) else x3 - x1)))
    (em2 : m2 = (if y3 - y1 > (if x3 - x1 < 0 then -(x3 - x1) else x3 - x1) then
        (if x3 - x1 < 0 then -(x3 - x1) else x3 - x1) else y3 - y1))
    (ecB : cB = decide (y3 - y2 > (if x3 - x2 < 0 then -(x3 - x2) else x3 - x2)))
    (esB : sB = (if x3 - x2 < 0 then -1 else 1))
    (eMB : MB = (if y3 - y2 > (if x3 - x2 < 0 then -(x3 - x2) else x3 - x2) then y3 - y2
        else (if x3 - x2 < 0 then -(x3 - x2) else x3 - x2)))
    (emB : mB = (if y3 - y2 > (if x3 - x2 < 0 then -(x3 - x2) else x3 - x2) then
        (if x3 - x2 < 0 then -(x3 - x2) else x3 - x2) else y3 - y2)) :
    FillTriangle.plots fuel x1 y1 x2 y2 x3 y3 =
      match (if y1 = y2 then some ([], M2 / 2, x1, y1)
        else FillTriangle.upper cA c2 sA s2 MA mA M2 m2 y2 fuel fuel 0 (MA / 2) (M2 / 2)
          x1 x1 y1) with
      | none => none
      | some (lines, e2, t2x, y) =>
        match FillTriangle.lower cB c2 sB s2 MB mB M2 m2 x3 y3 fuel fuel 0 (MB / 2) e2 x2
            t2x y with
        | none => none
        | some r => some (lines ++ r) := by
  subst ecA esA eMA emA ec2 es2 eM2 em2 ecB esB eMB emB
  unfold FillTriangle.plots
  rw [FillTriangle.sort_of_sorted x1 y1 x2 y2 x3 y3 h12 h23]

/-- The run of `FillTriangle` on vertices given by rising `y`: it returns, all
it plots lies in the bounding box of the vertices, and the vertices are
plotted. -/
theorem FillTriangle.plots_sorted (x1 y1 x2 y2 x3 y3 : Int) (h12 : y1 ≤ y2) (h23 : y2 ≤ y3) :
    ∃ ps : List (Int × Int),
      (∀ fuel : Nat, FillTriangle.fuel x1 y1 x2 y2 x3 y3 ≤ fuel →
        FillTriangle.plots fuel x1 y1 x2 y2 x3 y3 = some ps) ∧
      (∀ p ∈ ps, y1 ≤ p.2 ∧ p.2 ≤ y3 ∧
        min x1 (min x2 x3) ≤ p.1 ∧ p.1 ≤ max x1 (max x2 x3)) ∧
      (x1, y1) ∈ ps ∧ (x2, y2) ∈ ps ∧ (x3, y3) ∈ ps := by
  obtain ⟨cA, sA, MA, mA, dxA, ecA, esA, eMA, emA, hokA, hMA, -, hbA'⟩ :=
    FillTriangle.edge_params x1 x2 (y2 - y1) (by omega)
  obtain ⟨c2, s2, M2, m2, dx2, ec2, es2, eM2, em2, hok2, hM2, hx3, hb2'⟩ :=
    FillTriangle.edge_params x1 x3 (y3 - y1) (by omega)
  obtain ⟨cB, sB, MB, mB, dxB, ecB, esB, eMB, emB, hokB, hMB, -, hbB'⟩ :=
    FillTriangle.edge_params x2 x3 (y3 - y2) (by omega)
  have hplots := fun fuel => FillTriangle.plots_unfold fuel x1 y1 x2 y2 x3 y3 h12 h23 cA c2 cB
    sA s2 sB MA mA M2 m2 MB mB ecA esA eMA emA ec2 es2 eM2 em2 ecB esB eMB emB
  clear ecA esA eMA emA ec2 es2 eM2 em2 ecB esB eMB emB
  have hbA : ∀ n, 0 ≤ n → n ≤ dxA →
      min x1 (min x2 x3) ≤ x1 + sA * n ∧ x1 + sA * n ≤ max x1 (max x2 x3) :=
    fun n h0 h1 => FillTriangle.box12 x1 x2 x3 _ (hbA' n h0 h1)
  have hb2 : ∀ n, 0 ≤ n → n ≤ dx2 →
      min x1 (min x2 x3) ≤ x1 + s2 * n ∧ x1 + s2 * n ≤ max x1 (max x2 x3) :=
    fun n h0 h1 => FillTriangle.box13 x1 x2 x3 _ (hb2' n h0 h1)
  have hbB : ∀ n, 0 ≤ n → n ≤ dxB →
      min x1 (min x2 x3) ≤ x2 + sB * n ∧ x2 + sB * n ≤ max x1 (max x2 x3) :=
    fun n h0 h1 => FillTriangle.box23 x1 x2 x3 _ (hbB' n h0 h1)
  clear hbA' hb2' hbB'
  have hfb := FillTriangle.fuel_bounds x1 y1 x2 y2 x3 y3 h12 h23
  have hfuel : ∀ fuel : Nat, FillTriangle.fuel x1 y1 x2 y2 x3 y3 ≤ fuel →
      1 ≤ fuel ∧ MA < fuel ∧ M2 < fuel ∧ MB < fuel ∧ (y2 - y1 - 1).toNat + 1 ≤ fuel ∧
      (y3 - y2).toNat + 1 ≤ fuel := by
    intro fuel hf
    generalize FillTriangle.fuel x1 y1 x2 y2 x3 y3 = F at hf hfb
    generalize (x2 - x1).natAbs = a at *
    generalize (x3 - x1).natAbs = b at *
    generalize (x3 - x2).natAbs = c at *
    omega
  clear hfb hMA hM2 hMB
  have htrB := FillTriangle.Track_init _ _ _ _ _ _ hokB
  have htr2 := FillTriangle.Track_init _ _ _ _ _ _ hok2
  have htrA := FillTriangle.Track_init _ _ _ _ _ _ hokA
  by_cases hy : y1 = y2
  · -- the first half is skipped
    subst hy
    obtain ⟨lines, d2, d3, d3', d5, d4⟩ := FillTriangle.lower_spec cB c2 sB s2 MB mB M2 m2
      dxB (y3 - y1) dx2 (y3 - y1)
      x1 x2 y1 0 (min x1 (min x2 x3)) (max x1 (max x2 x3)) hokB hok2 (le_refl _)
      (by omega) hbB hb2 (y3 - y1).toNat 0 (MB / 2) 0 (M2 / 2) 0 (le_refl _) (by omega) htrB
      (by rw [add_zero]; exact FillTriangle.Track_toG _ _ _ _ _ _ htr2)
    simp only [mul_zero, add_zero, ite_self, hx3] at d2 d3 d3' d5 d4
    have hy3 : y1 + (y3 - y1) = y3 := by ring
    rw [hy3] at d2 d5 d4
    refine ⟨lines, fun fuel hf => ?_, ?_, d3', d3, d5⟩
    · obtain ⟨f0, fA, f2, fB, fr1, fr2⟩ := hfuel fuel hf
      have := d4 fuel fuel f0 fB f2 fr2
      rw [hplots fuel]
      simp only [if_true, this, List.nil_append]
    · intro p hp
      have := d2 p hp
      omega
  · -- both halves run
    obtain ⟨lines1, e2f, n2f, u1, u2, u3, u4⟩ := FillTriangle.upper_spec cA c2 sA s2 MA mA M2 m2
      dxA (y2 - y1) dx2 (y3 - y1)
      x1 y1 (min x1 (min x2 x3)) (max x1 (max x2 x3)) hokA hok2 (by omega) hbA hb2
      (y2 - y1 - 1).toNat 0 (MA / 2) 0 (M2 / 2) 0 (le_refl _) (by omega) htrA htr2
    obtain ⟨lines, d2, d3, d3', d5, d4⟩ := FillTriangle.lower_spec cB c2 sB s2 MB mB M2 m2
      dxB (y3 - y2) dx2 (y3 - y1)
      x1 x2 y2 (y2 - y1) (min x1 (min x2 x3)) (max x1 (max x2 x3)) hokB hok2 (by omega)
      (by omega) hbB hb2 (y3 - y2).toNat 0 (MB / 2) 0 e2f n2f (le_refl _) (by omega) htrB
      (by rw [add_zero]; exact FillTriangle.Track_toG _ _ _ _ _ _ u1)
    simp only [mul_zero, add_zero, ite_self, hx3] at d2 d3 d3' d5 d4 u2 u3 u4
    have hy3 : y2 + (y3 - y2) = y3 := by ring
    have hy2 : y1 + (y2 - y1) = y2 := by ring
    rw [hy3] at d2 d5 d4
    rw [hy2] at u2 u4
    refine ⟨lines1 ++ lines, fun fuel hf => ?_, ?_, List.mem_append_left _ u3,
      List.mem_append_right _ d3, List.mem_append_right _ d5⟩
    · obtain ⟨f0, fA, f2, fB, fr1, fr2⟩ := hfuel fuel hf
      have h1 := u4 fuel fuel f0 fA f2 fr1
      have h2 := d4 fuel fuel f0 fB f2 fr2
      rw [hplots fuel]
      simp only [hy, if_false, h1, h2]
    · intro p hp
      rw [List.mem_append] at hp
      rcases hp with hp | hp
      · have := u2 p hp
        omega
      · have := d2 p hp
        omega

/-- The iteration bound does not depend on the order of the vertices. -/
theorem FillTriangle.fuel_perm (x1 y1 x2 y2 x3 y3 : Int) :
    FillTriangle.fuel x1 y1 x3 y3 x2 y2 = FillTriangle.fuel x1 y1 x2 y2 x3 y3 ∧
    FillTriangle.fuel x2 y2 x1 y1 x3 y3 = FillTriangle.fuel x1 y1 x2 y2 x3 y3 ∧
    FillTriangle.fuel x2 y2 x3 y3 x1 y1 = FillTriangle.fuel x1 y1 x2 y2 x3 y3 ∧
    FillTriangle.fuel x3 y3 x1 y1 x2 y2 = FillTriangle.fuel x1 y1 x2 y2 x3 y3 ∧
    FillTriangle.fuel x3 y3 x2 y2 x1 y1 = FillTriangle.fuel x1 y1 x2 y2 x3 y3 := by
  have ex12 : (x2 - x1).natAbs = (x1 - x2).natAbs := by rw [← Int.natAbs_neg, neg_sub]
  have ex13 : (x3 - x1).natAbs = (x1 - x3).natAbs := by rw [← Int.natAbs_neg, neg_sub]
  have ex23 : (x3 - x2).natAbs = (x2 - x3).natAbs := by rw [← Int.natAbs_neg, neg_sub]
  have ey12 : (y2 - y1).natAbs = (y1 - y2).natAbs := by rw [← Int.natAbs_neg, neg_sub]
  have ey13 : (y3 - y1).natAbs = (y1 - y3).natAbs := by rw [← Int.natAbs_neg, neg_sub]
  have ey23 : (y3 - y2).natAbs = (y2 - y3).natAbs := by rw [← Int.natAbs_neg, neg_sub]
  unfold FillTriangle.fuel
  simp only [ex12, ex13, ex23, ey12, ey13, ey23]
  generalize (x1 - x2).natAbs = a
  generalize (x1 - x3).natAbs = b
  generalize (x2 - x3).natAbs = c
  generalize (y1 - y2).natAbs = d
  generalize (y1 - y3).natAbs = e
  generalize (y2 - y3).natAbs = f
  refine ⟨by omega, by omega, by omega, by omega, by omega⟩

/-- The run of `FillTriangle` on any three vertices: it returns within the
iteration bound, all it plots lies in the bounding box of the vertices, and
the three vertices are plotted. -/
theorem FillTriangle.plots_spec (x1 y1 x2 y2 x3 y3 : Int) :
    ∃ ps : List (Int × Int),
      (∀ fuel : Nat, FillTriangle.fuel x1 y1 x2 y2 x3 y3 ≤ fuel →
        FillTriangle.plots fuel x1 y1 x2 y2 x3 y3 = some ps) ∧
      (∀ p ∈ ps, min y1 (min y2 y3) ≤ p.2 ∧ p.2 ≤ max y1 (max y2 y3) ∧
        min x1 (min x2 x3) ≤ p.1 ∧ p.1 ≤ max x1 (max x2 x3)) ∧
      (x1, y1) ∈ ps ∧ (x2, y2) ∈ ps ∧ (x3, y3) ∈ ps := by
  obtain ⟨a1, b1, a2, b2, a3, b3, hs, hb12, hb23, hperm⟩ :=
    FillTriangle.sort_perm x1 y1 x2 y2 x3 y3
  obtain ⟨ps, h1, h2, h3, h4, h5⟩ := FillTriangle.plots_sorted a1 b1 a2 b2 a3 b3 hb12 hb23
  have hcongr : ∀ fuel, FillTriangle.plots fuel x1 y1 x2 y2 x3 y3 =
      FillTriangle.plots fuel a1 b1 a2 b2 a3 b3 := fun fuel =>
    FillTriangle.plots_congr fuel _ _ _ _ _ _ _ _ _ _ _ _
      (by rw [hs, FillTriangle.sort_of_sorted a1 b1 a2 b2 a3 b3 hb12 hb23])
  obtain ⟨f1, f2, f3, f4, f5⟩ := FillTriangle.fuel_perm x1 y1 x2 y2 x3 y3
  have hbox : ∀ p ∈ ps, (b1 ≤ p.2 ∧ p.2 ≤ b3) ∧
      ((a1 ≤ p.1 ∨ a2 ≤ p.1 ∨ a3 ≤ p.1) ∧ (p.1 ≤ a1 ∨ p.1 ≤ a2 ∨ p.1 ≤ a3)) := by
    intro p hp
    have := h2 p hp
    simp only [min_le_iff, le_max_iff] at this
    exact ⟨⟨this.1, this.2.1⟩, this.2.2⟩
  simp only [Prod.mk.injEq] at hperm
  refine ⟨ps, fun fuel hf => ?_, fun p hp => ?_, ?_, ?_, ?_⟩
  · rw [hcongr fuel]
    apply h1 fuel
    rcases hperm with h | h | h | h | h | h <;>
      obtain ⟨⟨rfl, rfl⟩, ⟨rfl, rfl⟩, rfl, rfl⟩ := h <;> omega
  · have := hbox p hp
    simp only [min_le_iff, le_max_iff]
    rcases hperm with h | h | h | h | h | h <;>
      obtain ⟨⟨rfl, rfl⟩, ⟨rfl, rfl⟩, rfl, rfl⟩ := h <;> omega
  · rcases hperm with h | h | h | h | h | h <;>
      obtain ⟨⟨rfl, rfl⟩, ⟨rfl, rfl⟩, rfl, rfl⟩ := h <;> assumption
  · rcases hperm with h | h | h | h | h | h <;>
      obtain ⟨⟨rfl, rfl⟩, ⟨rfl, rfl⟩, rfl, rfl⟩ := h <;> assumption
  · rcases hperm with h | h | h | h | h | h <;>
      obtain ⟨⟨rfl, rfl⟩, ⟨rfl, rfl⟩, rfl, rfl⟩ := h <;> assumption

/-- C28: `FillTriangle` terminates for every choice of the six vertex
coordinates, degenerate triangles included: with any bound of at least
`FillTriangle.fuel x1 y1 x2 y2 x3 y3` on the iterations of each loop, every
loop of the run, the `while (1)` and `while (t2x != x3)` edge walks among
them, reaches its exit, and the run plots one and the same list of
positions. -/
theorem FillTriangle_terminates (x1 y1 x2 y2 x3 y3 : Int) :
    ∃ ps : List (Int × Int), ∀ fuel : Nat, FillTriangle.fuel x1 y1 x2 y2 x3 y3 ≤ fuel →
      FillTriangle.plots fuel x1 y1 x2 y2 x3 y3 = some ps := by
  obtain ⟨ps, h, _⟩ := FillTriangle.plots_spec x1 y1 x2 y2 x3 y3
  exact ⟨ps, h⟩

/-- C29: every position `FillTriangle` plots lies in the bounding box of the
three vertices, its `y` between `min(y1, y2, y3)` and `max(y1, y2, y3)` and its
`x` between `min(x1, x2, x3)` and `max(x1, x2, x3)`, and the three vertices are
plotted; `ps` is the list of positions the run plots, the same for every
sufficient bound on the iterations. -/
theorem FillTriangle_bounding_box (x1 y1 x2 y2 x3 y3 : Int) :
    ∃ ps : List (Int × Int),
      FillTriangle.plots (FillTriangle.fuel x1 y1 x2 y2 x3 y3) x1 y1 x2 y2 x3 y3 = some ps ∧
      (∀ p ∈ ps, min y1 (min y2 y3) ≤ p.2 ∧ p.2 ≤ max y1 (max y2 y3) ∧
        min x1 (min x2 x3) ≤ p.1 ∧ p.1 ≤ max x1 (max x2 x3)) ∧
      (x1, y1) ∈ ps ∧ (x2, y2) ∈ ps ∧ (x3, y3) ∈ ps := by
  obtain ⟨ps, h, hbox, hv⟩ := FillTriangle.plots_spec x1 y1 x2 y2 x3 y3
  exact ⟨ps, h _ (le_refl _), hbox, hv⟩

end GameEngine

/-! ## Wrapped reads -/

theorem tmod_natAbs_range (x w : Int) (hw : 0 < w) :
    0 ≤ Int.tmod (x.natAbs : Int) w ∧ Int.tmod (x.natAbs : Int) w < w := by
  have h0 : (0 : Int) ≤ (x.natAbs : Int) := Int.ofNat_nonneg _
  rw [Int.tmod_eq_emod h0 (le_of_lt hw)]
  exact ⟨Int.emod_nonneg _ (by omega), Int.emod_lt_of_pos _ hw⟩

theorem tmod_natAbs_of_range (x w : Int) (hx0 : 0 ≤ x) (hx : x < w) :
    Int.tmod (x.natAbs : Int) w = x := by
  have h0 : (x.natAbs : Int) = x := by omega
  rw [h0, Int.tmod_eq_emod hx0 (by omega)]
  exact Int.emod_eq_of_lt hx0 hx

/-- The column and row each wrap method addresses when it reads. -/
theorem Sprite.GetPixel_index_cases (s : Sprite) (x y : Int) (wrap : Sprite.WrapMethod)
    (hx : 0 < s.size.x) (hy : 0 < s.size.y) (i : Int)
    (h : Sprite.GetPixel.index s x y wrap = some i) :
    ∃ col row : Int, 0 ≤ col ∧ col < s.size.x ∧ 0 ≤ row ∧ row < s.size.y ∧
      i = row * s.size.x + col := by
  cases wrap with
  | NONE =>
    simp only [Sprite.GetPixel.index] at h
    split_ifs at h with hb
    obtain ⟨a, b, c, d⟩ := (s.inBounds_iff x y).1 hb
    simp only [Option.some.injEq] at h
    exact ⟨x, y, a, c, b, d, h.symm⟩
  | REPEAT =>
    simp only [Sprite.GetPixel.index, Option.some.injEq] at h
    obtain ⟨a, b⟩ := tmod_natAbs_range x s.size.x hx
    obtain ⟨c, d⟩ := tmod_natAbs_range y s.size.y hy
    exact ⟨_, _, a, b, c, d, h.symm⟩
  | MIRROR =>
    simp only [Sprite.GetPixel.index, Option.some.injEq] at h
    obtain ⟨a, b⟩ := tmod_natAbs_range x s.size.x hx
    obtain ⟨c, d⟩ := tmod_natAbs_range y s.size.y hy
    refine ⟨_, _, ?_, ?_, ?_, ?_, h.symm⟩
    · split_ifs <;> omega
    · split_ifs <;> omega
    · split_ifs <;> omega
    · split_ifs <;> omega
  | CLAMP =>
    simp only [Sprite.GetPixel.index, Option.some.injEq] at h
    refine ⟨_, _, ?_, ?_, ?_, ?_, h.symm⟩
    · unfold clamp; split_ifs <;> omega
    · unfold clamp; split_ifs <;> omega
    · unfold clamp; split_ifs <;> omega
    · unfold clamp; split_ifs <;> omega

/-- C31: for a sprite with `size.x > 0`, `size.y > 0` and `size.x * size.y`
pixels, for each of the four wrap methods and all integers `x`, `y`, whenever
`GetPixel(x, y, wrap)` reads an element, the index it reads is
`row * size.x + col` for a column in `[0, size.x)` and a row in `[0, size.y)`,
and it lies in `[0, size.x * size.y)`, inside the vector.  (`abs` is exact on
`Int`, which is the case of every `int` other than `INT_MIN`.) -/
theorem Sprite.GetPixel_reads_inside (s : Sprite) (hx : 0 < s.size.x) (hy : 0 < s.size.y)
    (hInv : s.Inv) (x y : Int) (wrap : Sprite.WrapMethod) (i : Int)
    (h : Sprite.GetPixel.index s x y wrap = some i) :
    (∃ col row : Int, 0 ≤ col ∧ col < s.size.x ∧ 0 ≤ row ∧ row < s.size.y ∧
      i = row * s.size.x + col) ∧
    0 ≤ i ∧ i < s.size.x * s.size.y ∧ i.toNat < s.pixels.length := by
  obtain ⟨col, row, a, b, c, d, e⟩ := Sprite.GetPixel_index_cases s x y wrap hx hy i h
  obtain ⟨h0, h1⟩ := index_range s.size.x s.size.y col row a c b d
  unfold Sprite.Inv at hInv
  refine ⟨⟨col, row, a, b, c, d, e⟩, by omega, by omega, by omega⟩

theorem Sprite.GetPixel_reads_inside_witness :
    (∃ col row : Int, 0 ≤ col ∧ col < sprite2x3.size.x ∧ 0 ≤ row ∧ row < sprite2x3.size.y ∧
      (2 : Int) = row * sprite2x3.size.x + col) ∧
    (0 : Int) ≤ 2 ∧ (2 : Int) < sprite2x3.size.x * sprite2x3.size.y ∧
      (2 : Int).toNat < sprite2x3.pixels.length :=
  Sprite.GetPixel_reads_inside sprite2x3 (by decide) (by decide) (by decide) (-3) 7
    Sprite.WrapMethod.MIRROR 2 (by decide)

/-- The index every wrap method addresses at an in-range position. -/
theorem Sprite.GetPixel_index_in_range (s : Sprite) (x y : Int) (wrap : Sprite.WrapMethod)
    (hx0 : 0 ≤ x) (hx : x < s.size.x) (hy0 : 0 ≤ y) (hy : y < s.size.y) :
    Sprite.GetPixel.index s x y wrap = some (y * s.size.x + x) := by
  cases wrap with
  | NONE =>
    have hb : s.inBounds x y = true := (s.inBounds_iff x y).2 ⟨hx0, hy0, hx, hy⟩
    simp only [Sprite.GetPixel.index, hb, if_true]
  | REPEAT =>
    simp only [Sprite.GetPixel.index, tmod_natAbs_of_range x _ hx0 hx,
      tmod_natAbs_of_range y _ hy0 hy]
  | MIRROR =>
    simp only [Sprite.GetPixel.index, tmod_natAbs_of_range x _ hx0 hx,
      tmod_natAbs_of_range y _ hy0 hy, if_neg (not_lt.2 hx0), if_neg (not_lt.2 hy0)]
  | CLAMP =>
    have e1 : clamp x 0 (s.size.x - 1) = x := by unfold clamp; split_ifs <;> omega
    have e2 : clamp y 0 (s.size.y - 1) = y := by unfold clamp; split_ifs <;> omega
    simp only [Sprite.GetPixel.index, e1, e2]

/-- C32: for a sprite holding `size.x * size.y` pixels and a position with
`0 <= x < size.x`, `0 <= y < size.y`, `GetPixel(x, y, wrap)` returns the stored
element `pixels[y * size.x + x]` for each of the four wrap methods, so REPEAT,
MIRROR and CLAMP agree with NONE there, and after `SetPixel(x, y, col)` it
returns `col`. -/
theorem Sprite.GetPixel_in_range_all_wraps (s : Sprite) (x y : Int)
    (wrap : Sprite.WrapMethod) (col : Pixel) (hInv : s.Inv)
    (hx0 : 0 ≤ x) (hx : x < s.size.x) (hy0 : 0 ≤ y) (hy : y < s.size.y) :
    s.pixels[(y * s.size.x + x).toNat]? = some (s.GetPixel x y wrap) ∧
    s.GetPixel x y wrap = s.GetPixel x y Sprite.WrapMethod.NONE ∧
    (s.SetPixel x y col).1 = true ∧
    (s.SetPixel x y col).2.GetPixel x y wrap = col := by
  have hb : s.inBounds x y = true := (s.inBounds_iff x y).2 ⟨hx0, hy0, hx, hy⟩
  obtain ⟨h0, hlt⟩ := s.index_lt_length x y hInv hb
  have hget : ∀ (t : Sprite) (w : Sprite.WrapMethod), t.size = s.size →
      t.GetPixel x y w = t.pixels.getD (y * s.size.x + x).toNat BLACK := by
    intro t w ht
    unfold Sprite.GetPixel
    rw [Sprite.GetPixel_index_in_range t x y w hx0 (by rw [ht]; exact hx) hy0
      (by rw [ht]; exact hy), ht]
    simp only [Sprite.pixelsAt, h0, if_true]
  refine ⟨?_, ?_, ?_, ?_⟩
  · rw [hget s wrap rfl, List.getD_eq_getElem?_getD, List.getElem?_eq_getElem hlt]
    rfl
  · rw [hget s wrap rfl, hget s _ rfl]
  · rw [Sprite.SetPixel_fst]; exact hb
  · rw [hget _ wrap (Sprite.SetPixel_size s x y col).1, Sprite.SetPixel_in s x y col hb]
    simp [List.getD_eq_getElem?_getD, List.getElem?_set, hlt]

theorem Sprite.GetPixel_in_range_all_wraps_witness :
    sprite2x2.pixels[((1 : Int) * sprite2x2.size.x + 0).toNat]? =
      some (sprite2x2.GetPixel 0 1 Sprite.WrapMethod.MIRROR) ∧
    sprite2x2.GetPixel 0 1 Sprite.WrapMethod.MIRROR =
      sprite2x2.GetPixel 0 1 Sprite.WrapMethod.NONE ∧
    (sprite2x2.SetPixel 0 1 BLUE).1 = true ∧
    (sprite2x2.SetPixel 0 1 BLUE).2.GetPixel 0 1 Sprite.WrapMethod.MIRROR = BLUE :=
  Sprite.GetPixel_in_range_all_wraps sprite2x2 0 1 Sprite.WrapMethod.MIRROR BLUE
    (by decide) (by decide) (by decide) (by decide) (by decide)

/-! ## Pixel products and quotients -/

/-- C33 fails on the code: `a += b` and `a -= b` store the colour channels of
`a + b` and `a - b`, but `a *= b` stores the clamped integer product while
`a * b` is the product normalised by 255.  For `a = b = Pixel(2, 2, 2)` the
channels after `a *= b` are 4 and the channels of `a * b` are 0; for
`a = b = Pixel(16, 16, 16)` they are 255 and 1. -/
theorem Pixel.times_eq_differs_from_times :
    (∀ a b : Pixel,
      (a.operator_plus_eq b).r = (a.operator_plus b).r ∧
      (a.operator_plus_eq b).g = (a.operator_plus b).g ∧
      (a.operator_plus_eq b).b = (a.operator_plus b).b ∧
      (a.operator_minus_eq b).r = (a.operator_minus b).r ∧
      (a.operator_minus_eq b).g = (a.operator_minus b).g ∧
      (a.operator_minus_eq b).b = (a.operator_minus b).b) ∧
    (Pixel.operator_times_eq { r := 2, g := 2, b := 2 } { r := 2, g := 2, b := 2 } =
      { r := 4, g := 4, b := 4 }) ∧
    (Pixel.operator_times { r := 2, g := 2, b := 2 } { r := 2, g := 2, b := 2 } =
      { r := 0, g := 0, b := 0 }) ∧
    (Pixel.operator_times_eq { r := 16, g := 16, b := 16 } { r := 16, g := 16, b := 16 } =
      { r := 255, g := 255, b := 255 }) ∧
    (Pixel.operator_times { r := 16, g := 16, b := 16 } { r := 16, g := 16, b := 16 } =
      { r := 1, g := 1, b := 1 }) := by
  refine ⟨fun a b => ⟨rfl, rfl, rfl, rfl, rfl, rfl⟩, by decide, by decide, by decide, by decide⟩

theorem Pixel.bind3_some {α : Type} (cr cg cb : Option (Fin 256)) (f : Fin 256 → Fin 256 → Fin 256 → α)
    (q : α)
    (h : (do let r ← cr; let g ← cg; let b ← cb; pure (f r g b) : Option α) = some q) :
    ∃ r g b, cr = some r ∧ cg = some g ∧ cb = some b ∧ q = f r g b := by
  cases cr with
  | none => simp at h
  | some r =>
    cases cg with
    | none => simp at h
    | some g =>
      cases cb with
      | none => simp at h
      | some b =>
        have h1 : some (f r g b) = some q := h
        exact ⟨r, g, b, rfl, rfl, rfl, (Option.some.inj h1).symm⟩

/-- C34 fails on the code at `/=` with a Pixel: `operator/=(const Pixel&)`
divides integers, so with a zero colour channel in the right operand
(`WHITE /= BLACK`, or a single zero channel) the division is undefined and the
call does not leave the left operand with its alpha, while on the same
operands the sibling operators `operator/(const Pixel&)` and
`operator/=(const float)` divide in `float` and saturate to 255, keeping the
alpha as claimed.  Everywhere else the claim holds: for all operands `+`, `-`,
`*` return alpha 255 and `+=`, `-=`, `*=` keep the alpha of the left operand,
and every pixel a quotient or a scalar product returns has the alpha
claimed. -/
theorem Pixel.div_eq_divides_integers :
    Pixel.operator_div_eq WHITE BLACK = none ∧
    Pixel.operator_div_eq { r := 10, g := 20, b := 30, a := 40 } { r := 1, g := 0, b := 1 } =
      none ∧
    Pixel.operator_div WHITE BLACK = some WHITE ∧
    Pixel.operator_div { r := 10, g := 20, b := 30, a := 40 } { r := 1, g := 0, b := 1 } =
      some { r := 10, g := 255, b := 30, a := 255 } ∧
    Pixel.operator_div_eq_float Pixel.div_float_channel { r := 10, g := 20, b := 30, a := 40 }
      (0 : Int) = some { r := 255, g := 255, b := 255, a := 40 } ∧
    (∀ (p q : Pixel) (k : Int),
      ((p.operator_plus q).a = 255 ∧ (p.operator_minus q).a = 255 ∧
        (p.operator_times q).a = 255 ∧
        (p.operator_plus_float k).a = 255 ∧ (p.operator_minus_float k).a = 255) ∧
      ((p.operator_plus_eq q).a = p.a ∧ (p.operator_minus_eq q).a = p.a ∧
        (p.operator_times_eq q).a = p.a ∧
        (p.operator_plus_eq_float k).a = p.a ∧ (p.operator_minus_eq_float k).a = p.a)) ∧
    (∀ p q r : Pixel, p.operator_div q = some r → r.a = 255) ∧
    (∀ p q r : Pixel, p.operator_div_eq q = some r → r.a = p.a) ∧
    (∀ (F : Type) (chan : Fin 256 → F → Option (Fin 256)) (p : Pixel) (f : F) (r : Pixel),
      (Pixel.operator_times_float chan p f = some r → r.a = 255) ∧
      (Pixel.operator_div_float chan p f = some r → r.a = 255) ∧
      (Pixel.operator_times_eq_float chan p f = some r → r.a = p.a) ∧
      (Pixel.operator_div_eq_float chan p f = some r → r.a = p.a)) := by
  refine ⟨by decide, by decide, by decide, by decide, by decide,
    fun p q k => ⟨⟨rfl, rfl, rfl, rfl, rfl⟩, ⟨rfl, rfl, rfl, rfl, rfl⟩⟩, ?_, ?_, ?_⟩
  · intro p q r h
    obtain ⟨_, _, _, _, _, _, e⟩ := Pixel.bind3_some _ _ _
      (fun r g b => ({ r := r, g := g, b := b } : Pixel)) r h
    rw [e]
  · intro p q r h
    obtain ⟨_, _, _, _, _, _, e⟩ := Pixel.bind3_some _ _ _
      (fun r g b => ({ p with r := r, g := g, b := b } : Pixel)) r h
    rw [e]
  · intro F chan p f r
    refine ⟨fun h => ?_, fun h => ?_, fun h => ?_, fun h => ?_⟩
    · obtain ⟨_, _, _, _, _, _, e⟩ := Pixel.bind3_some _ _ _
        (fun r g b => ({ r := r, g := g, b := b } : Pixel)) r h
      rw [e]
    · obtain ⟨_, _, _, _, _, _, e⟩ := Pixel.bind3_some _ _ _
        (fun r g b => ({ r := r, g := g, b := b } : Pixel)) r h
      rw [e]
    · obtain ⟨_, _, _, _, _, _, e⟩ := Pixel.bind3_some _ _ _
        (fun r g b => ({ p with r := r, g := g, b := b } : Pixel)) r h
      rw [e]
    · obtain ⟨_, _, _, _, _, _, e⟩ := Pixel.bind3_some _ _ _
        (fun r g b => ({ p with r := r, g := g, b := b } : Pixel)) r h
      rw [e]

/-! ## Shader and pixel mode setters -/

namespace GameEngine

/-- C38 fails on the code: `SetPixelMode` stores its argument without looking
at `m_Shader`, so `SetPixelMode(Pixel::Mode::CUSTOM)` on the constructed engine
gives a state with mode CUSTOM and a null shader, and with a draw target in
place `Draw` then calls the null `m_Shader`.  `SetShader` alone keeps the mode
CUSTOM exactly when the shader is not null. -/
theorem SetPixelMode_custom_without_shader :
    SetterReachable (GameEngine.constructed.SetPixelMode Pixel.Mode.CUSTOM) ∧
    (GameEngine.constructed.SetPixelMode Pixel.Mode.CUSTOM).m_PixelMode = Pixel.Mode.CUSTOM ∧
    (GameEngine.constructed.SetPixelMode Pixel.Mode.CUSTOM).m_Shader.isNone = true ∧
    (∀ (blend : Fin 256 → Fin 256 → Fin 256 → Fin 256) (s : Sprite) (x y : Int) (col : Pixel),
      ((GameEngine.constructed.SetPixelMode Pixel.Mode.CUSTOM).withTarget s).Draw blend x y col
        = none) ∧
    (∀ (e : GameEngine) (func : Option (Vi2d → Pixel → Pixel → Pixel)),
      ((e.SetShader func).m_PixelMode = Pixel.Mode.CUSTOM ↔
        (e.SetShader func).m_Shader.isSome = true)) := by
  refine ⟨SetterReachable.setPixelMode _ _ SetterReachable.constructed, rfl, rfl, ?_, ?_⟩
  · intro blend s x y col
    rfl
  · intro e func
    cases func with
    | none => simp [SetShader]
    | some f => simp [SetShader]

/-! ## Rectangle outline -/

/-- C36: for `sizeX >= 1` and `sizeY >= 1` the positions
`DrawRectangle(x, y, sizeX, sizeY)` plots are exactly the perimeter of the box
with corners `(x, y)` and `(x + sizeX - 1, y + sizeY)`: the columns
`x .. x + sizeX - 1` on the rows `y` and `y + sizeY`, and the rows
`y .. y + sizeY` on the columns `x` and `x + sizeX - 1`. -/
theorem DrawRectangle_perimeter (x y sizeX sizeY : Int) (hX : 1 ≤ sizeX) (hY : 1 ≤ sizeY)
    (px py : Int) :
    (px, py) ∈ DrawRectangle.plots x y sizeX sizeY ↔
      (((py = y ∨ py = y + sizeY) ∧ x ≤ px ∧ px ≤ x + sizeX - 1) ∨
       ((px = x ∨ px = x + sizeX - 1) ∧ y ≤ py ∧ py ≤ y + sizeY)) := by
  unfold DrawRectangle.plots
  simp only [List.mem_append, List.mem_flatMap, List.mem_range, List.mem_cons,
    List.mem_singleton, List.not_mem_nil, or_false, Prod.mk.injEq]
  constructor
  · rintro ((⟨i, hi, h | h⟩ | ⟨i, hi, h | h⟩) | h) <;> omega
  · intro h
    by_cases h1 : px = x + sizeX - 1 ∧ py = y + sizeY
    · exact Or.inr h1
    · by_cases h2 : (py = y ∨ py = y + sizeY) ∧ px < x + sizeX - 1 ∧ x ≤ px
      · refine Or.inl (Or.inl ⟨(px - x).toNat, by omega, ?_⟩)
        rcases h2.1 with h3 | h3
        · exact Or.inl ⟨by omega, h3⟩
        · exact Or.inr ⟨by omega, h3⟩
      · have h4 : (px = x ∨ px = x + sizeX - 1) ∧ y ≤ py ∧ py < y + sizeY := by omega
        refine Or.inl (Or.inr ⟨(py - y).toNat, by omega, ?_⟩)
        rcases h4.1 with h3 | h3
        · exact Or.inl ⟨h3, by omega⟩
        · exact Or.inr ⟨h3, by omega⟩

theorem DrawRectangle_perimeter_witness :
    ((5 : Int), (9 : Int)) ∈ DrawRectangle.plots 2 3 4 6 ↔
      ((((9 : Int) = 3 ∨ (9 : Int) = 3 + 6) ∧ (2 : Int) ≤ 5 ∧ (5 : Int) ≤ 2 + 4 - 1) ∨
       (((5 : Int) = 2 ∨ (5 : Int) = 2 + 4 - 1) ∧ (3 : Int) ≤ 9 ∧ (9 : Int) ≤ 3 + 6)) :=
  DrawRectangle_perimeter 2 3 4 6 (by decide) (by decide) 5 9

end GameEngine

/-! ## Path finder -/

/-- C39 fails on the code: the tests of `SetNodes` use the vector comparisons,
which hold only when both components compare, so a position with one component
outside the map passes.  On the 2x2 map built by `ConstructMap`,
`SetNodes((-1, 0), (0, 0))` returns true with the start node at index -1,
`SetNodes((0, 0), (5, 0))` returns true with the goal node at index 5, and
`SetNodes((1, 7), (1, -3))` returns true with both indices outside the four
nodes. -/
theorem PathFinder.SetNodes_accepts_outside :
    (PathFinder.constructed.ConstructMap { x := 2, y := 2 }).1 = true ∧
    (PathFinder.constructed.ConstructMap { x := 2, y := 2 }).2.m_Nodes = 4 ∧
    ((PathFinder.constructed.ConstructMap { x := 2, y := 2 }).2.SetNodes
      { x := -1, y := 0 } { x := 0, y := 0 }).1 = true ∧
    ((PathFinder.constructed.ConstructMap { x := 2, y := 2 }).2.SetNodes
      { x := -1, y := 0 } { x := 0, y := 0 }).2.m_Start = some (-1) ∧
    ((PathFinder.constructed.ConstructMap { x := 2, y := 2 }).2.SetNodes
      { x := 0, y := 0 } { x := 5, y := 0 }).1 = true ∧
    ((PathFinder.constructed.ConstructMap { x := 2, y := 2 }).2.SetNodes
      { x := 0, y := 0 } { x := 5, y := 0 }).2.m_Goal = some 5 ∧
    ((PathFinder.constructed.ConstructMap { x := 2, y := 2 }).2.SetNodes
      { x := 1, y := 7 } { x := 1, y := -3 }) =
        (true, { m_MapSize := { x := 2, y := 2 }, m_Nodes := 4,
                 m_Start := some 15, m_Goal := some (-5) }) := by
  decide

namespace GameEngine

/-! ## Filled ellipse -/

theorem FillEllipse.mem_draw_span (start stop y : Int) (p : Int × Int) :
    p ∈ FillEllipse.draw_line start stop y ↔ p.2 = y ∧ start ≤ p.1 ∧ p.1 ≤ stop := by
  obtain ⟨a, b⟩ := p
  unfold FillEllipse.draw_line
  simp only [List.mem_map, List.mem_range, Prod.mk.injEq]
  constructor
  · rintro ⟨k, hk, h1, h2⟩
    omega
  · rintro ⟨h1, h2, h3⟩
    exact ⟨(a - start).toNat, by omega, by omega, h1.symm⟩

/-- The four positions an iteration of `DrawEllipse` plots lie on the two rows
the same iteration of `FillEllipse` draws. -/
theorem FillEllipse.batch_subset (x x1 y y1 : Int) (h : x ≤ x1) (p : Int × Int)
    (hp : p ∈ [(x1, y), (x, y), (x, y1), (x1, y1)]) :
    p ∈ FillEllipse.draw_line x x1 y ++ FillEllipse.draw_line x x1 y1 := by
  simp only [List.mem_append, FillEllipse.mem_draw_span]
  simp only [List.mem_cons, List.mem_singleton, List.not_mem_nil, or_false] at hp
  rcases hp with rfl | rfl | rfl | rfl
  · exact Or.inl ⟨rfl, h, le_refl _⟩
  · exact Or.inl ⟨rfl, le_refl _, h⟩
  · exact Or.inr ⟨rfl, le_refl _, h⟩
  · exact Or.inr ⟨rfl, h, le_refl _⟩

/-- The `do` loops of `DrawEllipse` and `FillEllipse` run in lockstep: from the
same state with `x <= x1` and with the same bound, when the first returns, the
second returns the same final state and has drawn every position of the
first; the final state has `x - 1 <= x1 + 1`. -/
theorem FillEllipse.loop_covers (a b1 : Int) (fuel : Nat) :
    ∀ (x x1 y y1 dx dy err : Int) (r : List (Int × Int) × Int × Int × Int × Int),
      x ≤ x1 →
      DrawEllipse.loop a b1 fuel x x1 y y1 dx dy err = some r →
      ∃ qs : List (Int × Int),
        FillEllipse.loop a b1 fuel x x1 y y1 dx dy err = some (qs, r.2) ∧
        (∀ p ∈ r.1, p ∈ qs) ∧ r.2.1 - 1 ≤ r.2.2.1 + 1 := by
  induction fuel with
  | zero =>
    intro x x1 y y1 dx dy err r _ h
    simp [DrawEllipse.loop] at h
  | succ fuel ih =>
    intro x x1 y y1 dx dy err r hx h
    have hb := FillEllipse.batch_subset x x1 y y1 hx
    rw [DrawEllipse.loop] at h
    rw [FillEllipse.loop]
    split_ifs at h ⊢ <;>
    first
    | (simp only [Option.some.injEq] at h
       subst h
       exact ⟨_, rfl, hb, by simp only; omega⟩)
    | (split at h
       · exact absurd h (by simp)
       · rename_i r1 hr1
         simp only [Option.some.injEq] at h
         subst h
         obtain ⟨qs, h1, h2, h3⟩ := ih _ _ _ _ _ _ _ r1 (by assumption) hr1
         refine ⟨_, by rw [h1], ?_, h3⟩
         intro p hp
         simp only [List.mem_append] at hp
         rcases hp with hp | hp
         · exact List.mem_append_left _ (hb p hp)
         · exact List.mem_append_right _ (h2 p hp))

/-- The trailing loops of `DrawEllipse` and `FillEllipse` run in lockstep. -/
theorem FillEllipse.tail_covers (b x x1 : Int) (hx : x - 1 ≤ x1 + 1) (fuel : Nat) :
    ∀ (y y1 : Int) (r : List (Int × Int)),
      DrawEllipse.tail b x x1 fuel y y1 = some r →
      ∃ qs : List (Int × Int),
        FillEllipse.tail b x x1 fuel y y1 = some qs ∧ ∀ p ∈ r, p ∈ qs := by
  induction fuel with
  | zero =>
    intro y y1 r h
    simp only [DrawEllipse.tail] at h
    split_ifs at h with hc
    simp only [Option.some.injEq] at h
    subst h
    refine ⟨[], ?_, fun p hp => hp⟩
    simp only [FillEllipse.tail, if_neg hc]
  | succ fuel ih =>
    intro y y1 r h
    rw [DrawEllipse.tail] at h
    rw [FillEllipse.tail]
    split_ifs at h ⊢ with hc
    · split at h
      · exact absurd h (by simp)
      · rename_i r1 hr1
        simp only [Option.some.injEq] at h
        subst h
        obtain ⟨qs, h1, h2⟩ := ih _ _ r1 hr1
        refine ⟨_, by rw [h1], ?_⟩
        intro p hp
        simp only [List.mem_append] at hp
        rcases hp with hp | hp
        · apply List.mem_append_left
          have := FillEllipse.batch_subset (x - 1) (x1 + 1) y y1 hx p
          simp only [List.mem_cons, List.mem_singleton, List.not_mem_nil, or_false] at this hp
          apply this
          tauto
        · exact List.mem_append_right _ (h2 p hp)
    · simp only [Option.some.injEq] at h
      subst h
      exact ⟨[], rfl, fun p hp => hp⟩

/-- A larger iteration bound does not change what the `do` loop of
`FillEllipse` returns. -/
theorem FillEllipse.loop_mono (a b1 : Int) (n : Nat) :
    ∀ (m : Nat) (x x1 y y1 dx dy err : Int) (r : List (Int × Int) × Int × Int × Int × Int),
      n ≤ m → FillEllipse.loop a b1 n x x1 y y1 dx dy err = some r →
      FillEllipse.loop a b1 m x x1 y y1 dx dy err = some r := by
  induction n with
  | zero =>
    intro m x x1 y y1 dx dy err r _ h
    simp [FillEllipse.loop] at h
  | succ n ih =>
    intro m x x1 y y1 dx dy err r hm h
    obtain ⟨m', rfl⟩ : ∃ m', m = m' + 1 := ⟨m - 1, by omega⟩
    rw [FillEllipse.loop] at h ⊢
    split_ifs at h ⊢ <;>
    first
    | exact h
    | (split at h
       · exact absurd h (by simp)
       · rename_i r1 hr1
         rw [ih m' _ _ _ _ _ _ _ r1 (by omega) hr1]
         exact h)

/-- A larger iteration bound does not change what the trailing loop of
`FillEllipse` returns. -/
theorem FillEllipse.tail_mono (b x x1 : Int) (n : Nat) :
    ∀ (m : Nat) (y y1 : Int) (r : List (Int × Int)),
      n ≤ m → FillEllipse.tail b x x1 n y y1 = some r →
      FillEllipse.tail b x x1 m y y1 = some r := by
  induction n with
  | zero =>
    intro m y y1 r _ h
    simp only [FillEllipse.tail] at h
    split_ifs at h with hc
    cases m with
    | zero => simp only [FillEllipse.tail, if_neg hc]; exact h
    | succ m => rw [FillEllipse.tail, if_neg hc]; exact h
  | succ n ih =>
    intro m y y1 r hm h
    obtain ⟨m', rfl⟩ : ∃ m', m = m' + 1 := ⟨m - 1, by omega⟩
    rw [FillEllipse.tail] at h ⊢
    split_ifs at h ⊢ with hc
    · split at h
      · exact absurd h (by simp)
      · rename_i r1 hr1
        rw [ih m' _ _ r1 (by omega) hr1]
        exact h
    · exact h

/-- A larger iteration bound does not change what `FillEllipse` plots. -/
theorem FillEllipse.plots_mono (n m : Nat) (x y sizeX sizeY : Int) (qs : List (Int × Int))
    (hm : n ≤ m) (h : FillEllipse.plots n x y sizeX sizeY = some qs) :
    FillEllipse.plots m x y sizeX sizeY = some qs := by
  unfold FillEllipse.plots at h ⊢
  simp only at h ⊢
  split at h
  · exact absurd h (by simp)
  · rename_i ps xf x1f yf y1f hl
    split at h
    · exact absurd h (by simp)
    · rename_i rt ht
      rw [FillEllipse.loop_mono _ _ n m _ _ _ _ _ _ _ _ hm hl]
      simp only
      rw [FillEllipse.tail_mono _ _ _ n m _ _ _ hm ht]
      exact h

/-- C35: `DrawEllipse(x, y, sizeX, sizeY)` and `FillEllipse(x, y, sizeX, sizeY)`
both return (their loops reach the exit within `DrawEllipse.fuel sizeX sizeY`
iterations), and every position `DrawEllipse` plots, those of the trailing
flat-tip loop included, is also plotted by `FillEllipse`.  This holds for all
`x`, `y` and every sign of the sizes. -/
theorem DrawEllipse_subset_FillEllipse (x y sizeX sizeY : Int) :
    ∃ ps qs : List (Int × Int),
      (∀ fuel : Nat, DrawEllipse.fuel sizeX sizeY ≤ fuel →
        DrawEllipse.plots fuel x y sizeX sizeY = some ps ∧
        FillEllipse.plots fuel x y sizeX sizeY = some qs) ∧
      ∀ p ∈ ps, p ∈ qs := by
  obtain ⟨r, hr⟩ := DrawEllipse.loop_start sizeX sizeY x
    ((if y > y + sizeY then y + sizeY else y) + ((sizeY.natAbs : Int) + 1) / 2)
  obtain ⟨ps1, xf, x1f, yf, y1f⟩ := r
  have hx0 : (if x > x + sizeX then x + sizeX else x) ≤
      (if x > x + sizeX then x + sizeX + (sizeX.natAbs : Int) else x + sizeX) := by
    split_ifs <;> omega
  have hcx : (if x > x + sizeX then x + sizeX else x) +
      (if x > x + sizeX then x + sizeX + (sizeX.natAbs : Int) else x + sizeX) =
        2 * x + sizeX := by
    split_ifs <;> omega
  have hcy : ((if y > y + sizeY then y + sizeY else y) + ((sizeY.natAbs : Int) + 1) / 2) +
      ((if y > y + sizeY then y + sizeY else y) + ((sizeY.natAbs : Int) + 1) / 2 -
        (sizeY.natAbs : Int) % 2) = 2 * y + sizeY := by
    split_ifs <;> omega
  obtain ⟨_, _, hyf, hyy⟩ := DrawEllipse.loop_sym _ _ (2 * x + sizeX) (2 * y + sizeY) _
    _ _ _ _ _ _ _ _ hcx hcy (hr _ (le_refl _))
  simp only at hyf hyy
  obtain ⟨rt, hrt⟩ := DrawEllipse.tail_terminates (sizeY.natAbs : Int) xf x1f sizeY.natAbs yf y1f
    (by omega)
  have hfill : ∀ fuel : Nat, DrawEllipse.fuel sizeX sizeY ≤ fuel →
      ∃ qs1 qt : List (Int × Int),
        FillEllipse.plots fuel x y sizeX sizeY = some (qs1 ++ qt) ∧
        (∀ p ∈ ps1, p ∈ qs1) ∧ (∀ p ∈ rt, p ∈ qt) := by
    intro fuel hfuel
    have hb : sizeY.natAbs ≤ fuel := by
      simp only [DrawEllipse.fuel] at hfuel
      omega
    obtain ⟨qs1, h1, h2, h3⟩ := FillEllipse.loop_covers _ _ fuel _ _ _ _ _ _ _ _ hx0
      (hr fuel hfuel)
    simp only at h1 h3
    obtain ⟨qt, h4, h5⟩ := FillEllipse.tail_covers (sizeY.natAbs : Int) xf x1f h3 fuel yf y1f rt
      (hrt fuel hb)
    refine ⟨qs1, qt, ?_, h2, h5⟩
    unfold FillEllipse.plots
    simp only [add_sub_cancel_left, h1, h4]
  obtain ⟨qs1, qt, hq, hq1, hq2⟩ := hfill _ (le_refl _)
  refine ⟨ps1 ++ rt, qs1 ++ qt, fun fuel hfuel => ⟨?_, ?_⟩, ?_⟩
  · have hb : sizeY.natAbs ≤ fuel := by
      simp only [DrawEllipse.fuel] at hfuel
      omega
    have h1 := hr fuel hfuel
    have h2 := hrt fuel hb
    unfold DrawEllipse.plots
    simp only [add_sub_cancel_left, h1, h2]
  · exact FillEllipse.plots_mono _ fuel x y sizeX sizeY _ hfuel hq
  · intro p hp
    simp only [List.mem_append] at hp ⊢
    rcases hp with hp | hp
    · exact Or.inl (hq1 p hp)
    · exact Or.inr (hq2 p hp)

end GameEngine

/-! ## Sprite blits -/

/-- Writes at two different positions commute. -/
theorem Sprite.SetPixel_comm (t : Sprite) (x y x' y' : Int) (c c' : Pixel)
    (hne : ¬ (x' = x ∧ y' = y)) :
    ((t.SetPixel x y c).2.SetPixel x' y' c').2 = ((t.SetPixel x' y' c').2.SetPixel x y c).2 := by
  cases h : t.inBounds x y
  · have h' : (t.SetPixel x' y' c').2.inBounds x y = false := by
      rw [Sprite.inBounds_SetPixel]; exact h
    rw [Sprite.SetPixel_out t x y c h, Sprite.SetPixel_out _ x y c h']
  · cases h2 : t.inBounds x' y'
    · have h' : (t.SetPixel x y c).2.inBounds x' y' = false := by
        rw [Sprite.inBounds_SetPixel]; exact h2
      rw [Sprite.SetPixel_out t x' y' c' h2, Sprite.SetPixel_out _ x' y' c' h']
    · have h' : (t.SetPixel x y c).2.inBounds x' y' = true := by
        rw [Sprite.inBounds_SetPixel]; exact h2
      have h'' : (t.SetPixel x' y' c').2.inBounds x y = true := by
        rw [Sprite.inBounds_SetPixel]; exact h
      rw [Sprite.SetPixel_in _ x' y' c' h', Sprite.SetPixel_in _ x y c h'',
        (Sprite.SetPixel_size t x y c).1, (Sprite.SetPixel_size t x' y' c').1,
        Sprite.SetPixel_in t x y c h, Sprite.SetPixel_in t x' y' c' h2]
      obtain ⟨hx0, hy0, hx, _⟩ := (t.inBounds_iff x y).1 h
      obtain ⟨hx0', hy0', hx', _⟩ := (t.inBounds_iff x' y').1 h2
      have hidx : (y * t.size.x + x).toNat ≠ (y' * t.size.x + x').toNat := by
        intro he
        have a1 : 0 ≤ y * t.size.x := mul_nonneg hy0 (by omega)
        have a2 : 0 ≤ y' * t.size.x := mul_nonneg hy0' (by omega)
        have : y * t.size.x + x = y' * t.size.x + x' := by omega
        obtain ⟨e1, e2⟩ := index_inj t.size.x x y x' y' hx0 hx hx0' hx' this
        exact hne ⟨e1.symm, e2.symm⟩
      simp only [List.set_comm _ _ _ hidx]

namespace GameEngine

/-- A `Draw` call leaves every other position as it was. -/
theorem Draw.target_other (blend : Fin 256 → Fin 256 → Fin 256 → Fin 256) (mode : Pixel.Mode)
    (t : Sprite) (x y x' y' : Int) (col : Pixel) (hne : ¬ (x' = x ∧ y' = y)) :
    (Draw.target blend mode t x y col).GetPixel x' y' = t.GetPixel x' y' := by
  unfold Draw.target
  split
  · exact Sprite.GetPixel_SetPixel_other t x y x' y' _ hne
  · rfl

/-- `Draw` calls at two different positions commute. -/
theorem Draw.target_comm (blend : Fin 256 → Fin 256 → Fin 256 → Fin 256) (mode : Pixel.Mode)
    (t : Sprite) (x y x' y' : Int) (c c' : Pixel) (hne : ¬ (x' = x ∧ y' = y)) :
    Draw.target blend mode (Draw.target blend mode t x y c) x' y' c' =
      Draw.target blend mode (Draw.target blend mode t x' y' c') x y c := by
  have hne' : ¬ (x = x' ∧ y = y') := fun h => hne ⟨h.1.symm, h.2.symm⟩
  have e1 := Draw.target_other blend mode t x y x' y' c hne
  have e2 := Draw.target_other blend mode t x' y' x y c' hne'
  rw [Draw.target.eq_1 blend mode (Draw.target blend mode t x y c),
    Draw.target.eq_1 blend mode (Draw.target blend mode t x' y' c'), e1, e2]
  cases h1 : Draw.stored blend mode (t.GetPixel x y) c with
  | none =>
    cases h2 : Draw.stored blend mode (t.GetPixel x' y') c' with
    | none => simp only [Draw.target, h1, h2]
    | some d' => simp only [Draw.target, h1, h2]
  | some d =>
    cases h2 : Draw.stored blend mode (t.GetPixel x' y') c' with
    | none => simp only [Draw.target, h1, h2]
    | some d' =>
      simp only [Draw.target, h1, h2]
      exact Sprite.SetPixel_comm t x y x' y' d d' hne

/-- The engine after one `Draw` call in a mode without shader. -/
theorem Draw_eq_target (blend : Fin 256 → Fin 256 → Fin 256 → Fin 256) (e : GameEngine)
    (g : Graphic) (x y : Int) (col : Pixel) (hm : e.m_PixelMode ≠ Pixel.Mode.CUSTOM)
    (ht : e.m_DrawTarget = some g) :
    ∃ b : Bool, e.Draw blend x y col =
      some (b, e.withTarget (Draw.target blend e.m_PixelMode g.sprite x y col)) := by
  cases hmode : e.m_PixelMode with
  | CUSTOM => exact absurd hmode hm
  | DEFAULT =>
    exact ⟨_, by rw [GameEngine.Draw_eq_of_DEFAULT blend e g x y col hmode ht]; rfl⟩
  | MASK =>
    rw [GameEngine.Draw_eq_of_MASK blend e g x y col hmode ht]
    by_cases ha : col.a = 255
    · exact ⟨(g.sprite.SetPixel x y col).1, by simp only [ha, if_true, Draw.target, Draw.stored]⟩
    · refine ⟨false, ?_⟩
      simp only [ha, if_false, Draw.target, Draw.stored]
      rw [GameEngine.withTarget_self e g ht]
  | ALPHA =>
    exact ⟨_, by rw [GameEngine.Draw_eq_of_ALPHA blend e g x y col hmode ht]; rfl⟩

/-- A run of `Draw` calls from a source sprite other than the target, in a mode
without shader: it returns, and the target sprite afterwards is
`Draw.targetAll`. -/
theorem drawFromAll_other (blend : Fin 256 → Fin 256 → Fin 256 → Fin 256) (s : Sprite)
    (steps : List ((Int × Int) × (Int × Int))) :
    ∀ (e : GameEngine) (g : Graphic), e.m_PixelMode ≠ Pixel.Mode.CUSTOM →
      e.m_DrawTarget = some g →
      drawFromAll blend (SpriteArg.other s) e steps =
        some (e.withTarget (Draw.targetAll blend e.m_PixelMode s g.sprite steps)) := by
  induction steps with
  | nil =>
    intro e g _ ht
    simp only [drawFromAll, Draw.targetAll, List.foldl_nil, GameEngine.withTarget_self e g ht]
  | cons st rest ih =>
    intro e g hm ht
    obtain ⟨b, hb⟩ := Draw_eq_target blend e g st.1.1 st.1.2 (s.GetPixel st.2.1 st.2.2) hm ht
    have h1 := ih (e.withTarget (Draw.target blend e.m_PixelMode g.sprite st.1.1 st.1.2
      (s.GetPixel st.2.1 st.2.2)))
      (Graphic.mk (Draw.target blend e.m_PixelMode g.sprite st.1.1 st.1.2
        (s.GetPixel st.2.1 st.2.2))) hm rfl
    simp only [drawFromAll, drawFrom, deref, hb, h1]
    rfl

/-- Without a draw target every `Draw` call returns false and changes
nothing. -/
theorem drawFromAll_no_target (blend : Fin 256 → Fin 256 → Fin 256 → Fin 256) (s : Sprite)
    (steps : List ((Int × Int) × (Int × Int))) (e : GameEngine)
    (ht : e.m_DrawTarget = none) :
    drawFromAll blend (SpriteArg.other s) e steps = some e := by
  induction steps with
  | nil => rfl
  | cons st rest ih =>
    have hd : e.Draw blend st.1.1 st.1.2 (s.GetPixel st.2.1 st.2.2) = some (false, e) := by
      unfold GameEngine.Draw
      simp only [ht]
    simp only [drawFromAll, drawFrom, deref, hd, ih]

/-- The target after a run of `Draw` calls at pairwise different positions
does not depend on the order of the calls. -/
theorem Draw.targetAll_perm (blend : Fin 256 → Fin 256 → Fin 256 → Fin 256) (mode : Pixel.Mode)
    (s : Sprite) (l1 l2 : List ((Int × Int) × (Int × Int))) (hp : l1.Perm l2) :
    (l1.map Prod.fst).Nodup → ∀ t : Sprite,
      Draw.targetAll blend mode s t l1 = Draw.targetAll blend mode s t l2 := by
  induction hp with
  | nil => intro _ t; rfl
  | cons a _ ih =>
    intro hn t
    simp only [List.map_cons, List.nodup_cons] at hn
    simp only [Draw.targetAll, List.foldl_cons]
    exact ih hn.2 _
  | swap a b l =>
    intro hn t
    simp only [List.map_cons, List.nodup_cons, List.mem_cons, not_or] at hn
    have hne : ¬ (a.1.1 = b.1.1 ∧ a.1.2 = b.1.2) := by
      intro h
      exact hn.1.1 (Prod.ext h.1.symm h.2.symm)
    simp only [Draw.targetAll, List.foldl_cons]
    rw [Draw.target_comm blend mode t b.1.1 b.1.2 a.1.1 a.1.2 _ _ hne]
  | trans h12 _ ih1 ih2 =>
    intro hn t
    rw [ih1 hn t]
    exact ih2 ((h12.map Prod.fst).nodup_iff.1 hn) t

/-- The steps of `DrawPartialSprite` visit each target position once. -/
theorem DrawPartialSprite.steps_nodup (x y fileX fileY fileSizeX fileSizeY : Int) :
    ((DrawPartialSprite.steps x y fileX fileY fileSizeX fileSizeY).map Prod.fst).Nodup := by
  unfold DrawPartialSprite.steps
  rw [List.map_flatMap]
  rw [List.nodup_flatMap]
  refine ⟨?_, ?_⟩
  · intro i _
    rw [List.map_map]
    refine (List.nodup_range _).map ?_
    intro a b h
    simp only [Function.comp_apply, Prod.mk.injEq] at h
    omega
  · refine (List.nodup_range _).pairwise_of_forall_ne ?_
    intro a _ b _ hab
    simp only [Function.onFun, List.map_map]
    intro p hp1 hp2
    simp only [List.mem_map, List.mem_range, Function.comp_apply] at hp1 hp2
    obtain ⟨j, _, rfl⟩ := hp1
    obtain ⟨j', _, h⟩ := hp2
    simp only [Prod.mk.injEq] at h
    omega

theorem DrawSprite.mem_steps (x y : Int) (size : Vi2d) (st : (Int × Int) × (Int × Int)) :
    st ∈ DrawSprite.steps x y size ↔
      (0 ≤ st.2.1 ∧ st.2.1 < size.x ∧ 0 ≤ st.2.2 ∧ st.2.2 < size.y ∧
        st.1 = (x + st.2.1, y + st.2.2)) := by
  obtain ⟨⟨px, py⟩, ⟨fx, fy⟩⟩ := st
  unfold DrawSprite.steps
  simp only [List.mem_flatMap, List.mem_map, List.mem_range, Prod.mk.injEq]
  constructor
  · rintro ⟨j, hj, i, hi, ⟨h1, h2⟩, h3, h4⟩
    omega
  · rintro ⟨h1, h2, h3, h4, h5, h6⟩
    exact ⟨fy.toNat, by omega, fx.toNat, by omega, ⟨by omega, by omega⟩, by omega, by omega⟩

theorem DrawPartialSprite.mem_steps_whole (x y fileSizeX fileSizeY : Int)
    (st : (Int × Int) × (Int × Int)) :
    st ∈ DrawPartialSprite.steps x y 0 0 fileSizeX fileSizeY ↔
      (0 ≤ st.2.1 ∧ st.2.1 < fileSizeX ∧ 0 ≤ st.2.2 ∧ st.2.2 < fileSizeY ∧
        st.1 = (x + st.2.1, y + st.2.2)) := by
  obtain ⟨⟨px, py⟩, ⟨fx, fy⟩⟩ := st
  unfold DrawPartialSprite.steps
  simp only [List.mem_flatMap, List.mem_map, List.mem_range, Prod.mk.injEq]
  constructor
  · rintro ⟨i, hi, j, hj, ⟨h1, h2⟩, h3, h4⟩
    omega
  · rintro ⟨h1, h2, h3, h4, h5, h6⟩
    exact ⟨fx.toNat, by omega, fy.toNat, by omega, ⟨by omega, by omega⟩, by omega, by omega⟩

/-- The steps of `DrawSprite` visit each target position once. -/
theorem DrawSprite.steps_positions_nodup (x y : Int) (size : Vi2d) :
    ((DrawSprite.steps x y size).map Prod.fst).Nodup := by
  unfold DrawSprite.steps
  rw [List.map_flatMap]
  rw [List.nodup_flatMap]
  refine ⟨?_, ?_⟩
  · intro i _
    rw [List.map_map]
    refine (List.nodup_range _).map ?_
    intro a b h
    simp only [Function.comp_apply, Prod.mk.injEq] at h
    omega
  · refine (List.nodup_range _).pairwise_of_forall_ne ?_
    intro a _ b _ hab
    simp only [Function.onFun, List.map_map]
    intro p hp1 hp2
    simp only [List.mem_map, List.mem_range, Function.comp_apply] at hp1 hp2
    obtain ⟨j, _, rfl⟩ := hp1
    obtain ⟨j', _, h⟩ := hp2
    simp only [Prod.mk.injEq] at h
    omega

/-- The two routines make the same calls in a different order. -/
theorem DrawSprite.steps_perm (x y : Int) (size : Vi2d) :
    (DrawPartialSprite.steps x y 0 0 size.x size.y).Perm (DrawSprite.steps x y size) := by
  rw [List.perm_ext_iff_of_nodup
    (List.Nodup.of_map _ (DrawPartialSprite.steps_nodup x y 0 0 size.x size.y))
    (List.Nodup.of_map _ (DrawSprite.steps_positions_nodup x y size))]
  intro st
  rw [DrawSprite.mem_steps, DrawPartialSprite.mem_steps_whole]

/-- The target after a run of DEFAULT `Draw` calls at pairwise different
positions: a position of the run that is in bounds holds the source pixel of
its step, every other position is unchanged. -/
theorem Draw.targetAll_DEFAULT (blend : Fin 256 → Fin 256 → Fin 256 → Fin 256) (s : Sprite)
    (steps : List ((Int × Int) × (Int × Int))) :
    ∀ t : Sprite, t.Inv → (steps.map Prod.fst).Nodup →
      (Draw.targetAll blend Pixel.Mode.DEFAULT s t steps).size = t.size ∧
      (Draw.targetAll blend Pixel.Mode.DEFAULT s t steps).Inv ∧
      (∀ st ∈ steps, t.inBounds st.1.1 st.1.2 = true →
        (Draw.targetAll blend Pixel.Mode.DEFAULT s t steps).GetPixel st.1.1 st.1.2 =
          s.GetPixel st.2.1 st.2.2) ∧
      (∀ px py : Int, (px, py) ∉ steps.map Prod.fst →
        (Draw.targetAll blend Pixel.Mode.DEFAULT s t steps).GetPixel px py =
          t.GetPixel px py) := by
  induction steps with
  | nil =>
    intro t hInv _
    refine ⟨rfl, hInv, ?_, fun _ _ _ => rfl⟩
    intro st hst
    simp at hst
  | cons st rest ih =>
    intro t hInv hn
    simp only [List.map_cons, List.nodup_cons] at hn
    have hsz := Sprite.SetPixel_size t st.1.1 st.1.2 (s.GetPixel st.2.1 st.2.2)
    have hInv1 : (t.SetPixel st.1.1 st.1.2 (s.GetPixel st.2.1 st.2.2)).2.Inv := by
      unfold Sprite.Inv at hInv ⊢
      rw [hsz.1, hsz.2]
      exact hInv
    have hstep : Draw.targetAll blend Pixel.Mode.DEFAULT s t (st :: rest) =
        Draw.targetAll blend Pixel.Mode.DEFAULT s
          (t.SetPixel st.1.1 st.1.2 (s.GetPixel st.2.1 st.2.2)).2 rest := rfl
    obtain ⟨h1, h2, h3, h4⟩ := ih _ hInv1 hn.2
    rw [hstep]
    refine ⟨by rw [h1, hsz.1], h2, ?_, ?_⟩
    · intro st' hst' hb
      simp only [List.mem_cons] at hst'
      rcases hst' with rfl | hst'
      · rw [h4 _ _ hn.1]
        exact Sprite.GetPixel_SetPixel_same t _ _ _ hInv hb
      · exact h3 st' hst' (by rw [Sprite.inBounds_SetPixel]; exact hb)
    · intro px py hp
      simp only [List.map_cons, List.mem_cons, not_or] at hp
      rw [h4 px py hp.2]
      refine Sprite.GetPixel_SetPixel_other t _ _ px py _ ?_
      intro h
      exact hp.1 (Prod.ext h.1 h.2)

/-- C37 as stated fails when the source is the sprite of the draw target
itself: on a 3x3 target with nine distinct pixels in DEFAULT mode,
`DrawSprite(1, -1, target)` copies every pixel before it is overwritten and
leaves pixel (2, 0) with the old pixel (1, 1), index 4, while
`DrawPartialSprite(1, -1, 0, 0, 3, 3, target)` walks column by column, reads
(1, 1) after it was overwritten, and leaves pixel (2, 0) with the old pixel
(0, 2), index 6. -/
theorem DrawSprite_of_target_differs :
    targetSprite ((GameEngine.onSprite sprite3x3ramp Pixel.Mode.DEFAULT).DrawSprite
      lerp_channel 1 (-1) SpriteArg.target) ≠
    targetSprite ((GameEngine.onSprite sprite3x3ramp Pixel.Mode.DEFAULT).DrawPartialSprite
      lerp_channel 1 (-1) 0 0 sprite3x3ramp.size.x sprite3x3ramp.size.y SpriteArg.target) ∧
    (targetSprite ((GameEngine.onSprite sprite3x3ramp Pixel.Mode.DEFAULT).DrawSprite
      lerp_channel 1 (-1) SpriteArg.target)).map (fun t => (t.GetPixel 2 0).r) = some 4 ∧
    (targetSprite ((GameEngine.onSprite sprite3x3ramp Pixel.Mode.DEFAULT).DrawPartialSprite
      lerp_channel 1 (-1) 0 0 sprite3x3ramp.size.x sprite3x3ramp.size.y
        SpriteArg.target)).map (fun t => (t.GetPixel 2 0).r) = some 6 := by
  decide

/-- C37, amended: for a source sprite `s` that is an object other than the
sprite of the draw target, every engine state in one of the modes DEFAULT,
MASK and ALPHA and every `(x, y)`, `DrawPartialSprite(x, y, 0, 0, s.size.x,
s.size.y, s)` and `DrawSprite(x, y, s)` both return and leave the same engine
state, so the same target buffer.  In DEFAULT mode, for a target holding
`size.x * size.y` pixels, that state has the target pixel `(x + i, y + j)`
equal to the pixel `(i, j)` of `s` for every `0 <= i < s.size.x`,
`0 <= j < s.size.y` with `(x + i, y + j)` inside the target, and every other
pixel unchanged. -/
theorem DrawPartialSprite_eq_DrawSprite (blend : Fin 256 → Fin 256 → Fin 256 → Fin 256)
    (e : GameEngine) (x y : Int) (s : Sprite)
    (hm : e.m_PixelMode = Pixel.Mode.DEFAULT ∨ e.m_PixelMode = Pixel.Mode.MASK ∨
      e.m_PixelMode = Pixel.Mode.ALPHA) :
    e.DrawPartialSprite blend x y 0 0 s.size.x s.size.y (SpriteArg.other s) =
      e.DrawSprite blend x y (SpriteArg.other s) ∧
    (∃ e1 : GameEngine, e.DrawSprite blend x y (SpriteArg.other s) = some e1) ∧
    (∀ t : Sprite, e.m_DrawTarget = some { sprite := t } → t.Inv →
      e.m_PixelMode = Pixel.Mode.DEFAULT →
      ∃ t1 : Sprite, e.DrawSprite blend x y (SpriteArg.other s) = some (e.withTarget t1) ∧
        t1.size = t.size ∧ t1.Inv ∧
        (∀ i j : Int, 0 ≤ i → i < s.size.x → 0 ≤ j → j < s.size.y →
          t.inBounds (x + i) (y + j) = true →
          t1.GetPixel (x + i) (y + j) = s.GetPixel i j) ∧
        (∀ px py : Int,
          ¬ (x ≤ px ∧ px < x + s.size.x ∧ y ≤ py ∧ py < y + s.size.y) →
          t1.GetPixel px py = t.GetPixel px py)) := by
  have hmc : e.m_PixelMode ≠ Pixel.Mode.CUSTOM := by
    rcases hm with h | h | h <;> rw [h] <;> decide
  have hD : e.DrawSprite blend x y (SpriteArg.other s) =
      drawFromAll blend (SpriteArg.other s) e (DrawSprite.steps x y s.size) := rfl
  have hP : e.DrawPartialSprite blend x y 0 0 s.size.x s.size.y (SpriteArg.other s) =
      drawFromAll blend (SpriteArg.other s) e
        (DrawPartialSprite.steps x y 0 0 s.size.x s.size.y) := rfl
  refine ⟨?_, ?_, ?_⟩
  · rw [hD, hP]
    cases ht : e.m_DrawTarget with
    | none => rw [drawFromAll_no_target _ _ _ _ ht, drawFromAll_no_target _ _ _ _ ht]
    | some g =>
      rw [drawFromAll_other blend s _ e g hmc ht, drawFromAll_other blend s _ e g hmc ht,
        Draw.targetAll_perm blend e.m_PixelMode s _ _ (DrawSprite.steps_perm x y s.size)
          (DrawPartialSprite.steps_nodup x y 0 0 s.size.x s.size.y)]
  · rw [hD]
    cases ht : e.m_DrawTarget with
    | none => exact ⟨_, drawFromAll_no_target _ _ _ _ ht⟩
    | some g => exact ⟨_, drawFromAll_other blend s _ e g hmc ht⟩
  · intro t ht hInv hmode
    obtain ⟨h1, h2, h3, h4⟩ := Draw.targetAll_DEFAULT blend s (DrawSprite.steps x y s.size) t hInv
      (DrawSprite.steps_positions_nodup x y s.size)
    refine ⟨_, ?_, h1, h2, ?_, ?_⟩
    · rw [hD, drawFromAll_other blend s _ e _ hmc ht, hmode]
    · intro i j hi0 hi hj0 hj hb
      exact h3 ((x + i, y + j), (i, j))
        ((DrawSprite.mem_steps x y s.size _).2 ⟨hi0, hi, hj0, hj, rfl⟩) hb
    · intro px py hout
      refine h4 px py ?_
      intro hmem
      simp only [List.mem_map] at hmem
      obtain ⟨st, hst, hfst⟩ := hmem
      obtain ⟨a, b, c, d, e5⟩ := (DrawSprite.mem_steps x y s.size st).1 hst
      rw [e5] at hfst
      simp only [Prod.mk.injEq] at hfst
      omega

theorem DrawPartialSprite_eq_DrawSprite_witness :
    (GameEngine.onSprite sprite3x3 Pixel.Mode.ALPHA).DrawPartialSprite lerp_channel 1 (-1) 0 0
        sprite2x2.size.x sprite2x2.size.y (SpriteArg.other sprite2x2) =
      (GameEngine.onSprite sprite3x3 Pixel.Mode.ALPHA).DrawSprite lerp_channel 1 (-1)
        (SpriteArg.other sprite2x2) :=
  (DrawPartialSprite_eq_DrawSprite lerp_channel (GameEngine.onSprite sprite3x3 Pixel.Mode.ALPHA)
    1 (-1) sprite2x2 (Or.inr (Or.inr rfl))).1

end GameEngine

end DGE
